import Mathlib

/-!
# SimpleVector: a shallow embedding of `simple_vector.h`

The container manages raw memory by hand, so the embedding keeps an explicit
heap.  A heap is a list of blocks, a block is a list of slots, and a slot is
either raw memory (`none`) or holds a live object (`some x`).  A pointer to a
block is its index in the heap (`none` is `nullptr`); a released block leaves
a tombstone, so addresses are never reused.

Every operation returns an `Option`: `none` stands for undefined behaviour
(a write outside the block, a read of a raw slot, a move assignment to a raw
slot of a type that is not an implicit-lifetime type, a failed `assert`, a
pointer difference between two blocks, ...).

`PushBack`, `Insert`, `EmplaceBack` and `Emplace` take their argument by
reference and read it only when they construct the new element, so the
argument is modelled as an `Arg`: an object outside the heap, or a reference
to a slot of a block, which may be a slot of the vector itself.

`size_t` values are natural numbers; the two multiplications of the source
(`capacity_ * 2` and `n * sizeof(Type)`) are reduced modulo `2 ^ 64`.
`operator new` itself never fails in this model (unbounded heap), and
element constructors do not throw.
-/

namespace SimpleVector

/-- The number of values of `size_t`. -/
def SIZE_MOD : Nat := 2 ^ 64

/-- What the container needs to know about its element type `Type`. -/
class Elem (α : Type) where
  /-- The value built by `Type()`. -/
  dflt : α
  /-- The value a live object is left with after it was moved from. -/
  movedFrom : α → α
  /-- The value of `sizeof(Type)`, a positive `size_t`. -/
  sizeofType : Nat
  /-- Whether `Type` is an implicit-lifetime type (a scalar such as `int`, or a
  class with a trivial constructor and a trivial destructor).  In storage that
  `operator new` returned, an object of such a type exists without a
  constructor call, so an assignment to a slot in which nothing was
  constructed is defined; for every other type it is undefined behaviour. -/
  implicitLifetime : Bool
  sizeofType_pos : 0 < sizeofType
  sizeofType_lt : sizeofType < SIZE_MOD

/-- The type `int`: four bytes, value-initialised to zero, unchanged by a move,
a scalar and so an implicit-lifetime type. -/
instance instElemInt : Elem Int where
  dflt := 0
  movedFrom := id
  sizeofType := 4
  implicitLifetime := true
  sizeofType_pos := by decide
  sizeofType_lt := by decide

/-- The class `X` of `main.cpp`: one `size_t` field, `X()` is `X(5)`, and the
move operations leave `0` behind (`exchange(other.x_, 0)`).  Its constructors
and its move assignment are user-provided and its copy constructor is deleted,
so it is not an implicit-lifetime type. -/
structure X where
  x_ : Nat
deriving DecidableEq, Repr

instance instElemX : Elem X where
  dflt := ⟨5⟩
  movedFrom := fun _ => ⟨0⟩
  sizeofType := 8
  implicitLifetime := false
  sizeofType_pos := by decide
  sizeofType_lt := by decide

abbrev Block (α : Type) := List (Option α)

abbrev Heap (α : Type) := List (Option (Block α))

/-- A `Type*` that points at slot `off` of the block `base`. -/
structure Iter where
  base : Option Nat
  off : Nat
deriving DecidableEq, Repr

end SimpleVector

/-- The three data members of `SimpleVector<Type>`. -/
structure SimpleVector where
  size_ : Nat := 0
  capacity_ : Nat := 0
  data_ : Option Nat := none
deriving DecidableEq, Repr

namespace SimpleVector

variable {α : Type}

/-! ## Raw memory -/

/-- The live block a pointer refers to, with its address. -/
def lookup (h : Heap α) (d : Option Nat) : Option (Nat × Block α) :=
  match d with
  | none => none
  | some p =>
    match h[p]? with
    | some (some b) => some (p, b)
    | _ => none

/-- Models `operator new(n * sizeof(Type))`: a fresh block of raw slots.  The byte
count is computed in `size_t`, so the block holds as many slots as fit in
`n * sizeof(Type) mod 2 ^ 64` bytes.  The pointer returned is never null. -/
def Allocate [Elem α] (h : Heap α) (n : Nat) : Option Nat × Heap α :=
  (some h.length,
    h ++ [some (List.replicate (n * Elem.sizeofType α % SIZE_MOD / Elem.sizeofType α) none)])

/-- Models `operator delete(d)`: no effect on `nullptr`, releases a live block. -/
def operatorDelete (h : Heap α) (d : Option Nat) : Option (Heap α) :=
  match d with
  | none => some h
  | some p =>
    match h[p]? with
    | some (some _) => some (h.set p none)
    | _ => none

/-- Models `new (d + i) Type(x)`: the slot must lie inside the block. -/
def construct (h : Heap α) (d : Option Nat) (i : Nat) (x : α) : Option (Heap α) :=
  match lookup h d with
  | some (p, b) => if i < b.length then some (h.set p (some (b.set i (some x)))) else none
  | none => none

/-- Models `d[i].~Type()`: the slot must hold a live object; it becomes raw. -/
def destroy (h : Heap α) (d : Option Nat) (i : Nat) : Option (Heap α) :=
  match lookup h d with
  | some (p, b) =>
    match b[i]? with
    | some (some _) => some (h.set p (some (b.set i none)))
    | _ => none
  | none => none

/-- Reading `d[i]`: the value of the live object in that slot. -/
def load (h : Heap α) (d : Option Nat) (i : Nat) : Option α :=
  match lookup h d with
  | some (_, b) =>
    match b[i]? with
    | some (some x) => some x
    | _ => none
  | none => none

/-- Models `std::move(d[i])` consumed by a move constructor or a move assignment:
yields the value and leaves the moved-from object, still live, behind. -/
def moveOut [Elem α] (h : Heap α) (d : Option Nat) (i : Nat) : Option (α × Heap α) :=
  match lookup h d with
  | some (p, b) =>
    match b[i]? with
    | some (some x) => some (x, h.set p (some (b.set i (some (Elem.movedFrom x)))))
    | _ => none
  | none => none

/-- Models `d[i] = x` (the target of a move assignment).  The slot must lie inside
the block and hold a live object.  On a raw slot, where no object was
constructed, the assignment is undefined, unless `Type` is an
implicit-lifetime type: then the slot holds a live object afterwards. -/
def assign [Elem α] (h : Heap α) (d : Option Nat) (i : Nat) (x : α) : Option (Heap α) :=
  match lookup h d with
  | some (p, b) =>
    match b[i]? with
    | some (some _) => some (h.set p (some (b.set i (some x))))
    | some none =>
      if Elem.implicitLifetime α = true then some (h.set p (some (b.set i (some x))))
      else none
    | none => none
  | none => none

/-- Models `new (dst + j) Type(std::move(src[i])); src[i].~Type();` -/
def relocate [Elem α] (h : Heap α) (dst : Option Nat) (j : Nat) (src : Option Nat) (i : Nat) :
    Option (Heap α) :=
  match moveOut h src i with
  | some (x, h1) =>
    match construct h1 dst j x with
    | some h2 => destroy h2 src i
    | none => none
  | none => none

/-- Runs `body i` for `i`, `i + 1`, ... a given number of times. -/
def forLoopAux (body : Nat → Heap α → Option (Heap α)) : Nat → Nat → Heap α → Option (Heap α)
  | 0, _, h => some h
  | n + 1, i, h =>
    match body i h with
    | some h1 => forLoopAux body n (i + 1) h1
    | none => none

/-- Models `for (size_t i = lo; i < hi; ++i) body(i);` -/
def forLoop (lo hi : Nat) (body : Nat → Heap α → Option (Heap α)) (h : Heap α) :
    Option (Heap α) :=
  forLoopAux body (hi - lo) lo h

/-- The loop of `std::move_backward`:
`while (first != last) *(--d_last) = std::move(*(--last));` with the number
of remaining steps `last - first` as the recursion argument. -/
def move_backward_aux [Elem α] (d : Option Nat) : Nat → Nat → Nat → Heap α → Option (Heap α)
  | 0, _, _, h => some h
  | n + 1, last, d_last, h =>
    match moveOut h d (last - 1) with
    | some (x, h1) =>
      match assign h1 d (d_last - 1) x with
      | some h2 => move_backward_aux d n (last - 1) (d_last - 1) h2
      | none => none
    | none => none

/-- Models `std::move_backward(d + first, d + last, d + d_last)`. -/
def move_backward [Elem α] (d : Option Nat) (first last d_last : Nat) (h : Heap α) :
    Option (Heap α) :=
  move_backward_aux d (last - first) last d_last h

/-- The argument of `PushBack`, `Insert`, `EmplaceBack` and `Emplace`.  The
source takes it by reference (`const Type&`, `Type&&`, `Args&&...`) and reads
it only when the new element is constructed.  It is an object outside the
blocks of the heap, known by its value (a temporary or a local: `value`), or
the lvalue `d[i]`, slot `i` of the block `d`, from which the element is copied
(`ref`), or the rvalue `std::move(d[i])`, from which it is moved (`rref`). -/
inductive Arg (α : Type) where
  | value (x : α)
  | ref (d : Option Nat) (i : Nat)
  | rref (d : Option Nat) (i : Nat)
deriving DecidableEq, Repr

/-- Reading the argument at the moment the new element is constructed from
it: the value the constructor receives, and the heap the constructor leaves
(a move constructor leaves its source moved-from). -/
def takeArg [Elem α] (h : Heap α) : Arg α → Option (α × Heap α)
  | Arg.value x => some (x, h)
  | Arg.ref d i =>
    match load h d i with
    | some x => some (x, h)
    | none => none
  | Arg.rref d i => moveOut h d i

/-- Models `new (d + i) Type(std::forward<Args>(args)...)`. -/
def constructArg [Elem α] (h : Heap α) (d : Option Nat) (i : Nat) (a : Arg α) :
    Option (Heap α) :=
  match takeArg h a with
  | some (x, h1) => construct h1 d i x
  | none => none

/-! ## Member functions -/

/-- Models `begin()` -/
def begin_ (v : SimpleVector) : Iter := ⟨v.data_, 0⟩

/-- Models `end()` -/
def end_ (v : SimpleVector) : Iter := ⟨v.data_, v.size_⟩

/-- Models `GetSize()` -/
def GetSize (v : SimpleVector) : Nat := v.size_

/-- Models `GetCapacity()` -/
def GetCapacity (v : SimpleVector) : Nat := v.capacity_

/-- Models `IsEmpty()` -/
def IsEmpty (v : SimpleVector) : Bool := v.size_ == 0

/-- Models `pos - begin()`: defined only for two pointers into the same block. -/
def offsetOf (v : SimpleVector) (pos : Iter) : Option Nat :=
  if pos.base = v.data_ then some (pos.off - (begin_ v).off) else none

/-- Models `Reserve(new_capacity)` -/
def Reserve [Elem α] (h : Heap α) (v : SimpleVector) (new_capacity : Nat) :
    Option (Heap α × SimpleVector) :=
  if new_capacity > v.capacity_ then
    match Allocate h new_capacity with
    | (new_data, h1) =>
      match forLoop 0 v.size_ (fun i g => relocate g new_data i v.data_ i) h1 with
      | some h2 =>
        match operatorDelete h2 v.data_ with
        | some h3 => some (h3, { v with data_ := new_data, capacity_ := new_capacity })
        | none => none
      | none => none
  else some (h, v)

/-- Models `EmplaceBack(args...)` with the argument `a`, which is read after
`Reserve` has run.  The reference returned is the pointer to slot
`size_ - 1`. -/
def EmplaceBack [Elem α] (h : Heap α) (v : SimpleVector) (a : Arg α) :
    Option (Iter × Heap α × SimpleVector) :=
  match (if v.size_ = v.capacity_ then
      Reserve h v (if v.capacity_ = 0 then 1 else v.capacity_ * 2 % SIZE_MOD)
    else some (h, v)) with
  | some (h1, v1) =>
    match constructArg h1 v1.data_ v1.size_ a with
    | some h2 =>
      let v2 : SimpleVector := { v1 with size_ := v1.size_ + 1 }
      some (⟨v2.data_, v2.size_ - 1⟩, h2, v2)
    | none => none
  | none => none

/-- Models `PushBack(item)`: both overloads forward their reference to
`EmplaceBack`. -/
def PushBack [Elem α] (h : Heap α) (v : SimpleVector) (item : Arg α) :
    Option (Heap α × SimpleVector) :=
  match EmplaceBack h v item with
  | some (_, h1, v1) => some (h1, v1)
  | none => none

/-- Models `Emplace(pos, args...)` with the argument `a`, which is read when
the new element is constructed: on the growth path after the elements before
`pos` have been relocated and destroyed, on the other path after the shift. -/
def Emplace [Elem α] (h : Heap α) (v : SimpleVector) (pos : Iter) (a : Arg α) :
    Option (Iter × Heap α × SimpleVector) :=
  match offsetOf v pos with
  | none => none
  | some index =>
    if v.size_ = v.capacity_ then
      let new_capacity := if v.capacity_ = 0 then 1 else v.capacity_ * 2 % SIZE_MOD
      match Allocate h new_capacity with
      | (new_data, h1) =>
        match forLoop 0 index (fun i g => relocate g new_data i v.data_ i) h1 with
        | some h2 =>
          match constructArg h2 new_data index a with
          | some h3 =>
            match forLoop index v.size_ (fun i g => relocate g new_data (i + 1) v.data_ i) h3 with
            | some h4 =>
              match operatorDelete h4 v.data_ with
              | some h5 =>
                some (⟨new_data, index⟩, h5,
                  { size_ := v.size_ + 1, capacity_ := new_capacity, data_ := new_data })
              | none => none
            | none => none
          | none => none
        | none => none
    else
      match (if index < v.size_ then move_backward v.data_ index v.size_ (v.size_ + 1) h
        else some h) with
      | some h1 =>
        match constructArg h1 v.data_ index a with
        | some h2 => some (⟨v.data_, index⟩, h2, { v with size_ := v.size_ + 1 })
        | none => none
      | none => none

/-- Models `Insert(pos, value)`: both overloads forward their reference to
`Emplace`. -/
def Insert [Elem α] (h : Heap α) (v : SimpleVector) (pos : Iter) (value : Arg α) :
    Option (Iter × Heap α × SimpleVector) :=
  Emplace h v pos value

/-- Models `PopBack()` -/
def PopBack (h : Heap α) (v : SimpleVector) : Option (Heap α × SimpleVector) :=
  if v.size_ > 0 then
    match destroy h v.data_ (v.size_ - 1) with
    | some h1 => some (h1, { v with size_ := v.size_ - 1 })
    | none => none
  else none

/-- Models `Erase(pos)` -/
def Erase [Elem α] (h : Heap α) (v : SimpleVector) (pos : Iter) :
    Option (Iter × Heap α × SimpleVector) :=
  match offsetOf v pos with
  | none => none
  | some index =>
    if index < v.size_ then
      match destroy h v.data_ index with
      | some h1 =>
        match forLoop index (v.size_ - 1)
            (fun i g => relocate g v.data_ i v.data_ (i + 1)) h1 with
        | some h2 => some (⟨v.data_, index⟩, h2, { v with size_ := v.size_ - 1 })
        | none => none
      | none => none
    else none

/-- Models `swap(other)`: the pair is the new `*this` and the new `other`. -/
def swap (v other : SimpleVector) : SimpleVector × SimpleVector :=
  ({ size_ := other.size_, capacity_ := other.capacity_, data_ := other.data_ },
   { size_ := v.size_, capacity_ := v.capacity_, data_ := v.data_ })

/-- Models `DestroyElements()` -/
def DestroyElements (h : Heap α) (v : SimpleVector) : Option (Heap α) :=
  forLoop 0 v.size_ (fun i g => destroy g v.data_ i) h

/-- Models `Clear()` -/
def Clear (h : Heap α) (v : SimpleVector) : Option (Heap α × SimpleVector) :=
  match DestroyElements h v with
  | some h1 => some (h1, { v with size_ := 0 })
  | none => none

/-- Models `Resize(new_size)` -/
def Resize [Elem α] (h : Heap α) (v : SimpleVector) (new_size : Nat) :
    Option (Heap α × SimpleVector) :=
  match (if new_size > v.capacity_ then
      Reserve h v (max new_size (v.capacity_ * 2 % SIZE_MOD))
    else some (h, v)) with
  | some (h1, v1) =>
    match (if new_size > v1.size_ then
        forLoop v1.size_ new_size (fun i g => construct g v1.data_ i (Elem.dflt : α)) h1
      else forLoop new_size v1.size_ (fun i g => destroy g v1.data_ i) h1) with
    | some h2 => some (h2, { v1 with size_ := new_size })
    | none => none
  | none => none

/-- Models `operator[](index)`, read: the `assert` makes an index outside the live
range undefined. -/
def index (h : Heap α) (v : SimpleVector) (i : Nat) : Option α :=
  if i < v.size_ then load h v.data_ i else none

/-- Models `operator[](index)`, written through: `v[i] = x`. -/
def setIndex [Elem α] (h : Heap α) (v : SimpleVector) (i : Nat) (x : α) : Option (Heap α) :=
  if i < v.size_ then
    match load h v.data_ i with
    | some _ => assign h v.data_ i x
    | none => none
  else none

/-! ## Constructors, destructor, assignment -/

/-- Models `AllocateAndDefaultInitialize(n)` -/
def AllocateAndDefaultInitialize [Elem α] (h : Heap α) (n : Nat) : Option (Option Nat × Heap α) :=
  match Allocate h n with
  | (new_data, h1) =>
    match forLoop 0 n (fun i g => construct g new_data i (Elem.dflt : α)) h1 with
    | some h2 => some (new_data, h2)
    | none => none

/-- Models `AllocateAndFill(n, value)` -/
def AllocateAndFill [Elem α] (h : Heap α) (n : Nat) (value : α) : Option (Option Nat × Heap α) :=
  match Allocate h n with
  | (new_data, h1) =>
    match forLoop 0 n (fun i g => construct g new_data i value) h1 with
    | some h2 => some (new_data, h2)
    | none => none

/-- Models `AllocateAndCopy(first, last)` when no copy constructor throws: the block
is sized by `last - first`, and element `i` of the range is copied to slot
`i`. -/
def AllocateAndCopy [Elem α] (h : Heap α) (first last : Iter) : Option (Option Nat × Heap α) :=
  if first.base = last.base then
    let n := last.off - first.off
    match Allocate h n with
    | (new_data, h1) =>
      match forLoop 0 n (fun i g =>
          match load g first.base (first.off + i) with
          | some x => construct g new_data i x
          | none => none) h1 with
      | some h2 => some (new_data, h2)
      | none => none
  else none

/-- Models `SimpleVector()` -/
def ctorDefault : SimpleVector := { size_ := 0, capacity_ := 0, data_ := none }

/-- Models `SimpleVector(size_t size)` -/
def ctorSized [Elem α] (h : Heap α) (size : Nat) : Option (Heap α × SimpleVector) :=
  if size ≠ 0 then
    match AllocateAndDefaultInitialize h size with
    | some (d, h1) => some (h1, { size_ := size, capacity_ := size, data_ := d })
    | none => none
  else some (h, { size_ := size, capacity_ := size, data_ := none })

/-- Models `SimpleVector(size_t size, const Type& value)` -/
def ctorFill [Elem α] (h : Heap α) (size : Nat) (value : α) : Option (Heap α × SimpleVector) :=
  if size ≠ 0 then
    match AllocateAndFill h size value with
    | some (d, h1) => some (h1, { size_ := size, capacity_ := size, data_ := d })
    | none => none
  else some (h, { size_ := size, capacity_ := size, data_ := none })

/-- Models `SimpleVector(std::initializer_list<Type> init)`.  The backing array of
the list is a temporary block of the heap, gone when the constructor is
done. -/
def ctorList [Elem α] (h : Heap α) (init : List α) : Option (Heap α × SimpleVector) :=
  if init.length ≠ 0 then
    let arr := h.length
    match AllocateAndCopy (h ++ [some (init.map some)]) ⟨some arr, 0⟩ ⟨some arr, init.length⟩ with
    | some (d, h1) =>
      some (h1.set arr none, { size_ := init.length, capacity_ := init.length, data_ := d })
    | none => none
  else some (h, { size_ := init.length, capacity_ := init.length, data_ := none })

/-- Models `SimpleVector(ReserveType r)` -/
def ctorReserve [Elem α] (h : Heap α) (capacity : Nat) : Heap α × SimpleVector :=
  if capacity ≠ 0 then
    match Allocate h capacity with
    | (d, h1) => (h1, { size_ := 0, capacity_ := capacity, data_ := d })
  else (h, { size_ := 0, capacity_ := capacity, data_ := none })

/-- Models `SimpleVector(const SimpleVector& other)` -/
def ctorCopy [Elem α] (h : Heap α) (other : SimpleVector) : Option (Heap α × SimpleVector) :=
  if other.capacity_ ≠ 0 then
    match AllocateAndCopy h (begin_ other) (end_ other) with
    | some (d, h1) =>
      some (h1, { size_ := other.size_, capacity_ := other.capacity_, data_ := d })
    | none => none
  else some (h, { size_ := other.size_, capacity_ := other.capacity_, data_ := none })

/-- Models `SimpleVector(SimpleVector&& other)`: the pair is the new vector and what
is left of `other`. -/
def ctorMove (other : SimpleVector) : SimpleVector × SimpleVector :=
  ({ size_ := other.size_, capacity_ := other.capacity_, data_ := other.data_ },
   { size_ := 0, capacity_ := 0, data_ := none })

/-- Models `~SimpleVector()` -/
def dtor (h : Heap α) (v : SimpleVector) : Option (Heap α) :=
  match DestroyElements h v with
  | some h1 => operatorDelete h1 v.data_
  | none => none

/-- Models `operator=(const SimpleVector& rhs)`.  Vectors are values here, so the
test `this != &rhs` is the flag `same` (when it is set, `rhs` is `v`). -/
def copyAssign [Elem α] (h : Heap α) (v rhs : SimpleVector) (same : Bool) :
    Option (Heap α × SimpleVector) :=
  if same = false then
    match ctorCopy h rhs with
    | some (h1, tmp) =>
      match swap v tmp with
      | (v1, tmp1) =>
        match dtor h1 tmp1 with
        | some h2 => some (h2, v1)
        | none => none
    | none => none
  else some (h, v)

/-- Models `operator=(SimpleVector&& rhs)`: the result holds the new `*this` and
what is left of `rhs`. -/
def moveAssign (h : Heap α) (v rhs : SimpleVector) (same : Bool) :
    Option (Heap α × SimpleVector × SimpleVector) :=
  if same = false then
    match ctorMove rhs with
    | (tmp, rhs1) =>
      match swap v tmp with
      | (v1, tmp1) =>
        match dtor h tmp1 with
        | some h2 => some (h2, v1, rhs1)
        | none => none
  else some (h, v, rhs)

/-! ## A pointwise view of the heap -/

/-- The number of slots of the live block at address `p`. -/
def blockLen (h : Heap α) (p : Nat) : Option Nat :=
  match h[p]? with
  | some (some b) => some b.length
  | _ => none

/-- Slot `k` of the live block at address `p`: `some none` is a raw slot,
`some (some x)` a live object. -/
def slot (h : Heap α) (p k : Nat) : Option (Option α) :=
  match h[p]? with
  | some (some b) => b[k]?
  | _ => none

/-- The heap `g` is `h` with the single slot `(p, i)` set to `s`. -/
def Poked (h g : Heap α) (p i : Nat) (s : Option α) : Prop :=
  g.length = h.length ∧ (∀ r, blockLen g r = blockLen h r) ∧
    ∀ r k, slot g r k = if r = p ∧ k = i then some s else slot h r k

/-- The heaps `h` and `g` have the same blocks with the same lengths. -/
def Shape (h g : Heap α) : Prop :=
  g.length = h.length ∧ ∀ r, blockLen g r = blockLen h r

/-- Every block of `h` other than the block `d` is found unchanged in `g`. -/
def Frame (h g : Heap α) (d : Option Nat) : Prop :=
  h.length ≤ g.length ∧ ∀ r, r < h.length → some r ≠ d →
    blockLen g r = blockLen h r ∧ ∀ k, slot g r k = slot h r k

/-- A block of `n` slots has a byte size that `size_t` can hold. -/
def Fits (α : Type) [Elem α] (n : Nat) : Prop := n * Elem.sizeofType α < SIZE_MOD

instance instDecidableFits (α : Type) [Elem α] (n : Nat) : Decidable (Fits α n) := by
  unfold Fits; infer_instance

/-- The abstraction relation: the vector `v` is well formed in the heap `h`
and holds exactly the elements `xs`.  Its block has `capacity_` slots, the
first `size_` of them live, the others raw. -/
def Rep (h : Heap α) (v : SimpleVector) (xs : List α) : Prop :=
  xs.length = v.size_ ∧ v.size_ ≤ v.capacity_ ∧
    match v.data_ with
    | none => v.capacity_ = 0
    | some p => h[p]? = some (some (xs.map some ++ List.replicate (v.capacity_ - v.size_) none))

instance instDecidableRep [DecidableEq α] (h : Heap α) (v : SimpleVector) (xs : List α) :
    Decidable (Rep h v xs) := by
  unfold Rep
  cases v.data_ <;> exact inferInstance

/-- The heap `g` comes after `h`: no address of `h` is lost, and a block of
`h` that is still live in `g` has the length it had in `h`. -/
def Evolves (h g : Heap α) : Prop :=
  h.length ≤ g.length ∧ ∀ p L, p < h.length → blockLen g p = some L → blockLen h p = some L

/-- The heap `g` comes after `h` and holds, at the first address after `h`,
a block which, while live, has at most `n` slots. -/
def Fresh (h g : Heap α) (n : Nat) : Prop :=
  Evolves h g ∧ h.length < g.length ∧ ∀ L, blockLen g h.length = some L → L ≤ n

/-- The invariant of a vector `v` in the heap `h`: the two properties of the
size/capacity invariant, and, to carry them through every operation, that a
non-null `data_` is an address of the heap whose block, while live, has at
most `capacity_` slots. -/
def Inv (h : Heap α) (v : SimpleVector) : Prop :=
  v.size_ ≤ v.capacity_ ∧ (v.capacity_ = 0 → v.data_ = none) ∧
    ∀ p, v.data_ = some p → p < h.length ∧ ∀ L, blockLen h p = some L → L ≤ v.capacity_

/-- A program state: the heap and the vectors alive in it. -/
structure World (α : Type) where
  heap : Heap α
  vecs : List SimpleVector

/-- The states a program can reach: it starts with no vector (and any heap),
constructs vectors, and calls the public operations on the vectors it has,
within their preconditions (a position passed to `Insert` or `Emplace` lies
in `[begin(), end()]`).  A step exists only when the call is defined. -/
inductive Reachable [Elem α] : World α → Prop
  | start (h : Heap α) : Reachable ⟨h, []⟩
  | ctorDefault (w : World α) : Reachable w → Reachable ⟨w.heap, w.vecs ++ [ctorDefault]⟩
  | ctorSized (w : World α) (n : Nat) (g : Heap α) (u : SimpleVector) : Reachable w →
      ctorSized w.heap n = some (g, u) → Reachable ⟨g, w.vecs ++ [u]⟩
  | ctorFill (w : World α) (n : Nat) (x : α) (g : Heap α) (u : SimpleVector) : Reachable w →
      ctorFill w.heap n x = some (g, u) → Reachable ⟨g, w.vecs ++ [u]⟩
  | ctorList (w : World α) (init : List α) (g : Heap α) (u : SimpleVector) : Reachable w →
      ctorList w.heap init = some (g, u) → Reachable ⟨g, w.vecs ++ [u]⟩
  | ctorReserve (w : World α) (n : Nat) : Reachable w →
      Reachable ⟨(ctorReserve w.heap n).1, w.vecs ++ [(ctorReserve w.heap n).2]⟩
  | ctorCopy (w : World α) (i : Nat) (o : SimpleVector) (g : Heap α) (u : SimpleVector) :
      Reachable w → w.vecs[i]? = some o → ctorCopy w.heap o = some (g, u) →
      Reachable ⟨g, w.vecs ++ [u]⟩
  | ctorMove (w : World α) (i : Nat) (o : SimpleVector) : Reachable w → w.vecs[i]? = some o →
      Reachable ⟨w.heap, w.vecs.set i (ctorMove o).2 ++ [(ctorMove o).1]⟩
  | dtor (w : World α) (i : Nat) (v : SimpleVector) (g : Heap α) : Reachable w →
      w.vecs[i]? = some v → dtor w.heap v = some g → Reachable ⟨g, w.vecs.eraseIdx i⟩
  | copyAssign (w : World α) (i j : Nat) (v rhs : SimpleVector) (g : Heap α)
      (u : SimpleVector) : Reachable w → w.vecs[i]? = some v → w.vecs[j]? = some rhs →
      copyAssign w.heap v rhs (decide (i = j)) = some (g, u) → Reachable ⟨g, w.vecs.set i u⟩
  | moveAssign (w : World α) (i j : Nat) (v rhs : SimpleVector) (g : Heap α)
      (u r : SimpleVector) : Reachable w → w.vecs[i]? = some v → w.vecs[j]? = some rhs →
      moveAssign w.heap v rhs (decide (i = j)) = some (g, u, r) →
      Reachable ⟨g, (w.vecs.set j r).set i u⟩
  | swap (w : World α) (i j : Nat) (v o : SimpleVector) : Reachable w →
      w.vecs[i]? = some v → w.vecs[j]? = some o →
      Reachable ⟨w.heap, (w.vecs.set j (swap v o).2).set i (swap v o).1⟩
  | pushBack (w : World α) (i : Nat) (v : SimpleVector) (a : Arg α) (g : Heap α)
      (u : SimpleVector) : Reachable w → w.vecs[i]? = some v →
      PushBack w.heap v a = some (g, u) → Reachable ⟨g, w.vecs.set i u⟩
  | emplaceBack (w : World α) (i : Nat) (v : SimpleVector) (a : Arg α) (it : Iter)
      (g : Heap α) (u : SimpleVector) : Reachable w → w.vecs[i]? = some v →
      EmplaceBack w.heap v a = some (it, g, u) → Reachable ⟨g, w.vecs.set i u⟩
  | insert (w : World α) (i : Nat) (v : SimpleVector) (k : Nat) (a : Arg α) (it : Iter)
      (g : Heap α) (u : SimpleVector) : Reachable w → w.vecs[i]? = some v → k ≤ v.size_ →
      Insert w.heap v ⟨v.data_, k⟩ a = some (it, g, u) → Reachable ⟨g, w.vecs.set i u⟩
  | emplace (w : World α) (i : Nat) (v : SimpleVector) (k : Nat) (a : Arg α) (it : Iter)
      (g : Heap α) (u : SimpleVector) : Reachable w → w.vecs[i]? = some v → k ≤ v.size_ →
      Emplace w.heap v ⟨v.data_, k⟩ a = some (it, g, u) → Reachable ⟨g, w.vecs.set i u⟩
  | popBack (w : World α) (i : Nat) (v : SimpleVector) (g : Heap α) (u : SimpleVector) :
      Reachable w → w.vecs[i]? = some v → PopBack w.heap v = some (g, u) →
      Reachable ⟨g, w.vecs.set i u⟩
  | erase (w : World α) (i : Nat) (v : SimpleVector) (pos : Iter) (it : Iter) (g : Heap α)
      (u : SimpleVector) : Reachable w → w.vecs[i]? = some v →
      Erase w.heap v pos = some (it, g, u) → Reachable ⟨g, w.vecs.set i u⟩
  | clear (w : World α) (i : Nat) (v : SimpleVector) (g : Heap α) (u : SimpleVector) :
      Reachable w → w.vecs[i]? = some v → Clear w.heap v = some (g, u) →
      Reachable ⟨g, w.vecs.set i u⟩
  | resize (w : World α) (i : Nat) (v : SimpleVector) (n : Nat) (g : Heap α)
      (u : SimpleVector) : Reachable w → w.vecs[i]? = some v →
      Resize w.heap v n = some (g, u) → Reachable ⟨g, w.vecs.set i u⟩
  | reserve (w : World α) (i : Nat) (v : SimpleVector) (n : Nat) (g : Heap α)
      (u : SimpleVector) : Reachable w → w.vecs[i]? = some v →
      Reserve w.heap v n = some (g, u) → Reachable ⟨g, w.vecs.set i u⟩
  | setIndex (w : World α) (i : Nat) (v : SimpleVector) (k : Nat) (x : α) (g : Heap α) :
      Reachable w → w.vecs[i]? = some v → setIndex w.heap v k x = some g →
      Reachable ⟨g, w.vecs⟩

/-- Models `for (x : items) v.PushBack(x);` for a sequence `items` of objects
outside the heap. -/
def PushBackAll [Elem α] (h : Heap α) (v : SimpleVector) : List α → Option (Heap α × SimpleVector)
  | [] => some (h, v)
  | x :: rest =>
    match PushBack h v (Arg.value x) with
    | some (h1, v1) => PushBackAll h1 v1 rest
    | none => none

/-- The loop of `std::equal(first1, last1, first2)` with `n` elements left
and both ranges at offset `i`: the elements are compared with their `==`. -/
def std_equal [DecidableEq α] (h : Heap α) (d1 d2 : Option Nat) : Nat → Nat → Option Bool
  | 0, _ => some true
  | n + 1, i =>
    match load h d1 i, load h d2 i with
    | some x, some y => if x = y then std_equal h d1 d2 n (i + 1) else some false
    | _, _ => none

/-- Models `operator==(lhs, rhs)` -/
def opEq [DecidableEq α] (h : Heap α) (lhs rhs : SimpleVector) : Option Bool :=
  if GetSize lhs ≠ GetSize rhs then some false
  else std_equal h lhs.data_ rhs.data_ ((end_ lhs).off - (begin_ lhs).off) 0

/-- Models `operator!=(lhs, rhs)` -/
def opNe [DecidableEq α] (h : Heap α) (lhs rhs : SimpleVector) : Option Bool :=
  (opEq h lhs rhs).map (fun b => !b)

/-! ## Exceptions, checked access, comparisons -/

/-- The exceptions of the program: the `std::out_of_range` of `At`, and
whatever an element constructor throws. -/
inductive Exception where
  | out_of_range
  | element
deriving DecidableEq, Repr

/-- How a call that may throw ends: it returns `r` and leaves the state `s`,
or an exception leaves it with the state `s`, or its behaviour is
undefined. -/
inductive Run (ρ σ : Type) where
  | done (r : ρ) (s : σ)
  | thrown (e : Exception) (s : σ)
  | undefined
deriving DecidableEq, Repr

/-- Models `At(index)` (both overloads): the reference returned is the
pointer to slot `index`; the state is the heap and the vector. -/
def At (h : Heap α) (v : SimpleVector) (idx : Nat) : Run Iter (Heap α × SimpleVector) :=
  if idx ≥ v.size_ then Run.thrown Exception.out_of_range (h, v)
  else Run.done ⟨v.data_, idx⟩ (h, v)

/-- The vector `v` has the elements `xs`: its size is their number and the
slots `[0, size_)` hold them live.  Nothing is asked of its capacity. -/
def Holds (h : Heap α) (v : SimpleVector) (xs : List α) : Prop :=
  v.size_ = xs.length ∧ ∀ i, i < v.size_ → load h v.data_ i = xs[i]?

instance instDecidableHolds [DecidableEq α] (h : Heap α) (v : SimpleVector) (xs : List α) :
    Decidable (Holds h v xs) := by
  unfold Holds; infer_instance

/-- The loop of `std::lexicographical_compare(first1, last1, first2, last2)`
with `n1` and `n2` elements left and both ranges at offset `i`; the elements
are compared with their `<`. -/
def lexicographical_compare [LinearOrder α] (h : Heap α) (d1 d2 : Option Nat) :
    Nat → Nat → Nat → Option Bool
  | 0, n2, _ => some (decide (n2 ≠ 0))
  | _ + 1, 0, _ => some false
  | n1 + 1, n2 + 1, i =>
    match load h d1 i, load h d2 i with
    | some x, some y =>
      if x < y then some true
      else if y < x then some false
      else lexicographical_compare h d1 d2 n1 n2 (i + 1)
    | _, _ => none

/-- Models `operator<(lhs, rhs)` -/
def opLt [LinearOrder α] (h : Heap α) (lhs rhs : SimpleVector) : Option Bool :=
  lexicographical_compare h lhs.data_ rhs.data_ ((end_ lhs).off - (begin_ lhs).off)
    ((end_ rhs).off - (begin_ rhs).off) 0

/-- Models `operator<=(lhs, rhs)` -/
def opLe [LinearOrder α] (h : Heap α) (lhs rhs : SimpleVector) : Option Bool :=
  (opLt h rhs lhs).map (fun b => !b)

/-- Models `operator>(lhs, rhs)` -/
def opGt [LinearOrder α] (h : Heap α) (lhs rhs : SimpleVector) : Option Bool :=
  opLt h rhs lhs

/-- Models `operator>=(lhs, rhs)` -/
def opGe [LinearOrder α] (h : Heap α) (lhs rhs : SimpleVector) : Option Bool :=
  (opLt h lhs rhs).map (fun b => !b)

/-- The number of calls in `for (x : items) v.PushBack(x);` that reallocate:
those that find `size_ == capacity_`. -/
def growthEvents [Elem α] (h : Heap α) (v : SimpleVector) : List α → Option Nat
  | [] => some 0
  | x :: rest =>
    match PushBack h v (Arg.value x) with
    | some (h1, v1) =>
      match growthEvents h1 v1 rest with
      | some n => some (n + (if v.size_ = v.capacity_ then 1 else 0))
      | none => none
    | none => none

/-! ## Element constructors that throw

The functions below are the ones above again, for an element type whose
constructors may throw.  The policy `throwsAt` says for which slot the
construction of its element throws; a constructor that throws leaves its
target raw and its source as it was.  Destructors and `operator new` do not
throw. -/

/-- Models `new (d + i) Type(x)` when the constructor may throw. -/
def constructT (throwsAt : Nat → Bool) (h : Heap α) (d : Option Nat) (i : Nat) (x : α) :
    Run Unit (Heap α) :=
  if throwsAt i then Run.thrown Exception.element h
  else
    match construct h d i x with
    | some g => Run.done () g
    | none => Run.undefined

/-- Models `new (dst + j) Type(std::move(src[i])); src[i].~Type();` when the
constructor may throw. -/
def relocateT [Elem α] (throwsAt : Nat → Bool) (h : Heap α) (dst : Option Nat) (j : Nat)
    (src : Option Nat) (i : Nat) : Run Unit (Heap α) :=
  if throwsAt j then Run.thrown Exception.element h
  else
    match relocate h dst j src i with
    | some g => Run.done () g
    | none => Run.undefined

/-- Runs `body i` for `i`, `i + 1`, ... a given number of times, unless an
exception leaves the loop; the state carries the value of `i` then. -/
def forLoopTAux (body : Nat → Heap α → Run Unit (Heap α)) :
    Nat → Nat → Heap α → Run Unit (Nat × Heap α)
  | 0, i, h => Run.done () (i, h)
  | n + 1, i, h =>
    match body i h with
    | Run.done _ h1 => forLoopTAux body n (i + 1) h1
    | Run.thrown e h1 => Run.thrown e (i, h1)
    | Run.undefined => Run.undefined

/-- Models `for (size_t i = lo; i < hi; ++i) body(i);` with a body that may
throw. -/
def forLoopT (lo hi : Nat) (body : Nat → Heap α → Run Unit (Heap α)) (h : Heap α) :
    Run Unit (Nat × Heap α) :=
  forLoopTAux body (hi - lo) lo h

/-- The loop in the `try` block of `AllocateAndCopy`:
`for (; first != last; ++first, ++i) new (new_data + i) Type(*first);` -/
def copyLoopT (throwsAt : Nat → Bool) (h : Heap α) (first : Iter) (new_data : Option Nat)
    (n : Nat) : Run Unit (Nat × Heap α) :=
  forLoopT 0 n (fun i g =>
    match load g first.base (first.off + i) with
    | some x => constructT throwsAt g new_data i x
    | none => Run.undefined) h

/-- The loop in the `catch` block of `AllocateAndCopy`:
`for (size_t j = 0; j < i; ++j) new_data[j].~Type();` -/
def destroyConstructed (h : Heap α) (new_data : Option Nat) (i : Nat) : Option (Heap α) :=
  forLoop 0 i (fun j g => destroy g new_data j) h

/-- Models `AllocateAndCopy(first, last)` with its `try` and `catch`. -/
def AllocateAndCopyT [Elem α] (throwsAt : Nat → Bool) (h : Heap α) (first last : Iter) :
    Run (Option Nat) (Heap α) :=
  if first.base = last.base then
    let n := last.off - first.off
    match Allocate h n with
    | (new_data, h1) =>
      match copyLoopT throwsAt h1 first new_data n with
      | Run.done _ (_, h2) => Run.done new_data h2
      | Run.thrown e (i, h2) =>
        match destroyConstructed h2 new_data i with
        | some h3 =>
          match operatorDelete h3 new_data with
          | some h4 => Run.thrown e h4
          | none => Run.undefined
        | none => Run.undefined
      | Run.undefined => Run.undefined
  else Run.undefined

/-- Models `AllocateAndDefaultInitialize(n)` when `Type()` may throw. -/
def AllocateAndDefaultInitializeT [Elem α] (throwsAt : Nat → Bool) (h : Heap α) (n : Nat) :
    Run (Option Nat) (Heap α) :=
  match Allocate h n with
  | (new_data, h1) =>
    match forLoopT 0 n (fun i g => constructT throwsAt g new_data i (Elem.dflt : α)) h1 with
    | Run.done _ (_, h2) => Run.done new_data h2
    | Run.thrown e (_, h2) => Run.thrown e h2
    | Run.undefined => Run.undefined

/-- Models `AllocateAndFill(n, value)` when the copy constructor may throw. -/
def AllocateAndFillT [Elem α] (throwsAt : Nat → Bool) (h : Heap α) (n : Nat) (value : α) :
    Run (Option Nat) (Heap α) :=
  match Allocate h n with
  | (new_data, h1) =>
    match forLoopT 0 n (fun i g => constructT throwsAt g new_data i value) h1 with
    | Run.done _ (_, h2) => Run.done new_data h2
    | Run.thrown e (_, h2) => Run.thrown e h2
    | Run.undefined => Run.undefined

/-- Models `SimpleVector(size_t size)` when `Type()` may throw: an exception
leaves the constructor with no vector built. -/
def ctorSizedT [Elem α] (throwsAt : Nat → Bool) (h : Heap α) (size : Nat) :
    Run SimpleVector (Heap α) :=
  if size ≠ 0 then
    match AllocateAndDefaultInitializeT throwsAt h size with
    | Run.done d h1 => Run.done { size_ := size, capacity_ := size, data_ := d } h1
    | Run.thrown e h1 => Run.thrown e h1
    | Run.undefined => Run.undefined
  else Run.done { size_ := size, capacity_ := size, data_ := none } h

/-- Models `SimpleVector(size_t size, const Type& value)` when the copy
constructor may throw. -/
def ctorFillT [Elem α] (throwsAt : Nat → Bool) (h : Heap α) (size : Nat) (value : α) :
    Run SimpleVector (Heap α) :=
  if size ≠ 0 then
    match AllocateAndFillT throwsAt h size value with
    | Run.done d h1 => Run.done { size_ := size, capacity_ := size, data_ := d } h1
    | Run.thrown e h1 => Run.thrown e h1
    | Run.undefined => Run.undefined
  else Run.done { size_ := size, capacity_ := size, data_ := none } h

/-- Models `SimpleVector(const SimpleVector& other)` when the copy
constructor of the elements may throw. -/
def ctorCopyT [Elem α] (throwsAt : Nat → Bool) (h : Heap α) (other : SimpleVector) :
    Run SimpleVector (Heap α) :=
  if other.capacity_ ≠ 0 then
    match AllocateAndCopyT throwsAt h (begin_ other) (end_ other) with
    | Run.done d h1 =>
      Run.done { size_ := other.size_, capacity_ := other.capacity_, data_ := d } h1
    | Run.thrown e h1 => Run.thrown e h1
    | Run.undefined => Run.undefined
  else Run.done { size_ := other.size_, capacity_ := other.capacity_, data_ := none } h

/-- Models `operator=(const SimpleVector& rhs)` when the copy constructor of
the elements may throw; the state is the heap and `*this`. -/
def copyAssignT [Elem α] (throwsAt : Nat → Bool) (h : Heap α) (v rhs : SimpleVector)
    (same : Bool) : Run Unit (Heap α × SimpleVector) :=
  if same = false then
    match ctorCopyT throwsAt h rhs with
    | Run.done tmp h1 =>
      match swap v tmp with
      | (v1, tmp1) =>
        match dtor h1 tmp1 with
        | some h2 => Run.done () (h2, v1)
        | none => Run.undefined
    | Run.thrown e h1 => Run.thrown e (h1, v)
    | Run.undefined => Run.undefined
  else Run.done () (h, v)

/-- Models `Reserve(new_capacity)` when the move constructor may throw; the
state is the heap and `*this`. -/
def ReserveT [Elem α] (throwsAt : Nat → Bool) (h : Heap α) (v : SimpleVector)
    (new_capacity : Nat) : Run Unit (Heap α × SimpleVector) :=
  if new_capacity > v.capacity_ then
    match Allocate h new_capacity with
    | (new_data, h1) =>
      match forLoopT 0 v.size_ (fun i g => relocateT throwsAt g new_data i v.data_ i) h1 with
      | Run.done _ (_, h2) =>
        match operatorDelete h2 v.data_ with
        | some h3 => Run.done () (h3, { v with data_ := new_data, capacity_ := new_capacity })
        | none => Run.undefined
      | Run.thrown e (_, h2) => Run.thrown e (h2, v)
      | Run.undefined => Run.undefined
  else Run.done () (h, v)

/-- Models `EmplaceBack(args...)` when constructors may throw, for an argument
that is an object `x` outside the heap. -/
def EmplaceBackT [Elem α] (throwsAt : Nat → Bool) (h : Heap α) (v : SimpleVector) (x : α) :
    Run Iter (Heap α × SimpleVector) :=
  match (if v.size_ = v.capacity_ then
      ReserveT throwsAt h v (if v.capacity_ = 0 then 1 else v.capacity_ * 2 % SIZE_MOD)
    else Run.done () (h, v)) with
  | Run.done _ (h1, v1) =>
    match constructT throwsAt h1 v1.data_ v1.size_ x with
    | Run.done _ h2 =>
      Run.done ⟨v1.data_, v1.size_ + 1 - 1⟩ (h2, { v1 with size_ := v1.size_ + 1 })
    | Run.thrown e h2 => Run.thrown e (h2, v1)
    | Run.undefined => Run.undefined
  | Run.thrown e s => Run.thrown e s
  | Run.undefined => Run.undefined

/-- Models `PushBack(item)` when constructors may throw, for an `item` outside
the heap. -/
def PushBackT [Elem α] (throwsAt : Nat → Bool) (h : Heap α) (v : SimpleVector) (item : α) :
    Run Unit (Heap α × SimpleVector) :=
  match EmplaceBackT throwsAt h v item with
  | Run.done _ s => Run.done () s
  | Run.thrown e s => Run.thrown e s
  | Run.undefined => Run.undefined

/-- Models the growth path of `Emplace(pos, args...)` (`size_ == capacity_`)
when constructors may throw, for an argument that is an object `x` outside
the heap. -/
def EmplaceGrowT [Elem α] (throwsAt : Nat → Bool) (h : Heap α) (v : SimpleVector)
    (pos : Iter) (x : α) : Run Iter (Heap α × SimpleVector) :=
  match offsetOf v pos with
  | none => Run.undefined
  | some index =>
    if v.size_ = v.capacity_ then
      let new_capacity := if v.capacity_ = 0 then 1 else v.capacity_ * 2 % SIZE_MOD
      match Allocate h new_capacity with
      | (new_data, h1) =>
        match forLoopT 0 index (fun i g => relocateT throwsAt g new_data i v.data_ i) h1 with
        | Run.done _ (_, h2) =>
          match constructT throwsAt h2 new_data index x with
          | Run.done _ h3 =>
            match forLoopT index v.size_
                (fun i g => relocateT throwsAt g new_data (i + 1) v.data_ i) h3 with
            | Run.done _ (_, h4) =>
              match operatorDelete h4 v.data_ with
              | some h5 =>
                Run.done ⟨new_data, index⟩
                  (h5, { size_ := v.size_ + 1, capacity_ := new_capacity, data_ := new_data })
              | none => Run.undefined
            | Run.thrown e (_, h4) => Run.thrown e (h4, v)
            | Run.undefined => Run.undefined
          | Run.thrown e h3 => Run.thrown e (h3, v)
          | Run.undefined => Run.undefined
        | Run.thrown e (_, h2) => Run.thrown e (h2, v)
        | Run.undefined => Run.undefined
    else Run.undefined

/-- Models `Resize(new_size)` when constructors may throw. -/
def ResizeT [Elem α] (throwsAt : Nat → Bool) (h : Heap α) (v : SimpleVector)
    (new_size : Nat) : Run Unit (Heap α × SimpleVector) :=
  match (if new_size > v.capacity_ then
      ReserveT throwsAt h v (max new_size (v.capacity_ * 2 % SIZE_MOD))
    else Run.done () (h, v)) with
  | Run.done _ (h1, v1) =>
    if new_size > v1.size_ then
      match forLoopT v1.size_ new_size
          (fun i g => constructT throwsAt g v1.data_ i (Elem.dflt : α)) h1 with
      | Run.done _ (_, h2) => Run.done () (h2, { v1 with size_ := new_size })
      | Run.thrown e (_, h2) => Run.thrown e (h2, v1)
      | Run.undefined => Run.undefined
    else
      match forLoop new_size v1.size_ (fun i g => destroy g v1.data_ i) h1 with
      | some h2 => Run.done () (h2, { v1 with size_ := new_size })
      | none => Run.undefined
  | Run.thrown e s => Run.thrown e s
  | Run.undefined => Run.undefined

/-- The argument `a` has the value `x` and is out of the reach of an operation
on the block `own`: it is an object outside the heap, or a `const Type&` to a
live element of another block. -/
def Outside (h : Heap α) (own : Option Nat) (a : Arg α) (x : α) : Prop :=
  match a with
  | Arg.value y => y = x
  | Arg.ref d i => d ≠ own ∧ load h d i = some x
  | Arg.rref _ _ => False

instance instDecidableOutside [DecidableEq α] (h : Heap α) (own : Option Nat) (a : Arg α)
    (x : α) : Decidable (Outside h own a x) := by
  unfold Outside
  cases a <;> exact inferInstance

/-! ## Lemmas on raw memory -/

theorem blockLen_eq_some {h : Heap α} {p L : Nat} :
    blockLen h p = some L ↔ ∃ b, h[p]? = some (some b) ∧ b.length = L := by
  unfold blockLen
  split
  · next b hb => simp [hb]
  · next hne =>
    constructor
    · intro hc; cases hc
    · rintro ⟨b, hb, -⟩; exact absurd hb (hne b)

theorem slot_eq_some {h : Heap α} {p k : Nat} {s : Option α} :
    slot h p k = some s ↔ ∃ b, h[p]? = some (some b) ∧ b[k]? = some s := by
  unfold slot
  split
  · next b hb => simp [hb]
  · next hne =>
    constructor
    · intro hc; cases hc
    · rintro ⟨b, hb, -⟩; exact absurd hb (hne b)

theorem slot_lt_blockLen {h : Heap α} {p k : Nat} {s : Option α} (hs : slot h p k = some s) :
    ∃ L, blockLen h p = some L ∧ k < L := by
  obtain ⟨b, hb, hk⟩ := slot_eq_some.mp hs
  refine ⟨b.length, blockLen_eq_some.mpr ⟨b, hb, rfl⟩, ?_⟩
  by_contra hge
  rw [List.getElem?_eq_none (Nat.le_of_not_lt hge)] at hk
  cases hk

theorem slot_of_blockLen {h : Heap α} {p k L : Nat} (hL : blockLen h p = some L) (hk : k < L) :
    ∃ s, slot h p k = some s := by
  obtain ⟨b, hb, rfl⟩ := blockLen_eq_some.mp hL
  exact ⟨b[k], slot_eq_some.mpr ⟨b, hb, List.getElem?_eq_getElem hk⟩⟩

theorem slot_none_of_ge {h : Heap α} {p k L : Nat} (hL : blockLen h p = some L) (hk : L ≤ k) :
    slot h p k = none := by
  obtain ⟨b, hb, rfl⟩ := blockLen_eq_some.mp hL
  unfold slot
  rw [hb]
  exact List.getElem?_eq_none hk

theorem poked_set (h : Heap α) (p : Nat) (b : Block α) (i : Nat) (s : Option α)
    (hb : h[p]? = some (some b)) (hi : i < b.length) :
    Poked h (h.set p (some (b.set i s))) p i s := by
  have hp : p < h.length := by
    by_contra hge
    rw [List.getElem?_eq_none (Nat.le_of_not_lt hge)] at hb
    cases hb
  refine ⟨by simp, ?_, ?_⟩
  · intro r
    unfold blockLen
    by_cases hr : p = r
    · subst hr
      rw [List.getElem?_set, hb]
      simp [hp]
    · rw [List.getElem?_set_ne hr]
  · intro r k
    unfold slot
    by_cases hr : p = r
    · subst hr
      rw [List.getElem?_set, hb]
      simp only [hp, if_true, true_and]
      by_cases hk : i = k
      · subst hk
        simp [List.getElem?_set, hi]
      · rw [List.getElem?_set_ne hk]
        simp [Ne.symm hk]
    · rw [List.getElem?_set_ne hr]
      simp [Ne.symm hr]

theorem lookup_some {h : Heap α} {p : Nat} {b : Block α} (hb : h[p]? = some (some b)) :
    lookup h (some p) = some (p, b) := by
  simp [lookup, hb]

theorem construct_ok {h : Heap α} {p L i : Nat} (x : α) (hL : blockLen h p = some L)
    (hi : i < L) : ∃ g, construct h (some p) i x = some g ∧ Poked h g p i (some x) := by
  obtain ⟨b, hb, rfl⟩ := blockLen_eq_some.mp hL
  exact ⟨_, by simp [construct, lookup_some hb, hi], poked_set h p b i _ hb hi⟩

theorem assign_ok [Elem α] {h : Heap α} {p L i : Nat} (x : α) (hL : blockLen h p = some L)
    (hi : i < L) (himp : Elem.implicitLifetime α = true) :
    ∃ g, assign h (some p) i x = some g ∧ Poked h g p i (some x) := by
  obtain ⟨b, hb, rfl⟩ := blockLen_eq_some.mp hL
  refine ⟨_, ?_, poked_set h p b i _ hb hi⟩
  unfold assign
  rw [lookup_some hb]
  simp only [List.getElem?_eq_getElem hi]
  cases b[i] with
  | none => simp [himp]
  | some y => rfl

theorem assign_live [Elem α] {h : Heap α} {p i : Nat} (x : α) {y : α}
    (hs : slot h p i = some (some y)) :
    ∃ g, assign h (some p) i x = some g ∧ Poked h g p i (some x) := by
  obtain ⟨b, hb, hk⟩ := slot_eq_some.mp hs
  have hi : i < b.length := by
    by_contra hge
    rw [List.getElem?_eq_none (Nat.le_of_not_lt hge)] at hk
    cases hk
  refine ⟨_, ?_, poked_set h p b i _ hb hi⟩
  unfold assign
  rw [lookup_some hb]
  simp only [hk]

theorem assign_raw [Elem α] {h : Heap α} {p i : Nat} (x : α) (hs : slot h p i = some none)
    (himp : Elem.implicitLifetime α = false) : assign h (some p) i x = none := by
  obtain ⟨b, hb, hk⟩ := slot_eq_some.mp hs
  unfold assign
  rw [lookup_some hb]
  simp only [hk, himp]
  rfl

theorem destroy_ok {h : Heap α} {p i : Nat} {y : α} (hs : slot h p i = some (some y)) :
    ∃ g, destroy h (some p) i = some g ∧ Poked h g p i none := by
  obtain ⟨b, hb, hk⟩ := slot_eq_some.mp hs
  have hi : i < b.length := by
    by_contra hge
    rw [List.getElem?_eq_none (Nat.le_of_not_lt hge)] at hk
    cases hk
  exact ⟨_, by simp [destroy, lookup_some hb, hk], poked_set h p b i _ hb hi⟩

theorem load_ok {h : Heap α} {p i : Nat} {y : α} (hs : slot h p i = some (some y)) :
    load h (some p) i = some y := by
  obtain ⟨b, hb, hk⟩ := slot_eq_some.mp hs
  simp [load, lookup_some hb, hk]

theorem moveOut_ok [Elem α] {h : Heap α} {p i : Nat} {y : α} (hs : slot h p i = some (some y)) :
    ∃ g, moveOut h (some p) i = some (y, g) ∧ Poked h g p i (some (Elem.movedFrom y)) := by
  obtain ⟨b, hb, hk⟩ := slot_eq_some.mp hs
  have hi : i < b.length := by
    by_contra hge
    rw [List.getElem?_eq_none (Nat.le_of_not_lt hge)] at hk
    cases hk
  exact ⟨_, by simp [moveOut, lookup_some hb, hk], poked_set h p b i _ hb hi⟩

theorem poked_shape {h g : Heap α} {p i : Nat} {s : Option α} (hp : Poked h g p i s) :
    Shape h g := ⟨hp.1, hp.2.1⟩

theorem shape_refl (h : Heap α) : Shape h h := ⟨rfl, fun _ => rfl⟩

theorem shape_trans {h g k : Heap α} (h1 : Shape h g) (h2 : Shape g k) : Shape h k :=
  ⟨h2.1.trans h1.1, fun r => (h2.2 r).trans (h1.2 r)⟩

theorem relocate_ok [Elem α] {h : Heap α} {p i q j L : Nat} {y : α}
    (hs : slot h p i = some (some y)) (hL : blockLen h q = some L) (hj : j < L)
    (hne : ¬ (q = p ∧ j = i)) :
    ∃ g, relocate h (some q) j (some p) i = some g ∧ Shape h g ∧
      ∀ r k, slot g r k =
        if r = q ∧ k = j then some (some y)
        else if r = p ∧ k = i then some none else slot h r k := by
  obtain ⟨h1, e1, p1⟩ := moveOut_ok hs
  have hL1 : blockLen h1 q = some L := by rw [p1.2.1]; exact hL
  obtain ⟨h2, e2, p2⟩ := construct_ok y hL1 hj
  have hs2 : slot h2 p i = some (some (Elem.movedFrom y)) := by
    rw [p2.2.2, p1.2.2]
    have : ¬ (p = q ∧ i = j) := fun hc => hne ⟨hc.1.symm, hc.2.symm⟩
    simp [this]
  obtain ⟨h3, e3, p3⟩ := destroy_ok hs2
  refine ⟨h3, by simp [relocate, e1, e2, e3], shape_trans (shape_trans (poked_shape p1) (poked_shape p2)) (poked_shape p3), ?_⟩
  intro r k
  rw [p3.2.2, p2.2.2, p1.2.2]
  by_cases c1 : r = q ∧ k = j
  · obtain ⟨rfl, rfl⟩ := c1
    simp [hne]
  · by_cases c2 : r = p ∧ k = i
    · obtain ⟨rfl, rfl⟩ := c2
      simp [c1]
    · simp [c1, c2]

theorem forLoopAux_inv (body : Nat → Heap α → Option (Heap α)) (Inv : Nat → Heap α → Prop) :
    ∀ (n lo : Nat) (h : Heap α), Inv lo h →
      (∀ i g, lo ≤ i → i < lo + n → Inv i g → ∃ g1, body i g = some g1 ∧ Inv (i + 1) g1) →
      ∃ g, forLoopAux body n lo h = some g ∧ Inv (lo + n) g := by
  intro n
  induction n with
  | zero => intro lo h h0 _; exact ⟨h, rfl, h0⟩
  | succ n ih =>
    intro lo h h0 hstep
    obtain ⟨g1, e1, i1⟩ := hstep lo h (Nat.le_refl _) (by omega) h0
    obtain ⟨g, e, i2⟩ := ih (lo + 1) g1 i1
      (fun i g hi1 hi2 hinv => hstep i g (by omega) (by omega) hinv)
    refine ⟨g, ?_, ?_⟩
    · simp [forLoopAux, e1, e]
    · have : lo + (n + 1) = lo + 1 + n := by omega
      rw [this]; exact i2

theorem forLoop_inv (body : Nat → Heap α → Option (Heap α)) (Inv : Nat → Heap α → Prop)
    (lo hi : Nat) (h : Heap α) (hle : lo ≤ hi) (h0 : Inv lo h)
    (hstep : ∀ i g, lo ≤ i → i < hi → Inv i g → ∃ g1, body i g = some g1 ∧ Inv (i + 1) g1) :
    ∃ g, forLoop lo hi body h = some g ∧ Inv hi g := by
  obtain ⟨g, e, i⟩ := forLoopAux_inv body Inv (hi - lo) lo h h0
    (fun i g h1 h2 hinv => hstep i g h1 (by omega) hinv)
  refine ⟨g, e, ?_⟩
  have : lo + (hi - lo) = hi := by omega
  rw [this] at i; exact i

theorem forLoop_empty (body : Nat → Heap α → Option (Heap α)) (lo hi : Nat) (h : Heap α)
    (hle : hi ≤ lo) : forLoop lo hi body h = some h := by
  have : hi - lo = 0 := by omega
  simp [forLoop, this, forLoopAux]

theorem fits_div [Elem α] {n : Nat} (hf : Fits α n) :
    n * Elem.sizeofType α % SIZE_MOD / Elem.sizeofType α = n := by
  unfold Fits at hf
  rw [Nat.mod_eq_of_lt hf]
  exact Nat.mul_div_cancel n (Elem.sizeofType_pos)

theorem fits_lt [Elem α] {n : Nat} (hf : Fits α n) : n < SIZE_MOD := by
  unfold Fits at hf
  have := Elem.sizeofType_pos (α := α)
  calc n = n * 1 := (Nat.mul_one n).symm
    _ ≤ n * Elem.sizeofType α := Nat.mul_le_mul_left n this
    _ < SIZE_MOD := hf

theorem fits_mono [Elem α] {m n : Nat} (hmn : m ≤ n) (hf : Fits α n) : Fits α m := by
  unfold Fits at *
  exact Nat.lt_of_le_of_lt (Nat.mul_le_mul_right _ hmn) hf

theorem Allocate_view [Elem α] (h : Heap α) (n : Nat) :
    (Allocate h n).1 = some h.length ∧ (Allocate h n).2.length = h.length + 1 ∧
    (∀ r, blockLen (Allocate h n).2 r =
      if r = h.length then some (n * Elem.sizeofType α % SIZE_MOD / Elem.sizeofType α)
      else blockLen h r) ∧
    ∀ r k, slot (Allocate h n).2 r k =
      if r = h.length then
        (if k < n * Elem.sizeofType α % SIZE_MOD / Elem.sizeofType α then some none else none)
      else slot h r k := by
  refine ⟨rfl, by simp [Allocate], ?_, ?_⟩
  · intro r
    unfold blockLen Allocate
    by_cases hr : r = h.length
    · subst hr; simp
    · by_cases hlt : r < h.length
      · rw [List.getElem?_append_left hlt]; simp [hr]
      · have hgt : h.length + 1 ≤ r := by omega
        rw [List.getElem?_eq_none (by simpa using hgt), List.getElem?_eq_none (by omega)]
        simp [hr]
  · intro r k
    unfold slot Allocate
    by_cases hr : r = h.length
    · subst hr; simp [List.getElem?_replicate]
    · by_cases hlt : r < h.length
      · rw [List.getElem?_append_left hlt]; simp [hr]
      · have hgt : h.length + 1 ≤ r := by omega
        rw [List.getElem?_eq_none (by simpa using hgt), List.getElem?_eq_none (by omega)]
        simp [hr]

theorem blockLen_lt_length {h : Heap α} {p L : Nat} (hL : blockLen h p = some L) :
    p < h.length := by
  obtain ⟨b, hb, -⟩ := blockLen_eq_some.mp hL
  by_contra hge
  rw [List.getElem?_eq_none (Nat.le_of_not_lt hge)] at hb
  cases hb

theorem operatorDelete_ok {h : Heap α} {p L : Nat} (hL : blockLen h p = some L) :
    ∃ g, operatorDelete h (some p) = some g ∧ g.length = h.length ∧
      (∀ r, blockLen g r = if r = p then none else blockLen h r) ∧
      ∀ r k, slot g r k = if r = p then none else slot h r k := by
  obtain ⟨b, hb, -⟩ := blockLen_eq_some.mp hL
  have hp := blockLen_lt_length hL
  refine ⟨h.set p none, by simp [operatorDelete, hb], by simp, ?_, ?_⟩
  · intro r
    unfold blockLen
    by_cases hr : p = r
    · subst hr; rw [List.getElem?_set]; simp [hp]
    · rw [List.getElem?_set_ne hr]; simp [Ne.symm hr]
  · intro r k
    unfold slot
    by_cases hr : p = r
    · subst hr; rw [List.getElem?_set]; simp [hp]
    · rw [List.getElem?_set_ne hr]; simp [Ne.symm hr]

theorem canon_getElem? (xs : List α) (m k : Nat) :
    (xs.map some ++ List.replicate m none)[k]? =
      if k < xs.length + m then some (xs[k]?) else none := by
  by_cases hk : k < xs.length
  · rw [List.getElem?_append_left (by simpa using hk)]
    have : k < xs.length + m := by omega
    simp [this, List.getElem?_eq_getElem hk]
  · have hk2 : xs.length ≤ k := Nat.le_of_not_lt hk
    rw [List.getElem?_append_right (by simpa using hk2), List.getElem?_replicate]
    simp only [List.length_map]
    by_cases hm : k < xs.length + m
    · have : k - xs.length < m := by omega
      simp [this, hm, List.getElem?_eq_none hk2]
    · have : ¬ (k - xs.length < m) := by omega
      simp [this, hm]

theorem rep_some_iff {h : Heap α} {v : SimpleVector} {xs : List α} {p : Nat}
    (hd : v.data_ = some p) :
    Rep h v xs ↔ xs.length = v.size_ ∧ v.size_ ≤ v.capacity_ ∧
      blockLen h p = some v.capacity_ ∧ ∀ k, k < v.capacity_ → slot h p k = some (xs[k]?) := by
  unfold Rep
  rw [hd]
  constructor
  · rintro ⟨h1, h2, h3⟩
    refine ⟨h1, h2, blockLen_eq_some.mpr ⟨_, h3, by simp; omega⟩, ?_⟩
    intro k hk
    refine slot_eq_some.mpr ⟨_, h3, ?_⟩
    rw [canon_getElem?]
    have : k < xs.length + (v.capacity_ - v.size_) := by omega
    simp [this]
  · rintro ⟨h1, h2, h3, h4⟩
    refine ⟨h1, h2, ?_⟩
    obtain ⟨b, hb, hlen⟩ := blockLen_eq_some.mp h3
    show h[p]? = _
    rw [hb]
    congr 2
    apply List.ext_getElem?
    intro k
    rw [canon_getElem?]
    by_cases hk : k < v.capacity_
    · have e := h4 k hk
      obtain ⟨b2, hb2, hk2⟩ := slot_eq_some.mp e
      rw [hb] at hb2
      cases hb2
      have : k < xs.length + (v.capacity_ - v.size_) := by omega
      simp [this, hk2]
    · have : ¬ (k < xs.length + (v.capacity_ - v.size_)) := by omega
      simp only [this, if_false]
      exact List.getElem?_eq_none (by omega)

theorem relocLoop [Elem α] {h : Heap α} {p q Lq : Nat} (f : Nat → Nat) (a lo hi : Nat)
    (hf : ∀ i, f i = i + a) (hpq : p ≠ q) (hle : lo ≤ hi)
    (hsrc : ∀ i, lo ≤ i → i < hi → ∃ y, slot h p i = some (some y))
    (hLq : blockLen h q = some Lq) (hdst : hi + a ≤ Lq) :
    ∃ g, forLoop lo hi (fun i g => relocate g (some q) (f i) (some p) i) h = some g ∧
      Shape h g ∧
      ∀ r k, slot g r k =
        if r = q ∧ lo + a ≤ k ∧ k < hi + a then slot h p (k - a)
        else if r = p ∧ lo ≤ k ∧ k < hi then some none else slot h r k := by
  apply forLoop_inv _ (fun i g => Shape h g ∧
      ∀ r k, slot g r k =
        if r = q ∧ lo + a ≤ k ∧ k < i + a then slot h p (k - a)
        else if r = p ∧ lo ≤ k ∧ k < i then some none else slot h r k) lo hi h hle
  · refine ⟨shape_refl h, ?_⟩
    intro r k
    rw [if_neg (by omega), if_neg (by omega)]
  · rintro i g hlo hhi ⟨hsh, hsl⟩
    obtain ⟨y, hy⟩ := hsrc i hlo hhi
    have hgy : slot g p i = some (some y) := by
      rw [hsl, if_neg (fun hc => hpq hc.1), if_neg (by omega)]
      exact hy
    have hgL : blockLen g q = some Lq := by rw [hsh.2]; exact hLq
    obtain ⟨g1, e1, sh1, sl1⟩ := relocate_ok hgy hgL (show f i < Lq by rw [hf]; omega)
      (fun hc => hpq hc.1.symm)
    refine ⟨g1, e1, shape_trans hsh sh1, ?_⟩
    intro r k
    rw [sl1, hsl, hf]
    by_cases c1 : r = q ∧ k = i + a
    · obtain ⟨rfl, rfl⟩ := c1
      rw [if_pos ⟨rfl, rfl⟩, if_pos ⟨rfl, by omega, by omega⟩, Nat.add_sub_cancel]
      exact hy.symm
    · rw [if_neg c1]
      by_cases c2 : r = p ∧ k = i
      · obtain ⟨rfl, rfl⟩ := c2
        rw [if_pos ⟨rfl, rfl⟩, if_neg (fun hc => hpq hc.1), if_pos ⟨rfl, by omega, by omega⟩]
      · rw [if_neg c2]
        split_ifs <;> first | rfl | (exfalso; omega)

theorem rep_none {h : Heap α} {v : SimpleVector} {xs : List α} (hd : v.data_ = none)
    (hrep : Rep h v xs) : v.size_ = 0 ∧ v.capacity_ = 0 ∧ xs = [] := by
  unfold Rep at hrep
  rw [hd] at hrep
  obtain ⟨h1, h2, h3⟩ := hrep
  have h3 : v.capacity_ = 0 := h3
  have : v.size_ = 0 := by omega
  exact ⟨this, h3, List.length_eq_zero.mp (by omega)⟩

theorem frame_of_slots {h g : Heap α} {d : Option Nat} (hlen : h.length ≤ g.length)
    (hb : ∀ r, r < h.length → some r ≠ d → blockLen g r = blockLen h r)
    (hs : ∀ r k, r < h.length → some r ≠ d → slot g r k = slot h r k) : Frame h g d :=
  ⟨hlen, fun r hr hne => ⟨hb r hr hne, fun k => hs r k hr hne⟩⟩

theorem Reserve_grow [Elem α] {h : Heap α} {v : SimpleVector} {xs : List α} {n : Nat}
    (hrep : Rep h v xs) (hn : v.capacity_ < n) (hfit : Fits α n) :
    ∃ g, Reserve h v n =
        some (g, { size_ := v.size_, capacity_ := n, data_ := some h.length }) ∧
      Rep g { size_ := v.size_, capacity_ := n, data_ := some h.length } xs ∧
      Frame h g v.data_ ∧ g.length = h.length + 1 ∧
      ∀ p, v.data_ = some p → blockLen g p = none := by
  obtain ⟨-, hlen1, hbl1, hsl1⟩ := Allocate_view (α := α) h n
  rw [fits_div hfit] at hbl1 hsl1
  generalize hh1 : (Allocate h n).2 = h1 at hlen1 hbl1 hsl1
  have hAlloc : Allocate h n = (some h.length, h1) := by rw [← hh1]; rfl
  cases hd : v.data_ with
  | none =>
    obtain ⟨hs0, hc0, rfl⟩ := rep_none hd hrep
    refine ⟨h1, ?_, ?_, ?_, hlen1, fun p hp => by cases hp⟩
    · unfold Reserve
      rw [if_pos hn, hAlloc]
      simp only [hs0, hd]
      rw [forLoop_empty _ 0 0 h1 (Nat.le_refl 0)]
      simp [operatorDelete]
    · apply (rep_some_iff (p := h.length) rfl).mpr
      refine ⟨by simp [hs0], by simp only []; omega, by rw [hbl1]; simp, ?_⟩
      intro k hk
      rw [hsl1]
      simp only [] at hk
      simp [hk]
    · refine frame_of_slots (by omega) ?_ ?_
      · intro r hr _; rw [hbl1, if_neg (by omega)]
      · intro r k hr _; rw [hsl1, if_neg (by omega)]
  | some p =>
    obtain ⟨hlen, hle, hbl, hsl⟩ := (rep_some_iff hd).mp hrep
    have hp : p < h.length := blockLen_lt_length hbl
    have hpq : p ≠ h.length := by omega
    have hsrc : ∀ i, 0 ≤ i → i < v.size_ → ∃ y, slot h1 p i = some (some y) := by
      intro i _ hi
      rw [hsl1, if_neg hpq, hsl i (by omega)]
      exact ⟨xs[i], by rw [List.getElem?_eq_getElem (by omega)]⟩
    have hLq : blockLen h1 h.length = some n := by rw [hbl1, if_pos rfl]
    obtain ⟨h2, e2, sh2, sl2⟩ := relocLoop (fun i => i) 0 0 v.size_ (fun _ => rfl) hpq
      (Nat.zero_le _) hsrc hLq (by omega)
    have hL2 : blockLen h2 p = some v.capacity_ := by
      rw [sh2.2, hbl1, if_neg hpq]; exact hbl
    obtain ⟨h3, e3, len3, bl3, sl3⟩ := operatorDelete_ok hL2
    refine ⟨h3, ?_, ?_, ?_, by rw [len3, sh2.1, hlen1], ?_⟩
    · unfold Reserve
      rw [if_pos hn, hAlloc]
      simp only [hd]
      rw [e2]
      simp only [e3]
    · apply (rep_some_iff (p := h.length) rfl).mpr
      refine ⟨hlen, by simp only []; omega, ?_, ?_⟩
      · rw [bl3, if_neg (Ne.symm hpq), sh2.2]; exact hLq
      · intro k hk
        simp only [] at hk
        rw [sl3, if_neg (Ne.symm hpq), sl2]
        by_cases hks : k < v.size_
        · rw [if_pos ⟨rfl, by omega, by omega⟩, hsl1, if_neg hpq]
          exact hsl k (by omega)
        · rw [if_neg (by omega), if_neg (fun hc => hpq hc.1.symm), hsl1, if_pos rfl, if_pos hk,
            List.getElem?_eq_none (by omega)]
    · refine frame_of_slots (by rw [len3, sh2.1, hlen1]; omega) ?_ ?_
      · intro r hr hne
        have hrp : r ≠ p := fun hc => hne (by rw [hc])
        rw [bl3, if_neg hrp, sh2.2, hbl1, if_neg (by omega)]
      · intro r k hr hne
        have hrp : r ≠ p := fun hc => hne (by rw [hc])
        rw [sl3, if_neg hrp, sl2, if_neg (by omega), if_neg (fun hc => hrp hc.1), hsl1,
          if_neg (by omega)]
    · intro p2 hp2
      cases hp2
      rw [bl3, if_pos rfl]

theorem poked_frame {h g : Heap α} {p i : Nat} {s : Option α} (hp : Poked h g p i s) :
    Frame h g (some p) := by
  refine frame_of_slots (Nat.le_of_eq hp.1.symm) (fun r _ _ => hp.2.1 r) ?_
  intro r k _ hne
  rw [hp.2.2, if_neg (fun hc => hne (by rw [hc.1]))]

theorem frame_refl (h : Heap α) (d : Option Nat) : Frame h h d :=
  ⟨Nat.le_refl _, fun _ _ _ => ⟨rfl, fun _ => rfl⟩⟩

theorem poked_rep {h g : Heap α} {v : SimpleVector} {xs ys : List α} {p i m : Nat}
    {s : Option α} (hd : v.data_ = some p) (hrep : Rep h v xs) (hp : Poked h g p i s)
    (hlen : ys.length = m) (hm : m ≤ v.capacity_)
    (hys : ∀ k, k < v.capacity_ → some (ys[k]?) = if k = i then some s else some (xs[k]?)) :
    Rep g { size_ := m, capacity_ := v.capacity_, data_ := some p } ys := by
  obtain ⟨-, -, hbl, hsl⟩ := (rep_some_iff hd).mp hrep
  apply (rep_some_iff (p := p) rfl).mpr
  refine ⟨hlen, hm, by rw [hp.2.1]; exact hbl, ?_⟩
  intro k hk
  simp only [] at hk
  rw [hp.2.2, hys k hk]
  by_cases hki : k = i
  · rw [if_pos ⟨rfl, hki⟩, if_pos hki]
  · rw [if_neg (fun hc => hki hc.2), if_neg hki]
    exact hsl k hk

theorem rep_data_some {h : Heap α} {v : SimpleVector} {xs : List α} (hrep : Rep h v xs)
    (hc : 0 < v.capacity_) : ∃ p, v.data_ = some p := by
  cases hd : v.data_ with
  | none => have := (rep_none hd hrep).2.1; omega
  | some p => exact ⟨p, rfl⟩

theorem construct_at_end {h : Heap α} {v : SimpleVector} {xs : List α} (x : α)
    (hrep : Rep h v xs) (hlt : v.size_ < v.capacity_) :
    ∃ g p, v.data_ = some p ∧ construct h v.data_ v.size_ x = some g ∧
      Rep g { size_ := v.size_ + 1, capacity_ := v.capacity_, data_ := v.data_ } (xs ++ [x]) ∧
      Poked h g p v.size_ (some x) := by
  obtain ⟨p, hd⟩ := rep_data_some hrep (by omega)
  obtain ⟨hlen, -, hbl, -⟩ := (rep_some_iff hd).mp hrep
  obtain ⟨g, e, hp⟩ := construct_ok x hbl hlt
  refine ⟨g, p, hd, by rw [hd]; exact e, ?_, hp⟩
  rw [hd]
  refine poked_rep hd hrep hp (by simp [hlen]) (by omega) ?_
  intro k _
  by_cases hk : k = v.size_
  · rw [if_pos hk, hk, ← hlen, List.getElem?_concat_length]
  · rw [if_neg hk, List.getElem?_append]
    by_cases hk2 : k < xs.length
    · rw [if_pos hk2]
    · rw [if_neg hk2, List.getElem?_eq_none (Nat.le_of_not_lt hk2),
        List.getElem?_eq_none (by simp; omega)]

theorem lookup_eq_some {h : Heap α} {d : Option Nat} {p : Nat} {b : Block α}
    (e : lookup h d = some (p, b)) : d = some p ∧ h[p]? = some (some b) := by
  unfold lookup at e
  cases d with
  | none => cases e
  | some q =>
    simp only [] at e
    split at e
    · next b2 hb =>
      simp only [Option.some.injEq, Prod.mk.injEq] at e
      obtain ⟨rfl, rfl⟩ := e
      exact ⟨rfl, hb⟩
    · cases e

theorem load_some {h : Heap α} {d : Option Nat} {i : Nat} {y : α} (e : load h d i = some y) :
    ∃ p, d = some p ∧ slot h p i = some (some y) := by
  unfold load at e
  cases hl : lookup h d with
  | none => rw [hl] at e; cases e
  | some pb =>
    obtain ⟨p, b⟩ := pb
    rw [hl] at e
    obtain ⟨hd, hb⟩ := lookup_eq_some hl
    refine ⟨p, hd, slot_eq_some.mpr ⟨b, hb, ?_⟩⟩
    cases hbi : b[i]? with
    | none => simp [hbi] at e
    | some s =>
      cases s with
      | none => simp [hbi] at e
      | some x =>
        simp [hbi] at e
        rw [e]

theorem frame_load {h g : Heap α} {own d : Option Nat} {i : Nat} {x : α}
    (fr : Frame h g own) (hne : d ≠ own) (hl : load h d i = some x) : load g d i = some x := by
  obtain ⟨q, rfl, hs⟩ := load_some hl
  obtain ⟨L, hL, -⟩ := slot_lt_blockLen hs
  apply load_ok
  rw [(fr.2 q (blockLen_lt_length hL) hne).2]
  exact hs

theorem constructArg_value [Elem α] (h : Heap α) (d : Option Nat) (i : Nat) (x : α) :
    constructArg h d i (Arg.value x) = construct h d i x := rfl

theorem constructArg_outside [Elem α] {h g : Heap α} {own d : Option Nat} {i : Nat}
    {a : Arg α} {x : α} (ho : Outside h own a x) (fr : Frame h g own) :
    constructArg g d i a = construct g d i x := by
  unfold constructArg
  cases a with
  | value y =>
    have hy : y = x := ho
    subst hy
    rfl
  | ref d2 j =>
    obtain ⟨hne, hl⟩ := ho
    simp only [takeArg, frame_load fr hne hl]
  | rref d2 j => exact absurd ho id

theorem outside_reads [Elem α] {h : Heap α} {own : Option Nat} {a : Arg α} {x : α}
    (ho : Outside h own a x) : takeArg h a = some (x, h) := by
  cases a with
  | value y =>
    have hy : y = x := ho
    subst hy
    rfl
  | ref d i =>
    obtain ⟨-, hl⟩ := ho
    simp only [takeArg, hl]
  | rref d i => exact absurd ho id

theorem grow_capacity [Elem α] {c : Nat} (hfit : Fits α (max 1 (2 * c))) :
    (if c = 0 then 1 else c * 2 % SIZE_MOD) = max 1 (2 * c) ∧ c < max 1 (2 * c) := by
  have hlt := fits_lt hfit
  by_cases hc : c = 0
  · subst hc; simp
  · rw [if_neg hc]
    have h1 : max 1 (2 * c) = 2 * c := by omega
    rw [h1] at hlt ⊢
    rw [Nat.mul_comm c 2, Nat.mod_eq_of_lt hlt]
    omega

theorem EmplaceBack_spec [Elem α] {h : Heap α} {v : SimpleVector} {xs : List α} {a : Arg α}
    (x : α) (hrep : Rep h v xs) (harg : Outside h v.data_ a x)
    (hfit : v.size_ = v.capacity_ → Fits α (max 1 (2 * v.capacity_))) :
    ∃ g w, EmplaceBack h v a = some (⟨w.data_, v.size_⟩, g, w) ∧
      Rep g w (xs ++ [x]) ∧ w.size_ = v.size_ + 1 ∧
      w.capacity_ = (if v.size_ = v.capacity_ then max 1 (2 * v.capacity_) else v.capacity_) ∧
      load g w.data_ v.size_ = some x ∧ Frame h g v.data_ := by
  unfold EmplaceBack
  by_cases hsc : v.size_ = v.capacity_
  · obtain ⟨e1, e2⟩ := grow_capacity (hfit hsc)
    rw [if_pos hsc, e1]
    obtain ⟨g1, r1, rep1, fr1, -, -⟩ := Reserve_grow hrep e2 (hfit hsc)
    rw [r1]
    obtain ⟨g2, p, hd, c2, rep2, pk2⟩ := construct_at_end x rep1 (by simp only []; omega)
    simp only [] at c2 rep2 pk2 hd
    simp only [constructArg_outside harg fr1, c2]
    refine ⟨g2, _, rfl, rep2, rfl, by simp [hsc], ?_, ?_⟩
    · cases hd
      apply load_ok
      rw [pk2.2.2, if_pos ⟨rfl, rfl⟩]
    · cases hd
      refine frame_of_slots (by rw [pk2.1]; exact fr1.1) ?_ ?_
      · intro r hr hne
        rw [pk2.2.1]; exact (fr1.2 r hr hne).1
      · intro r k hr hne
        rw [pk2.2.2, if_neg (by omega)]; exact (fr1.2 r hr hne).2 k
  · rw [if_neg hsc]
    have hlt : v.size_ < v.capacity_ := by
      have := hrep.2.1; omega
    obtain ⟨g2, p, hd, c2, rep2, pk2⟩ := construct_at_end x hrep hlt
    simp only [constructArg_outside harg (frame_refl h v.data_), c2]
    refine ⟨g2, _, rfl, rep2, rfl, by simp [hsc], ?_, ?_⟩
    · simp only [hd]
      apply load_ok
      rw [pk2.2.2, if_pos ⟨rfl, rfl⟩]
    · rw [hd]; exact poked_frame pk2

theorem move_backward_aux_ok [Elem α] {p L : Nat} (himp : Elem.implicitLifetime α = true) :
    ∀ (n last : Nat) (h : Heap α), n ≤ last →
      (∀ k, last - n ≤ k → k < last → ∃ y, slot h p k = some (some y)) →
      blockLen h p = some L → last < L →
      ∃ g, move_backward_aux (some p) n last (last + 1) h = some g ∧ Shape h g ∧
        ∀ r k, ¬ (r = p ∧ k = last - n) →
          slot g r k = if r = p ∧ last - n < k ∧ k ≤ last then slot h p (k - 1)
            else slot h r k := by
  intro n
  induction n with
  | zero =>
    intro last h _ _ _ _
    refine ⟨h, rfl, shape_refl h, ?_⟩
    intro r k _
    rw [if_neg (by omega)]
  | succ n ih =>
    intro last h hn hsrc hL hlast
    obtain ⟨y, hy⟩ := hsrc (last - 1) (by omega) (by omega)
    obtain ⟨h1, e1, p1⟩ := moveOut_ok hy
    have hL1 : blockLen h1 p = some L := by rw [p1.2.1]; exact hL
    obtain ⟨h2, e2, p2⟩ := assign_ok y hL1 hlast himp
    have hL2 : blockLen h2 p = some L := by rw [p2.2.1]; exact hL1
    have hsrc2 : ∀ k, last - 1 - n ≤ k → k < last - 1 → ∃ y, slot h2 p k = some (some y) := by
      intro k hk1 hk2
      obtain ⟨z, hz⟩ := hsrc k (by omega) (by omega)
      refine ⟨z, ?_⟩
      rw [p2.2.2, if_neg (by omega), p1.2.2, if_neg (by omega)]
      exact hz
    obtain ⟨g, e, sh, sl⟩ := ih (last - 1) h2 (by omega) hsrc2 hL2 (by omega)
    have hl1 : last - 1 + 1 = last := by omega
    rw [hl1] at e
    refine ⟨g, ?_, shape_trans (shape_trans (poked_shape p1) (poked_shape p2)) sh, ?_⟩
    · simp only [move_backward_aux, Nat.add_sub_cancel, e1, e2, e]
    · intro r k hne
      rw [sl r k (by omega)]
      by_cases c1 : r = p ∧ last - 1 - n < k ∧ k ≤ last - 1
      · obtain ⟨rfl, c1a, c1b⟩ := c1
        rw [if_pos ⟨rfl, c1a, c1b⟩, if_pos ⟨rfl, by omega, by omega⟩, p2.2.2,
          if_neg (by omega), p1.2.2, if_neg (by omega)]
      · rw [if_neg c1, p2.2.2]
        by_cases c2 : r = p ∧ k = last
        · obtain ⟨rfl, rfl⟩ := c2
          rw [if_pos ⟨rfl, rfl⟩, if_pos ⟨rfl, by omega, by omega⟩]
          exact hy.symm
        · rw [if_neg c2, p1.2.2, if_neg (by omega), if_neg (by omega)]

theorem insert_getElem? (xs : List α) (x : α) (i k : Nat) (hi : i ≤ xs.length) :
    (xs.take i ++ [x] ++ xs.drop i)[k]? =
      if k < i then xs[k]? else if k = i then some x else xs[k - 1]? := by
  have hlen : (xs.take i).length = i := by simp; omega
  by_cases h1 : k < i
  · rw [if_pos h1, List.append_assoc, List.getElem?_append_left (by omega),
      List.getElem?_take_of_lt h1]
  · rw [if_neg h1, List.append_assoc, List.getElem?_append_right (by omega), hlen]
    by_cases h2 : k = i
    · subst h2; simp
    · rw [if_neg h2]
      have : k - i = (k - i - 1) + 1 := by omega
      rw [this, List.singleton_append, List.getElem?_cons_succ, List.getElem?_drop]
      congr 1
      omega

theorem offsetOf_data (v : SimpleVector) (k : Nat) : offsetOf v ⟨v.data_, k⟩ = some k := by
  simp [offsetOf, begin_]

theorem Emplace_nogrow [Elem α] {h : Heap α} {v : SimpleVector} {xs : List α} {a : Arg α}
    (k : Nat) (x : α) (hrep : Rep h v xs) (harg : Outside h v.data_ a x) (hk : k ≤ v.size_)
    (hlt : v.size_ < v.capacity_) (himp : k < v.size_ → Elem.implicitLifetime α = true) :
    ∃ g, Emplace h v ⟨v.data_, k⟩ a =
        some (⟨v.data_, k⟩, g,
          { size_ := v.size_ + 1, capacity_ := v.capacity_, data_ := v.data_ }) ∧
      Rep g { size_ := v.size_ + 1, capacity_ := v.capacity_, data_ := v.data_ }
        (xs.take k ++ [x] ++ xs.drop k) ∧
      load g v.data_ k = some x ∧ Frame h g v.data_ ∧ Shape h g := by
  obtain ⟨p, hd⟩ := rep_data_some hrep (by omega)
  obtain ⟨hlen, -, hbl, hsl⟩ := (rep_some_iff hd).mp hrep
  have hstep : ∃ h1, (if k < v.size_ then move_backward v.data_ k v.size_ (v.size_ + 1) h
        else some h) = some h1 ∧ Shape h h1 ∧
      ∀ r j, ¬ (r = p ∧ j = k) →
        slot h1 r j = if r = p ∧ k < j ∧ j ≤ v.size_ then slot h p (j - 1) else slot h r j := by
    by_cases hks : k < v.size_
    · rw [if_pos hks, hd]
      have hsrc : ∀ j, v.size_ - (v.size_ - k) ≤ j → j < v.size_ →
          ∃ y, slot h p j = some (some y) := by
        intro j _ hj
        rw [hsl j (by omega)]
        exact ⟨xs[j], by rw [List.getElem?_eq_getElem (by omega)]⟩
      obtain ⟨g, e, sh, sl⟩ := move_backward_aux_ok (himp hks) (v.size_ - k) v.size_ h
        (by omega) hsrc hbl hlt
      refine ⟨g, e, sh, ?_⟩
      intro r j hne
      have hkk : v.size_ - (v.size_ - k) = k := by omega
      rw [hkk] at sl
      exact sl r j hne
    · rw [if_neg hks]
      refine ⟨h, rfl, shape_refl h, ?_⟩
      intro r j _
      rw [if_neg (by omega)]
  obtain ⟨h1, e1, sh1, sl1⟩ := hstep
  have hbl1 : blockLen h1 p = some v.capacity_ := by rw [sh1.2]; exact hbl
  have fr1 : Frame h h1 v.data_ := by
    rw [hd]
    refine frame_of_slots (by rw [sh1.1]) ?_ ?_
    · intro r _ _
      rw [sh1.2]
    · intro r j _ hne
      have hrp : r ≠ p := fun hc => hne (by rw [hc])
      rw [sl1 r j (fun hc => hrp hc.1), if_neg (fun hc => hrp hc.1)]
  obtain ⟨g, e2, pk⟩ := construct_ok x hbl1 (show k < v.capacity_ by omega)
  refine ⟨g, ?_, ?_, ?_, ?_, shape_trans sh1 (poked_shape pk)⟩
  · unfold Emplace
    rw [offsetOf_data]
    simp only [if_neg (Nat.ne_of_lt hlt), e1]
    rw [← hd] at e2
    simp only [constructArg_outside harg fr1, e2]
  · rw [hd]
    apply (rep_some_iff (p := p) rfl).mpr
    refine ⟨by simp; omega, by simp only []; omega, by rw [pk.2.1]; exact hbl1, ?_⟩
    intro j hj
    simp only [] at hj
    rw [pk.2.2, insert_getElem? xs x k j (by omega)]
    by_cases c1 : j = k
    · subst c1
      rw [if_pos ⟨rfl, rfl⟩, if_neg (by omega), if_pos rfl]
    · rw [if_neg (fun hc => c1 hc.2), sl1 p j (fun hc => c1 hc.2)]
      by_cases c2 : j < k
      · rw [if_neg (by omega), if_pos c2]
        exact hsl j hj
      · rw [if_neg c2, if_neg c1]
        by_cases c3 : j ≤ v.size_
        · rw [if_pos ⟨rfl, by omega, c3⟩]
          exact hsl (j - 1) (by omega)
        · rw [if_neg (by omega), hsl j hj, List.getElem?_eq_none (by omega),
            List.getElem?_eq_none (by omega)]
  · rw [hd]
    apply load_ok
    rw [pk.2.2, if_pos ⟨rfl, rfl⟩]
  · rw [hd]
    refine frame_of_slots (by rw [pk.1, sh1.1]) ?_ ?_
    · intro r _ _
      rw [pk.2.1, sh1.2]
    · intro r j _ hne
      have hrp : r ≠ p := fun hc => hne (by rw [hc])
      rw [pk.2.2, if_neg (fun hc => hrp hc.1), sl1 r j (fun hc => hrp hc.1),
        if_neg (fun hc => hrp hc.1)]

theorem Emplace_grow [Elem α] {h : Heap α} {v : SimpleVector} {xs : List α} {a : Arg α}
    (k : Nat) (x : α) (hrep : Rep h v xs) (harg : Outside h v.data_ a x) (hk : k ≤ v.size_)
    (hsc : v.size_ = v.capacity_) (hfit : Fits α (max 1 (2 * v.capacity_))) :
    ∃ g, Emplace h v ⟨v.data_, k⟩ a =
        some (⟨some h.length, k⟩, g,
          { size_ := v.size_ + 1, capacity_ := max 1 (2 * v.capacity_),
            data_ := some h.length }) ∧
      Rep g
        { size_ := v.size_ + 1, capacity_ := max 1 (2 * v.capacity_), data_ := some h.length }
        (xs.take k ++ [x] ++ xs.drop k) ∧
      load g (some h.length) k = some x ∧ Frame h g v.data_ ∧ g.length = h.length + 1 ∧
      ∀ p, v.data_ = some p → blockLen g p = none := by
  obtain ⟨ecap, hgt⟩ := grow_capacity hfit
  obtain ⟨-, hlen1, hbl1, hsl1⟩ := Allocate_view (α := α) h (max 1 (2 * v.capacity_))
  rw [fits_div hfit] at hbl1 hsl1
  generalize hh1 : (Allocate h (max 1 (2 * v.capacity_))).2 = h1 at hlen1 hbl1 hsl1
  have hAlloc : Allocate h (max 1 (2 * v.capacity_)) = (some h.length, h1) := by
    rw [← hh1]; rfl
  have hLq : blockLen h1 h.length = some (max 1 (2 * v.capacity_)) := by rw [hbl1, if_pos rfl]
  cases hd : v.data_ with
  | none =>
    obtain ⟨hs0, hc0, rfl⟩ := rep_none hd hrep
    have hk0 : k = 0 := by omega
    subst hk0
    obtain ⟨g, e, pk⟩ := construct_ok x hLq (show 0 < max 1 (2 * v.capacity_) by omega)
    rw [hd] at harg
    have fr1 : Frame h h1 none := by
      refine frame_of_slots (by omega) ?_ ?_
      · intro r hr _; rw [hbl1, if_neg (by omega)]
      · intro r j hr _; rw [hsl1, if_neg (by omega)]
    refine ⟨g, ?_, ?_, ?_, ?_, by rw [pk.1, hlen1], fun p hp => by cases hp⟩
    · unfold Emplace
      rw [← hd, offsetOf_data]
      simp only [if_pos hsc, ecap, hAlloc]
      rw [forLoop_empty _ 0 0 h1 (Nat.le_refl 0)]
      simp only [constructArg_outside harg fr1, e]
      rw [forLoop_empty _ 0 v.size_ g (by omega)]
      simp only [hd, operatorDelete]
    · apply (rep_some_iff (p := h.length) rfl).mpr
      refine ⟨by simp [hs0], by simp only []; omega, by rw [pk.2.1]; exact hLq, ?_⟩
      intro j hj
      simp only [] at hj
      rw [pk.2.2, hsl1, if_pos rfl, if_pos hj]
      by_cases hj0 : j = 0
      · subst hj0; simp
      · rw [if_neg (fun hc => hj0 hc.2)]
        have hnone : ([] ++ [x] ++ [] : List α)[j]? = none :=
          List.getElem?_eq_none (by simp; omega)
        simpa using hnone.symm
    · apply load_ok
      rw [pk.2.2, if_pos ⟨rfl, rfl⟩]
    · refine frame_of_slots (by rw [pk.1, hlen1]; omega) ?_ ?_
      · intro r hr _; rw [pk.2.1, hbl1, if_neg (by omega)]
      · intro r j hr _; rw [pk.2.2, if_neg (by omega), hsl1, if_neg (by omega)]
  | some p =>
    obtain ⟨hlen, hle, hbl, hsl⟩ := (rep_some_iff hd).mp hrep
    have hp : p < h.length := blockLen_lt_length hbl
    have hpq : p ≠ h.length := by omega
    have hlive : ∀ i, i < v.size_ → ∃ y, slot h p i = some (some y) := by
      intro i hi
      rw [hsl i (by omega), List.getElem?_eq_getElem (by omega)]
      exact ⟨_, rfl⟩
    have hsrc1 : ∀ i, 0 ≤ i → i < k → ∃ y, slot h1 p i = some (some y) := by
      intro i _ hi
      rw [hsl1, if_neg hpq]
      exact hlive i (by omega)
    obtain ⟨h2, e2, sh2, sl2⟩ := relocLoop (fun i => i) 0 0 k (fun _ => rfl) hpq
      (Nat.zero_le _) hsrc1 hLq (by omega)
    have hLq2 : blockLen h2 h.length = some (max 1 (2 * v.capacity_)) := by
      rw [sh2.2]; exact hLq
    rw [hd] at harg
    have fr2 : Frame h h2 (some p) := by
      refine frame_of_slots (by rw [sh2.1, hlen1]; omega) ?_ ?_
      · intro r hr hne
        rw [sh2.2, hbl1, if_neg (by omega)]
      · intro r j hr hne
        have hrp : r ≠ p := fun hc => hne (by rw [hc])
        rw [sl2, if_neg (by omega), if_neg (fun hc => hrp hc.1), hsl1, if_neg (by omega)]
    obtain ⟨h3, e3, pk3⟩ := construct_ok x hLq2 (show k < max 1 (2 * v.capacity_) by omega)
    have hLq3 : blockLen h3 h.length = some (max 1 (2 * v.capacity_)) := by
      rw [pk3.2.1]; exact hLq2
    have hold3 : ∀ i, k ≤ i → slot h3 p i = slot h p i := by
      intro i hi
      rw [pk3.2.2, if_neg (fun hc => hpq hc.1), sl2, if_neg (fun hc => hpq hc.1),
        if_neg (by omega), hsl1, if_neg hpq]
    have hsrc3 : ∀ i, k ≤ i → i < v.size_ → ∃ y, slot h3 p i = some (some y) := by
      intro i hi1 hi2
      rw [hold3 i hi1]
      exact hlive i hi2
    obtain ⟨h4, e4, sh4, sl4⟩ := relocLoop (fun i => i + 1) 1 k v.size_ (fun _ => rfl) hpq
      hk hsrc3 hLq3 (by omega)
    have hL4 : blockLen h4 p = some v.capacity_ := by
      rw [sh4.2, pk3.2.1, sh2.2, hbl1, if_neg hpq]; exact hbl
    obtain ⟨h5, e5, len5, bl5, sl5⟩ := operatorDelete_ok hL4
    have hlen5 : h5.length = h.length + 1 := by rw [len5, sh4.1, pk3.1, sh2.1, hlen1]
    refine ⟨h5, ?_, ?_, ?_, ?_, hlen5, ?_⟩
    · unfold Emplace
      rw [← hd, offsetOf_data]
      simp only [if_pos hsc, ecap, hAlloc]
      rw [hd, e2]
      simp only [constructArg_outside harg fr2, e3]
      rw [e4]
      simp only [e5]
    · apply (rep_some_iff (p := h.length) rfl).mpr
      refine ⟨by simp; omega, by simp only []; omega, ?_, ?_⟩
      · rw [bl5, if_neg (Ne.symm hpq), sh4.2]; exact hLq3
      · intro j hj
        simp only [] at hj
        rw [sl5, if_neg (Ne.symm hpq), sl4, insert_getElem? xs x k j (by omega)]
        by_cases c1 : k + 1 ≤ j ∧ j < v.size_ + 1
        · rw [if_pos ⟨rfl, c1⟩, hold3 (j - 1) (by omega), if_neg (by omega), if_neg (by omega)]
          exact hsl (j - 1) (by omega)
        · rw [if_neg (fun hc => c1 hc.2), if_neg (fun hc => hpq hc.1.symm), pk3.2.2]
          by_cases c2 : j = k
          · subst c2
            rw [if_pos ⟨rfl, rfl⟩, if_neg (by omega), if_pos rfl]
          · rw [if_neg (fun hc => c2 hc.2), sl2]
            by_cases c3 : j < k
            · rw [if_pos ⟨rfl, by omega, by omega⟩, if_pos c3, hsl1, if_neg hpq]
              exact hsl j (by omega)
            · rw [if_neg (by omega), if_neg (fun hc => hpq hc.1.symm), hsl1, if_pos rfl,
                if_pos hj, if_neg c3, if_neg c2, List.getElem?_eq_none (by omega)]
    · apply load_ok
      rw [sl5, if_neg (Ne.symm hpq), sl4, if_neg (by omega), if_neg (fun hc => hpq hc.1.symm),
        pk3.2.2, if_pos ⟨rfl, rfl⟩]
    · refine frame_of_slots (by omega) ?_ ?_
      · intro r hr hne
        have hrp : r ≠ p := fun hc => hne (by rw [hc])
        rw [bl5, if_neg hrp, sh4.2, pk3.2.1, sh2.2, hbl1, if_neg (by omega)]
      · intro r j hr hne
        have hrp : r ≠ p := fun hc => hne (by rw [hc])
        rw [sl5, if_neg hrp, sl4, if_neg (by omega), if_neg (fun hc => hrp hc.1), pk3.2.2,
          if_neg (by omega), sl2, if_neg (by omega), if_neg (fun hc => hrp hc.1), hsl1,
          if_neg (by omega)]
    · intro p2 hp2
      cases hp2
      rw [bl5, if_pos rfl]

theorem Emplace_spec [Elem α] {h : Heap α} {v : SimpleVector} {xs : List α} {a : Arg α}
    (k : Nat) (x : α) (hrep : Rep h v xs) (harg : Outside h v.data_ a x) (hk : k ≤ v.size_)
    (hfit : v.size_ = v.capacity_ → Fits α (max 1 (2 * v.capacity_)))
    (himp : v.size_ < v.capacity_ → k < v.size_ → Elem.implicitLifetime α = true) :
    ∃ g w, Emplace h v ⟨v.data_, k⟩ a = some (⟨w.data_, k⟩, g, w) ∧
      Rep g w (xs.take k ++ [x] ++ xs.drop k) ∧ w.size_ = v.size_ + 1 ∧
      w.capacity_ = (if v.size_ = v.capacity_ then max 1 (2 * v.capacity_) else v.capacity_) ∧
      load g w.data_ k = some x ∧ Frame h g v.data_ := by
  by_cases hsc : v.size_ = v.capacity_
  · obtain ⟨g, e, rep, hl, fr, -, -⟩ := Emplace_grow k x hrep harg hk hsc (hfit hsc)
    exact ⟨g, _, e, rep, rfl, by simp [hsc], hl, fr⟩
  · have hlt : v.size_ < v.capacity_ := by
      have := hrep.2.1; omega
    obtain ⟨g, e, rep, hl, fr, -⟩ := Emplace_nogrow k x hrep harg hk hlt (himp hlt)
    exact ⟨g, _, e, rep, rfl, by simp [hsc], hl, fr⟩

theorem rep_index {h : Heap α} {v : SimpleVector} {xs : List α} (hrep : Rep h v xs) (i : Nat) :
    index h v i = xs[i]? := by
  unfold index
  by_cases hi : i < v.size_
  · rw [if_pos hi]
    obtain ⟨p, hd⟩ := rep_data_some hrep (by have := hrep.2.1; omega)
    obtain ⟨hlen, hle, -, hsl⟩ := (rep_some_iff hd).mp hrep
    rw [hd, List.getElem?_eq_getElem (by omega)]
    apply load_ok
    rw [hsl i (by omega), List.getElem?_eq_getElem (by omega)]
  · rw [if_neg hi, List.getElem?_eq_none (by have := hrep.1; omega)]

theorem rep_ctorDefault (h : Heap α) : Rep h ctorDefault [] := by
  simp [Rep, ctorDefault]

theorem PushBack_eq [Elem α] {h g : Heap α} {v w : SimpleVector} {a : Arg α} {it : Iter}
    (e : EmplaceBack h v a = some (it, g, w)) : PushBack h v a = some (g, w) := by
  simp [PushBack, e]

theorem remove_getElem? (xs : List α) (i k : Nat) (hi : i ≤ xs.length) :
    (xs.take i ++ xs.drop (i + 1))[k]? = if k < i then xs[k]? else xs[k + 1]? := by
  have hlen : (xs.take i).length = i := by simp; omega
  by_cases h1 : k < i
  · rw [if_pos h1, List.getElem?_append_left (by omega), List.getElem?_take_of_lt h1]
  · rw [if_neg h1, List.getElem?_append_right (by omega), hlen, List.getElem?_drop]
    congr 1
    omega

theorem shiftLeftLoop [Elem α] {h h1 : Heap α} {p L : Nat} (lo hi : Nat) (hle : lo ≤ hi)
    (hsrc : ∀ i, lo < i → i ≤ hi → ∃ y, slot h p i = some (some y))
    (hL : blockLen h p = some L) (hhi : hi < L) (hp : Poked h h1 p lo none) :
    ∃ g, forLoop lo hi (fun i g => relocate g (some p) i (some p) (i + 1)) h1 = some g ∧
      Shape h g ∧
      ∀ r k, slot g r k =
        if r = p ∧ lo ≤ k ∧ k < hi then slot h p (k + 1)
        else if r = p ∧ k = hi then some none else slot h r k := by
  apply forLoop_inv _ (fun i g => Shape h g ∧
      ∀ r k, slot g r k =
        if r = p ∧ lo ≤ k ∧ k < i then slot h p (k + 1)
        else if r = p ∧ k = i then some none else slot h r k) lo hi h1 hle
  · refine ⟨poked_shape hp, ?_⟩
    intro r k
    rw [hp.2.2]
    split_ifs <;> first | rfl | (exfalso; omega)
  · rintro i g hlo hhi2 ⟨hsh, hsl⟩
    obtain ⟨y, hy⟩ := hsrc (i + 1) (by omega) (by omega)
    have hgy : slot g p (i + 1) = some (some y) := by
      rw [hsl, if_neg (by omega), if_neg (by omega)]
      exact hy
    have hgL : blockLen g p = some L := by rw [hsh.2]; exact hL
    obtain ⟨g1, e1, sh1, sl1⟩ := relocate_ok hgy hgL (show i < L by omega) (by omega)
    refine ⟨g1, e1, shape_trans hsh sh1, ?_⟩
    intro r k
    rw [sl1, hsl]
    by_cases c1 : r = p ∧ k = i
    · obtain ⟨rfl, rfl⟩ := c1
      rw [if_pos ⟨rfl, rfl⟩, if_pos ⟨rfl, by omega, by omega⟩]
      exact hy.symm
    · rw [if_neg c1]
      split_ifs <;> first | rfl | (exfalso; omega)

theorem Erase_spec [Elem α] {h : Heap α} {v : SimpleVector} {xs : List α} (k : Nat)
    (hrep : Rep h v xs) (hk : k < v.size_) :
    ∃ g, Erase h v ⟨v.data_, k⟩ =
        some (⟨v.data_, k⟩, g,
          { size_ := v.size_ - 1, capacity_ := v.capacity_, data_ := v.data_ }) ∧
      Rep g { size_ := v.size_ - 1, capacity_ := v.capacity_, data_ := v.data_ }
        (xs.take k ++ xs.drop (k + 1)) ∧
      Frame h g v.data_ ∧ Shape h g := by
  obtain ⟨p, hd⟩ := rep_data_some hrep (by have := hrep.2.1; omega)
  obtain ⟨hlen, hle, hbl, hsl⟩ := (rep_some_iff hd).mp hrep
  have hlive : ∀ i, i < v.size_ → ∃ y, slot h p i = some (some y) := by
    intro i hi
    rw [hsl i (by omega), List.getElem?_eq_getElem (by omega)]
    exact ⟨_, rfl⟩
  obtain ⟨y, hy⟩ := hlive k hk
  obtain ⟨h1, e1, pk1⟩ := destroy_ok hy
  obtain ⟨g, e2, sh, sl⟩ := shiftLeftLoop k (v.size_ - 1) (by omega)
    (fun i _ hi2 => hlive i (by omega)) hbl (by omega) pk1
  refine ⟨g, ?_, ?_, ?_, sh⟩
  · unfold Erase
    rw [offsetOf_data]
    simp only [if_pos hk]
    rw [hd]
    simp only [e1]
    rw [e2]
  · rw [hd]
    apply (rep_some_iff (p := p) rfl).mpr
    refine ⟨by simp; omega, by simp only []; omega, by rw [sh.2]; exact hbl, ?_⟩
    intro j hj
    simp only [] at hj
    rw [sl, remove_getElem? xs k j (by omega)]
    by_cases c1 : k ≤ j ∧ j < v.size_ - 1
    · rw [if_pos ⟨rfl, c1⟩, if_neg (by omega)]
      exact hsl (j + 1) (by omega)
    · rw [if_neg (fun hc => c1 hc.2)]
      by_cases c2 : j = v.size_ - 1
      · rw [if_pos ⟨rfl, c2⟩, if_neg (by omega), List.getElem?_eq_none (by omega)]
      · rw [if_neg (fun hc => c2 hc.2), hsl j hj]
        by_cases c3 : j < k
        · rw [if_pos c3]
        · rw [if_neg c3, List.getElem?_eq_none (by omega), List.getElem?_eq_none (by omega)]
  · rw [hd]
    refine frame_of_slots (by rw [sh.1]) (fun r _ _ => sh.2 r) ?_
    intro r j _ hne
    have hrp : r ≠ p := fun hc => hne (by rw [hc])
    rw [sl, if_neg (fun hc => hrp hc.1), if_neg (fun hc => hrp hc.1)]

/-! ## What a defined call tells: shapes and bounds -/

theorem construct_some {h g : Heap α} {d : Option Nat} {i : Nat} {x : α}
    (e : construct h d i x = some g) :
    ∃ p L, d = some p ∧ blockLen h p = some L ∧ i < L ∧ Poked h g p i (some x) := by
  unfold construct at e
  split at e
  · next p b hl =>
    obtain ⟨rfl, hb⟩ := lookup_eq_some hl
    split at e
    · next hi =>
      cases e
      exact ⟨p, b.length, rfl, blockLen_eq_some.mpr ⟨b, hb, rfl⟩, hi, poked_set h p b i _ hb hi⟩
    · cases e
  · cases e

theorem getElem?_lt {β : Type} {b : List β} {i : Nat} {s : β} (hk : b[i]? = some s) :
    i < b.length := by
  by_contra hge
  rw [List.getElem?_eq_none (Nat.le_of_not_lt hge)] at hk
  cases hk

theorem assign_some [Elem α] {h g : Heap α} {d : Option Nat} {i : Nat} {x : α}
    (e : assign h d i x = some g) :
    ∃ p L, d = some p ∧ blockLen h p = some L ∧ i < L ∧ Poked h g p i (some x) := by
  unfold assign at e
  split at e
  · next p b hl =>
    obtain ⟨rfl, hb⟩ := lookup_eq_some hl
    split at e
    · next y hk =>
      cases e
      exact ⟨p, b.length, rfl, blockLen_eq_some.mpr ⟨b, hb, rfl⟩, getElem?_lt hk,
        poked_set h p b i _ hb (getElem?_lt hk)⟩
    · next hk =>
      split at e
      · cases e
        exact ⟨p, b.length, rfl, blockLen_eq_some.mpr ⟨b, hb, rfl⟩, getElem?_lt hk,
          poked_set h p b i _ hb (getElem?_lt hk)⟩
      · cases e
    · cases e
  · cases e

theorem destroy_some {h g : Heap α} {d : Option Nat} {i : Nat}
    (e : destroy h d i = some g) :
    ∃ p y, d = some p ∧ slot h p i = some (some y) ∧ Poked h g p i none := by
  unfold destroy at e
  split at e
  · next p b hl =>
    obtain ⟨rfl, hb⟩ := lookup_eq_some hl
    split at e
    · next y hk =>
      cases e
      exact ⟨p, y, rfl, slot_eq_some.mpr ⟨b, hb, hk⟩, poked_set h p b i _ hb (getElem?_lt hk)⟩
    · cases e
  · cases e

theorem moveOut_some [Elem α] {h g : Heap α} {d : Option Nat} {i : Nat} {y : α}
    (e : moveOut h d i = some (y, g)) :
    ∃ p, d = some p ∧ slot h p i = some (some y) ∧
      Poked h g p i (some (Elem.movedFrom y)) := by
  unfold moveOut at e
  split at e
  · next p b hl =>
    obtain ⟨rfl, hb⟩ := lookup_eq_some hl
    split at e
    · next z hk =>
      simp only [Option.some.injEq, Prod.mk.injEq] at e
      obtain ⟨rfl, rfl⟩ := e
      exact ⟨p, rfl, slot_eq_some.mpr ⟨b, hb, hk⟩, poked_set h p b i _ hb (getElem?_lt hk)⟩
    · cases e
  · cases e

theorem takeArg_shape [Elem α] {h g : Heap α} {a : Arg α} {x : α}
    (e : takeArg h a = some (x, g)) : Shape h g := by
  cases a with
  | value y =>
    simp only [takeArg, Option.some.injEq, Prod.mk.injEq] at e
    rw [← e.2]
    exact shape_refl h
  | ref d i =>
    simp only [takeArg] at e
    cases hl : load h d i with
    | none => rw [hl] at e; cases e
    | some y =>
      rw [hl] at e
      simp only [Option.some.injEq, Prod.mk.injEq] at e
      rw [← e.2]
      exact shape_refl h
  | rref d i =>
    have e2 : moveOut h d i = some (x, g) := e
    obtain ⟨p, -, -, pk⟩ := moveOut_some e2
    exact poked_shape pk

theorem constructArg_some [Elem α] {h g : Heap α} {d : Option Nat} {i : Nat} {a : Arg α}
    (e : constructArg h d i a = some g) :
    ∃ p L, d = some p ∧ blockLen h p = some L ∧ i < L ∧ Shape h g := by
  unfold constructArg at e
  split at e
  · next x h1 e1 =>
    have sh1 := takeArg_shape e1
    obtain ⟨p, L, hd, hL, hi, pk⟩ := construct_some e
    exact ⟨p, L, hd, by rw [← sh1.2]; exact hL, hi, shape_trans sh1 (poked_shape pk)⟩
  · cases e

theorem relocate_some [Elem α] {h g : Heap α} {dst src : Option Nat} {i j : Nat}
    (e : relocate h dst j src i = some g) :
    Shape h g ∧ ∃ q L, dst = some q ∧ blockLen h q = some L ∧ j < L := by
  unfold relocate at e
  split at e
  · next y h1 e1 =>
    obtain ⟨p, -, -, p1⟩ := moveOut_some e1
    split at e
    · next h2 e2 =>
      obtain ⟨q, L, hq, hL, hj, p2⟩ := construct_some e2
      obtain ⟨p3, -, -, -, pk3⟩ := destroy_some e
      refine ⟨shape_trans (shape_trans (poked_shape p1) (poked_shape p2)) (poked_shape pk3),
        q, L, hq, ?_, hj⟩
      rw [← p1.2.1]; exact hL
    · cases e
  · cases e

theorem forLoopAux_rel (body : Nat → Heap α → Option (Heap α)) (R : Heap α → Heap α → Prop)
    (hrefl : ∀ h, R h h) (htrans : ∀ a b c, R a b → R b c → R a c)
    (hbody : ∀ i a b, body i a = some b → R a b) :
    ∀ (n lo : Nat) (h g : Heap α), forLoopAux body n lo h = some g → R h g := by
  intro n
  induction n with
  | zero => intro lo h g e; cases e; exact hrefl h
  | succ n ih =>
    intro lo h g e
    unfold forLoopAux at e
    split at e
    · next h1 e1 => exact htrans _ _ _ (hbody lo h h1 e1) (ih (lo + 1) h1 g e)
    · cases e

theorem forLoop_shape (body : Nat → Heap α → Option (Heap α))
    (hbody : ∀ i a b, body i a = some b → Shape a b) {lo hi : Nat} {h g : Heap α}
    (e : forLoop lo hi body h = some g) : Shape h g :=
  forLoopAux_rel body Shape shape_refl (fun _ _ _ => shape_trans) hbody _ _ _ _ e

theorem forLoopAux_last (body : Nat → Heap α → Option (Heap α))
    (hbody : ∀ i a b, body i a = some b → Shape a b) :
    ∀ (n lo : Nat) (h g : Heap α), forLoopAux body (n + 1) lo h = some g →
      ∃ g1, Shape h g1 ∧ body (lo + n) g1 = some g := by
  intro n
  induction n with
  | zero =>
    intro lo h g e
    unfold forLoopAux at e
    split at e
    · next h1 e1 =>
      unfold forLoopAux at e
      cases e
      exact ⟨h, shape_refl h, e1⟩
    · cases e
  | succ n ih =>
    intro lo h g e
    unfold forLoopAux at e
    split at e
    · next h1 e1 =>
      obtain ⟨g1, sh, eb⟩ := ih (lo + 1) h1 g e
      refine ⟨g1, shape_trans (hbody lo h h1 e1) sh, ?_⟩
      have : lo + (n + 1) = lo + 1 + n := by omega
      rw [this]; exact eb
    · cases e

theorem move_backward_aux_shape [Elem α] (d : Option Nat) :
    ∀ (n last dl : Nat) (h g : Heap α), move_backward_aux d n last dl h = some g →
      Shape h g := by
  intro n
  induction n with
  | zero => intro last dl h g e; cases e; exact shape_refl h
  | succ n ih =>
    intro last dl h g e
    unfold move_backward_aux at e
    split at e
    · next y h1 e1 =>
      obtain ⟨p, -, -, p1⟩ := moveOut_some e1
      split at e
      · next h2 e2 =>
        obtain ⟨q, L, -, -, -, p2⟩ := assign_some e2
        exact shape_trans (shape_trans (poked_shape p1) (poked_shape p2)) (ih _ _ _ _ e)
      · cases e
    · cases e

theorem shape_evolves {h g : Heap α} (sh : Shape h g) : Evolves h g :=
  ⟨Nat.le_of_eq sh.1.symm, fun p L _ hL => by rw [← sh.2]; exact hL⟩

theorem evolves_refl (h : Heap α) : Evolves h h := ⟨Nat.le_refl _, fun _ _ _ hL => hL⟩

theorem evolves_trans {a b c : Heap α} (h1 : Evolves a b) (h2 : Evolves b c) : Evolves a c :=
  ⟨Nat.le_trans h1.1 h2.1,
    fun p L hp hL => h1.2 p L hp (h2.2 p L (Nat.lt_of_lt_of_le hp h1.1) hL)⟩

theorem operatorDelete_evolves {h g : Heap α} {d : Option Nat}
    (e : operatorDelete h d = some g) : Evolves h g := by
  unfold operatorDelete at e
  cases d with
  | none => cases e; exact evolves_refl h
  | some p =>
    simp only [] at e
    split at e
    · next b hb =>
      cases e
      obtain ⟨g2, e2, hlen, hbl, -⟩ := operatorDelete_ok (blockLen_eq_some.mpr ⟨b, hb, rfl⟩)
      have hg2 : g2 = h.set p none := by
        simp only [operatorDelete, hb, Option.some.injEq] at e2
        exact e2.symm
      subst hg2
      refine ⟨Nat.le_of_eq hlen.symm, ?_⟩
      intro q L _ hL
      rw [hbl] at hL
      by_cases hq : q = p
      · rw [if_pos hq] at hL; cases hL
      · rw [if_neg hq] at hL; exact hL
    · cases e

theorem Allocate_evolves [Elem α] (h : Heap α) (n : Nat) : Evolves h (Allocate h n).2 := by
  obtain ⟨-, hlen, hbl, -⟩ := Allocate_view (α := α) h n
  refine ⟨by omega, ?_⟩
  intro p L hp hL
  rw [hbl, if_neg (by omega)] at hL
  exact hL

theorem Allocate_blockLen_le [Elem α] (h : Heap α) (n : Nat) :
    ∃ L, blockLen (Allocate h n).2 h.length = some L ∧ L ≤ n := by
  obtain ⟨-, -, hbl, -⟩ := Allocate_view (α := α) h n
  refine ⟨_, by rw [hbl, if_pos rfl], ?_⟩
  have hpos := Elem.sizeofType_pos (α := α)
  calc n * Elem.sizeofType α % SIZE_MOD / Elem.sizeofType α
      ≤ n * Elem.sizeofType α / Elem.sizeofType α := Nat.div_le_div_right (Nat.mod_le _ _)
    _ = n := Nat.mul_div_cancel n hpos

/-! ## The invariant through every operation -/

theorem inv_of_evolves {h g : Heap α} {v : SimpleVector} (hinv : Inv h v) (ev : Evolves h g) :
    Inv g v := by
  refine ⟨hinv.1, hinv.2.1, ?_⟩
  intro p hp
  obtain ⟨hlt, hL⟩ := hinv.2.2 p hp
  exact ⟨Nat.lt_of_lt_of_le hlt ev.1, fun L hg => hL L (ev.2 p L hlt hg)⟩

theorem inv_resize {h : Heap α} {v : SimpleVector} (hinv : Inv h v) {m : Nat}
    (hm : m ≤ v.capacity_) :
    Inv h { size_ := m, capacity_ := v.capacity_, data_ := v.data_ } :=
  ⟨hm, hinv.2.1, hinv.2.2⟩

theorem fresh_of_shape [Elem α] {h g : Heap α} {n : Nat} (sh : Shape (Allocate h n).2 g) :
    Fresh h g n := by
  obtain ⟨-, hlen, -, -⟩ := Allocate_view (α := α) h n
  obtain ⟨L, hL, hle⟩ := Allocate_blockLen_le (α := α) h n
  refine ⟨evolves_trans (Allocate_evolves h n) (shape_evolves sh), by rw [sh.1, hlen]; omega, ?_⟩
  intro L2 hL2
  rw [sh.2, hL] at hL2
  cases hL2
  exact hle

theorem fresh_evolves {h g k : Heap α} {n : Nat} (fr : Fresh h g n) (ev : Evolves g k) :
    Fresh h k n :=
  ⟨evolves_trans fr.1 ev, Nat.lt_of_lt_of_le fr.2.1 ev.1,
    fun L hL => fr.2.2 L (ev.2 _ L fr.2.1 hL)⟩

theorem inv_fresh {h g : Heap α} {n sz cp : Nat} (fr : Fresh h g n) (hn : n ≤ cp)
    (hsz : sz ≤ cp) (hcp : cp ≠ 0) :
    Inv g { size_ := sz, capacity_ := cp, data_ := some h.length } := by
  refine ⟨hsz, fun hc => absurd hc hcp, ?_⟩
  intro p hp
  cases hp
  exact ⟨fr.2.1, fun L hL => Nat.le_trans (fr.2.2 L hL) hn⟩

theorem relocate_shape [Elem α] (dst src : Option Nat) (f k : Nat → Nat) :
    ∀ (i : Nat) (a b : Heap α), relocate a dst (f i) src (k i) = some b → Shape a b :=
  fun _ _ _ e => (relocate_some e).1

theorem Reserve_safe [Elem α] {h g : Heap α} {v u : SimpleVector} {n : Nat}
    (e : Reserve h v n = some (g, u)) (hinv : Inv h v) :
    Inv g u ∧ Evolves h g ∧ u.size_ = v.size_ ∧
      u.capacity_ = (if n > v.capacity_ then n else v.capacity_) := by
  unfold Reserve at e
  by_cases hn : n > v.capacity_
  · rw [if_pos hn] at e
    have hA : Allocate h n = (some h.length, (Allocate h n).2) := rfl
    rw [hA] at e
    simp only [] at e
    split at e
    · next h2 e2 =>
      split at e
      · next h3 e3 =>
        simp only [Option.some.injEq, Prod.mk.injEq] at e
        obtain ⟨rfl, rfl⟩ := e
        have sh := forLoop_shape _ (relocate_shape (some h.length) v.data_ (fun i => i)
          (fun i => i)) e2
        have fr := fresh_evolves (fresh_of_shape sh) (operatorDelete_evolves e3)
        refine ⟨inv_fresh fr (Nat.le_refl n) (Nat.le_trans hinv.1 (Nat.le_of_lt hn))
          (by omega), fr.1, rfl, by rw [if_pos hn]⟩
      · cases e
    · cases e
  · rw [if_neg hn] at e
    simp only [Option.some.injEq, Prod.mk.injEq] at e
    obtain ⟨rfl, rfl⟩ := e
    exact ⟨hinv, evolves_refl h, rfl, by rw [if_neg hn]⟩

theorem EmplaceBack_safe [Elem α] {h g : Heap α} {v u : SimpleVector} {arg : Arg α}
    {it : Iter} (e : EmplaceBack h v arg = some (it, g, u)) (hinv : Inv h v) :
    Inv g u ∧ Evolves h g := by
  unfold EmplaceBack at e
  split at e
  · next h1 v1 e1 =>
    have h1inv : Inv h1 v1 ∧ Evolves h h1 := by
      by_cases hsc : v.size_ = v.capacity_
      · rw [if_pos hsc] at e1
        obtain ⟨a, b, -, -⟩ := Reserve_safe e1 hinv
        exact ⟨a, b⟩
      · rw [if_neg hsc] at e1
        simp only [Option.some.injEq, Prod.mk.injEq] at e1
        obtain ⟨rfl, rfl⟩ := e1
        exact ⟨hinv, evolves_refl h⟩
    split at e
    · next h2 e2 =>
      simp only [Option.some.injEq, Prod.mk.injEq] at e
      obtain ⟨-, rfl, rfl⟩ := e
      obtain ⟨p, L, hp, hL, hlt, sh⟩ := constructArg_some e2
      have hle := (h1inv.1.2.2 p hp).2 L hL
      have ev2 := shape_evolves sh
      exact ⟨inv_resize (inv_of_evolves h1inv.1 ev2) (by omega), evolves_trans h1inv.2 ev2⟩
    · cases e
  · cases e

theorem Emplace_safe [Elem α] {h g : Heap α} {v u : SimpleVector} {k : Nat} {arg : Arg α}
    {it : Iter} (e : Emplace h v ⟨v.data_, k⟩ arg = some (it, g, u)) (hk : k ≤ v.size_)
    (hinv : Inv h v) : Inv g u ∧ Evolves h g := by
  unfold Emplace at e
  rw [offsetOf_data] at e
  simp only [] at e
  by_cases hsc : v.size_ = v.capacity_
  · rw [if_pos hsc] at e
    generalize hnc : (if v.capacity_ = 0 then 1 else v.capacity_ * 2 % SIZE_MOD) = nc at e
    have hA : Allocate h nc = (some h.length, (Allocate h nc).2) := rfl
    rw [hA] at e
    simp only [] at e
    obtain ⟨L0, hL0, hle0⟩ := Allocate_blockLen_le (α := α) h nc
    split at e
    · next h2 e2 =>
      have sh2 := forLoop_shape _ (relocate_shape (some h.length) v.data_ (fun i => i)
        (fun i => i)) e2
      split at e
      · next h3 e3 =>
        obtain ⟨q, L, hq, hL, hlt, sh3⟩ := constructArg_some e3
        cases hq
        have hLL : L = L0 := by
          rw [sh2.2, hL0] at hL
          cases hL; rfl
        subst hLL
        split at e
        · next h4 e4 =>
          have sh4 := forLoop_shape _ (relocate_shape (some h.length) v.data_
            (fun i => i + 1) (fun i => i)) e4
          split at e
          · next h5 e5 =>
            simp only [Option.some.injEq, Prod.mk.injEq] at e
            obtain ⟨-, rfl, rfl⟩ := e
            have sh14 := shape_trans (shape_trans sh2 sh3) sh4
            have fr := fresh_evolves (fresh_of_shape sh14) (operatorDelete_evolves e5)
            have hsize : v.size_ < L := by
              by_cases hks : k = v.size_
              · omega
              · have hm : v.size_ - k = (v.size_ - k - 1) + 1 := by omega
                unfold forLoop at e4
                rw [hm] at e4
                obtain ⟨g1, shg, eb⟩ := forLoopAux_last _ (relocate_shape (some h.length)
                  v.data_ (fun i => i + 1) (fun i => i)) _ _ _ _ e4
                obtain ⟨-, q, L2, hq, hL2, hlt2⟩ := relocate_some eb
                cases hq
                rw [shg.2, sh3.2, sh2.2, hL0] at hL2
                cases hL2
                omega
            exact ⟨inv_fresh fr (Nat.le_refl nc) (by omega) (by omega), fr.1⟩
          · cases e
        · cases e
      · cases e
    · cases e
  · rw [if_neg hsc] at e
    split at e
    · next h1 e1 =>
      have sh1 : Shape h h1 := by
        by_cases hks : k < v.size_
        · rw [if_pos hks] at e1
          exact move_backward_aux_shape _ _ _ _ _ _ e1
        · rw [if_neg hks] at e1
          cases e1
          exact shape_refl h
      split at e
      · next h2 e2 =>
        simp only [Option.some.injEq, Prod.mk.injEq] at e
        obtain ⟨-, rfl, rfl⟩ := e
        obtain ⟨p, L, -, -, -, sh2⟩ := constructArg_some e2
        have ev := shape_evolves (shape_trans sh1 sh2)
        have := hinv.1
        exact ⟨inv_resize (inv_of_evolves hinv ev) (by omega), ev⟩
      · cases e
    · cases e

theorem destroy_shape (d : Option Nat) (k : Nat → Nat) :
    ∀ (i : Nat) (a b : Heap α), destroy a d (k i) = some b → Shape a b := by
  intro i a b e
  obtain ⟨p, y, -, -, pk⟩ := destroy_some e
  exact poked_shape pk

theorem construct_shape (d : Option Nat) (k : Nat → Nat) (x : α) :
    ∀ (i : Nat) (a b : Heap α), construct a d (k i) x = some b → Shape a b := by
  intro i a b e
  obtain ⟨p, L, -, -, -, pk⟩ := construct_some e
  exact poked_shape pk

theorem PopBack_safe {h g : Heap α} {v u : SimpleVector}
    (e : PopBack h v = some (g, u)) (hinv : Inv h v) : Inv g u ∧ Evolves h g := by
  unfold PopBack at e
  split at e
  · split at e
    · next h1 e1 =>
      simp only [Option.some.injEq, Prod.mk.injEq] at e
      obtain ⟨rfl, rfl⟩ := e
      have ev := shape_evolves (destroy_shape v.data_ (fun _ => v.size_ - 1) 0 _ _ e1)
      have := hinv.1
      exact ⟨inv_resize (inv_of_evolves hinv ev) (by omega), ev⟩
    · cases e
  · cases e

theorem Erase_safe [Elem α] {h g : Heap α} {v u : SimpleVector} {pos it : Iter}
    (e : Erase h v pos = some (it, g, u)) (hinv : Inv h v) : Inv g u ∧ Evolves h g := by
  unfold Erase at e
  split at e
  · cases e
  · next index hoff =>
    split at e
    · split at e
      · next h1 e1 =>
        split at e
        · next h2 e2 =>
          simp only [Option.some.injEq, Prod.mk.injEq] at e
          obtain ⟨-, rfl, rfl⟩ := e
          have sh1 := destroy_shape v.data_ (fun _ => index) 0 _ _ e1
          have sh2 := forLoop_shape _ (relocate_shape v.data_ v.data_ (fun i => i)
            (fun i => i + 1)) e2
          have ev := shape_evolves (shape_trans sh1 sh2)
          have := hinv.1
          exact ⟨inv_resize (inv_of_evolves hinv ev) (by omega), ev⟩
        · cases e
      · cases e
    · cases e

theorem DestroyElements_shape {h g : Heap α} {v : SimpleVector}
    (e : DestroyElements h v = some g) : Shape h g :=
  forLoop_shape _ (destroy_shape v.data_ (fun i => i)) e

theorem Clear_safe {h g : Heap α} {v u : SimpleVector}
    (e : Clear h v = some (g, u)) (hinv : Inv h v) : Inv g u ∧ Evolves h g := by
  unfold Clear at e
  split at e
  · next h1 e1 =>
    simp only [Option.some.injEq, Prod.mk.injEq] at e
    obtain ⟨rfl, rfl⟩ := e
    have ev := shape_evolves (DestroyElements_shape e1)
    exact ⟨inv_resize (inv_of_evolves hinv ev) (Nat.zero_le _), ev⟩
  · cases e

theorem Resize_safe [Elem α] {h g : Heap α} {v u : SimpleVector} {n : Nat}
    (e : Resize h v n = some (g, u)) (hinv : Inv h v) : Inv g u ∧ Evolves h g := by
  unfold Resize at e
  split at e
  · next h1 v1 e1 =>
    have h1inv : Inv h1 v1 ∧ Evolves h h1 ∧ n ≤ v1.capacity_ := by
      by_cases hn : n > v.capacity_
      · rw [if_pos hn] at e1
        obtain ⟨a, b, -, hc⟩ := Reserve_safe e1 hinv
        rw [if_pos (by omega)] at hc
        exact ⟨a, b, by omega⟩
      · rw [if_neg hn] at e1
        simp only [Option.some.injEq, Prod.mk.injEq] at e1
        obtain ⟨rfl, rfl⟩ := e1
        exact ⟨hinv, evolves_refl h, by omega⟩
    split at e
    · next h2 e2 =>
      simp only [Option.some.injEq, Prod.mk.injEq] at e
      obtain ⟨rfl, rfl⟩ := e
      have sh : Shape h1 h2 := by
        by_cases hn : n > v1.size_
        · rw [if_pos hn] at e2
          exact forLoop_shape _ (construct_shape v1.data_ (fun i => i) _) e2
        · rw [if_neg hn] at e2
          exact forLoop_shape _ (destroy_shape v1.data_ (fun i => i)) e2
      have ev := shape_evolves sh
      exact ⟨inv_resize (inv_of_evolves h1inv.1 ev) h1inv.2.2, evolves_trans h1inv.2.1 ev⟩
    · cases e
  · cases e

theorem setIndex_evolves [Elem α] {h g : Heap α} {v : SimpleVector} {k : Nat} {x : α}
    (e : setIndex h v k x = some g) : Evolves h g := by
  unfold setIndex at e
  split at e
  · split at e
    · obtain ⟨p, L, -, -, -, pk⟩ := assign_some e
      exact shape_evolves (poked_shape pk)
    · cases e
  · cases e

theorem dtor_evolves {h g : Heap α} {v : SimpleVector} (e : dtor h v = some g) :
    Evolves h g := by
  unfold dtor at e
  split at e
  · next h1 e1 =>
    exact evolves_trans (shape_evolves (DestroyElements_shape e1)) (operatorDelete_evolves e)
  · cases e

theorem AllocateAndDefaultInitialize_fresh [Elem α] {h g : Heap α} {n : Nat} {d : Option Nat}
    (e : AllocateAndDefaultInitialize h n = some (d, g)) : d = some h.length ∧ Fresh h g n := by
  unfold AllocateAndDefaultInitialize at e
  have hA : Allocate h n = (some h.length, (Allocate h n).2) := rfl
  rw [hA] at e
  simp only [] at e
  split at e
  · next h2 e2 =>
    simp only [Option.some.injEq, Prod.mk.injEq] at e
    obtain ⟨rfl, rfl⟩ := e
    exact ⟨rfl, fresh_of_shape (forLoop_shape _ (construct_shape _ (fun i => i) _) e2)⟩
  · cases e

theorem AllocateAndFill_fresh [Elem α] {h g : Heap α} {n : Nat} {x : α} {d : Option Nat}
    (e : AllocateAndFill h n x = some (d, g)) : d = some h.length ∧ Fresh h g n := by
  unfold AllocateAndFill at e
  have hA : Allocate h n = (some h.length, (Allocate h n).2) := rfl
  rw [hA] at e
  simp only [] at e
  split at e
  · next h2 e2 =>
    simp only [Option.some.injEq, Prod.mk.injEq] at e
    obtain ⟨rfl, rfl⟩ := e
    exact ⟨rfl, fresh_of_shape (forLoop_shape _ (construct_shape _ (fun i => i) _) e2)⟩
  · cases e

theorem AllocateAndCopy_fresh [Elem α] {h g : Heap α} {first last : Iter} {d : Option Nat}
    (e : AllocateAndCopy h first last = some (d, g)) :
    d = some h.length ∧ Fresh h g (last.off - first.off) := by
  unfold AllocateAndCopy at e
  split at e
  · have hA : Allocate h (last.off - first.off) =
        (some h.length, (Allocate h (last.off - first.off)).2) := rfl
    dsimp only at e
    rw [hA] at e
    simp only [] at e
    split at e
    · next h2 e2 =>
      simp only [Option.some.injEq, Prod.mk.injEq] at e
      obtain ⟨rfl, rfl⟩ := e
      refine ⟨rfl, fresh_of_shape (forLoop_shape _ ?_ e2)⟩
      intro i a b eb
      split at eb
      · exact construct_shape _ (fun i => i) _ i a b eb
      · cases eb
    · cases e
  · cases e

theorem set_none_evolves (h : Heap α) (p : Nat) : Evolves h (h.set p none) := by
  refine ⟨by simp, ?_⟩
  intro q L _ hL
  unfold blockLen at hL ⊢
  by_cases hq : p = q
  · subst hq
    rw [List.getElem?_set] at hL
    split at hL <;> simp_all
  · rw [List.getElem?_set_ne hq] at hL
    exact hL

theorem append_evolves (h : Heap α) (b : Option (Block α)) : Evolves h (h ++ [b]) := by
  refine ⟨by simp, ?_⟩
  intro q L hq hL
  unfold blockLen at hL ⊢
  rw [List.getElem?_append_left hq] at hL
  exact hL

theorem inv_empty (h : Heap α) : Inv h { size_ := 0, capacity_ := 0, data_ := none } :=
  ⟨Nat.le_refl _, fun _ => rfl, fun p hp => by cases hp⟩

theorem ctorSized_safe [Elem α] {h g : Heap α} {n : Nat} {u : SimpleVector}
    (e : ctorSized h n = some (g, u)) : Inv g u ∧ Evolves h g := by
  unfold ctorSized at e
  by_cases hn : n ≠ 0
  · rw [if_pos hn] at e
    split at e
    · next d h1 e1 =>
      simp only [Option.some.injEq, Prod.mk.injEq] at e
      obtain ⟨rfl, rfl⟩ := e
      obtain ⟨rfl, fr⟩ := AllocateAndDefaultInitialize_fresh e1
      exact ⟨inv_fresh fr (Nat.le_refl _) (Nat.le_refl _) hn, fr.1⟩
    · cases e
  · rw [if_neg hn] at e
    simp only [Option.some.injEq, Prod.mk.injEq] at e
    obtain ⟨rfl, rfl⟩ := e
    exact ⟨⟨Nat.le_refl _, fun _ => rfl, fun p hp => by cases hp⟩, evolves_refl h⟩

theorem ctorFill_safe [Elem α] {h g : Heap α} {n : Nat} {x : α} {u : SimpleVector}
    (e : ctorFill h n x = some (g, u)) : Inv g u ∧ Evolves h g := by
  unfold ctorFill at e
  by_cases hn : n ≠ 0
  · rw [if_pos hn] at e
    split at e
    · next d h1 e1 =>
      simp only [Option.some.injEq, Prod.mk.injEq] at e
      obtain ⟨rfl, rfl⟩ := e
      obtain ⟨rfl, fr⟩ := AllocateAndFill_fresh e1
      exact ⟨inv_fresh fr (Nat.le_refl _) (Nat.le_refl _) hn, fr.1⟩
    · cases e
  · rw [if_neg hn] at e
    simp only [Option.some.injEq, Prod.mk.injEq] at e
    obtain ⟨rfl, rfl⟩ := e
    exact ⟨⟨Nat.le_refl _, fun _ => rfl, fun p hp => by cases hp⟩, evolves_refl h⟩

theorem ctorList_safe [Elem α] {h g : Heap α} {init : List α} {u : SimpleVector}
    (e : ctorList h init = some (g, u)) : Inv g u ∧ Evolves h g := by
  unfold ctorList at e
  by_cases hn : init.length ≠ 0
  · rw [if_pos hn] at e
    simp only [] at e
    split at e
    · next d h1 e1 =>
      simp only [Option.some.injEq, Prod.mk.injEq] at e
      obtain ⟨rfl, rfl⟩ := e
      obtain ⟨rfl, fr⟩ := AllocateAndCopy_fresh e1
      have fr2 := fresh_evolves fr (set_none_evolves h1 h.length)
      simp only [Nat.sub_zero] at fr2
      exact ⟨inv_fresh fr2 (Nat.le_refl _) (Nat.le_refl _) hn,
        evolves_trans (append_evolves h _) fr2.1⟩
    · cases e
  · rw [if_neg hn] at e
    simp only [Option.some.injEq, Prod.mk.injEq] at e
    obtain ⟨rfl, rfl⟩ := e
    exact ⟨⟨Nat.le_refl _, fun _ => rfl, fun p hp => by cases hp⟩, evolves_refl h⟩

theorem ctorReserve_safe [Elem α] (h : Heap α) (n : Nat) :
    Inv (ctorReserve h n).1 (ctorReserve h n).2 ∧ Evolves h (ctorReserve h n).1 := by
  unfold ctorReserve
  by_cases hn : n ≠ 0
  · rw [if_pos hn]
    have fr : Fresh h (Allocate h n).2 n := fresh_of_shape (shape_refl _)
    exact ⟨inv_fresh fr (Nat.le_refl _) (Nat.zero_le _) hn, fr.1⟩
  · rw [if_neg hn]
    exact ⟨⟨Nat.zero_le _, fun _ => rfl, fun p hp => by cases hp⟩, evolves_refl h⟩

theorem ctorCopy_safe [Elem α] {h g : Heap α} {o u : SimpleVector}
    (e : ctorCopy h o = some (g, u)) (hinv : Inv h o) : Inv g u ∧ Evolves h g := by
  unfold ctorCopy at e
  by_cases hn : o.capacity_ ≠ 0
  · rw [if_pos hn] at e
    split at e
    · next d h1 e1 =>
      simp only [Option.some.injEq, Prod.mk.injEq] at e
      obtain ⟨rfl, rfl⟩ := e
      obtain ⟨rfl, fr⟩ := AllocateAndCopy_fresh e1
      simp only [end_, begin_, Nat.sub_zero] at fr
      exact ⟨inv_fresh fr hinv.1 hinv.1 hn, fr.1⟩
    · cases e
  · rw [if_neg hn] at e
    simp only [Option.some.injEq, Prod.mk.injEq] at e
    obtain ⟨rfl, rfl⟩ := e
    exact ⟨⟨hinv.1, fun _ => rfl, fun p hp => by cases hp⟩, evolves_refl h⟩

theorem inv_fields {h : Heap α} {v : SimpleVector} (hinv : Inv h v) :
    Inv h { size_ := v.size_, capacity_ := v.capacity_, data_ := v.data_ } := hinv

theorem copyAssign_safe [Elem α] {h g : Heap α} {v rhs u : SimpleVector} {same : Bool}
    (e : copyAssign h v rhs same = some (g, u)) (hv : Inv h v) (hr : Inv h rhs) :
    Inv g u ∧ Evolves h g := by
  unfold copyAssign at e
  by_cases hs : same = false
  · rw [if_pos hs] at e
    split at e
    · next h1 tmp e1 =>
      obtain ⟨it, ev1⟩ := ctorCopy_safe e1 hr
      simp only [swap] at e
      split at e
      · next h2 e2 =>
        simp only [Option.some.injEq, Prod.mk.injEq] at e
        obtain ⟨rfl, rfl⟩ := e
        have ev2 := dtor_evolves e2
        exact ⟨inv_of_evolves (inv_fields it) ev2, evolves_trans ev1 ev2⟩
      · cases e
    · cases e
  · rw [if_neg hs] at e
    simp only [Option.some.injEq, Prod.mk.injEq] at e
    obtain ⟨rfl, rfl⟩ := e
    exact ⟨hv, evolves_refl h⟩

theorem moveAssign_safe {h g : Heap α} {v rhs u r : SimpleVector} {same : Bool}
    (e : moveAssign h v rhs same = some (g, u, r)) (hv : Inv h v) (hr : Inv h rhs) :
    Inv g u ∧ Inv g r ∧ Evolves h g := by
  unfold moveAssign at e
  by_cases hs : same = false
  · rw [if_pos hs] at e
    simp only [ctorMove, swap] at e
    split at e
    · next h2 e2 =>
      simp only [Option.some.injEq, Prod.mk.injEq] at e
      obtain ⟨rfl, rfl, rfl⟩ := e
      have ev2 := dtor_evolves e2
      exact ⟨inv_of_evolves (inv_fields hr) ev2, inv_empty _, ev2⟩
    · cases e
  · rw [if_neg hs] at e
    simp only [Option.some.injEq, Prod.mk.injEq] at e
    obtain ⟨rfl, rfl, rfl⟩ := e
    exact ⟨hv, hr, evolves_refl h⟩

theorem all_evolves {h g : Heap α} {vs : List SimpleVector} (hall : ∀ v ∈ vs, Inv h v)
    (ev : Evolves h g) : ∀ v ∈ vs, Inv g v :=
  fun v hv => inv_of_evolves (hall v hv) ev

theorem all_set {P : SimpleVector → Prop} {vs : List SimpleVector} {i : Nat}
    {u : SimpleVector} (hall : ∀ v ∈ vs, P v) (hu : P u) : ∀ v ∈ vs.set i u, P v := by
  intro v hv
  rcases List.mem_or_eq_of_mem_set hv with hmem | rfl
  · exact hall v hmem
  · exact hu

theorem all_append {P : SimpleVector → Prop} {vs : List SimpleVector} {u : SimpleVector}
    (hall : ∀ v ∈ vs, P v) (hu : P u) : ∀ v ∈ vs ++ [u], P v := by
  intro v hv
  rcases List.mem_append.mp hv with hmem | hmem
  · exact hall v hmem
  · rw [List.mem_singleton] at hmem
    rw [hmem]; exact hu

theorem reachable_inv [Elem α] {w : World α} (hr : Reachable w) :
    ∀ v ∈ w.vecs, Inv w.heap v := by
  induction hr with
  | start h => intro v hv; cases hv
  | ctorDefault w _ ih => exact all_append ih (inv_empty _)
  | ctorSized w n g u _ e ih =>
    obtain ⟨hu, ev⟩ := ctorSized_safe e
    exact all_append (all_evolves ih ev) hu
  | ctorFill w n x g u _ e ih =>
    obtain ⟨hu, ev⟩ := ctorFill_safe e
    exact all_append (all_evolves ih ev) hu
  | ctorList w init g u _ e ih =>
    obtain ⟨hu, ev⟩ := ctorList_safe e
    exact all_append (all_evolves ih ev) hu
  | ctorReserve w n _ ih =>
    obtain ⟨hu, ev⟩ := ctorReserve_safe w.heap n
    exact all_append (all_evolves ih ev) hu
  | ctorCopy w i o g u _ ho e ih =>
    obtain ⟨hu, ev⟩ := ctorCopy_safe e (ih o (List.getElem?_mem ho))
    exact all_append (all_evolves ih ev) hu
  | ctorMove w i o _ ho ih =>
    exact all_append (all_set ih (inv_empty _)) (inv_fields (ih o (List.getElem?_mem ho)))
  | dtor w i v g _ hv e ih =>
    exact fun u hu => all_evolves ih (dtor_evolves e) u (List.mem_of_mem_eraseIdx hu)
  | copyAssign w i j v rhs g u _ hv hrhs e ih =>
    obtain ⟨hu, ev⟩ := copyAssign_safe e (ih v (List.getElem?_mem hv))
      (ih rhs (List.getElem?_mem hrhs))
    exact all_set (all_evolves ih ev) hu
  | moveAssign w i j v rhs g u r _ hv hrhs e ih =>
    obtain ⟨hu, hr2, ev⟩ := moveAssign_safe e (ih v (List.getElem?_mem hv))
      (ih rhs (List.getElem?_mem hrhs))
    exact all_set (all_set (all_evolves ih ev) hr2) hu
  | swap w i j v o _ hv ho ih =>
    exact all_set (all_set ih (inv_fields (ih v (List.getElem?_mem hv))))
      (inv_fields (ih o (List.getElem?_mem ho)))
  | pushBack w i v x g u _ hv e ih =>
    have e2 : ∃ it, EmplaceBack w.heap v x = some (it, g, u) := by
      unfold PushBack at e
      split at e
      · next it h1 v1 e1 =>
        simp only [Option.some.injEq, Prod.mk.injEq] at e
        obtain ⟨rfl, rfl⟩ := e
        exact ⟨it, e1⟩
      · cases e
    obtain ⟨it, e3⟩ := e2
    obtain ⟨hu, ev⟩ := EmplaceBack_safe e3 (ih v (List.getElem?_mem hv))
    exact all_set (all_evolves ih ev) hu
  | emplaceBack w i v x it g u _ hv e ih =>
    obtain ⟨hu, ev⟩ := EmplaceBack_safe e (ih v (List.getElem?_mem hv))
    exact all_set (all_evolves ih ev) hu
  | insert w i v k x it g u _ hv hk e ih =>
    obtain ⟨hu, ev⟩ := Emplace_safe e hk (ih v (List.getElem?_mem hv))
    exact all_set (all_evolves ih ev) hu
  | emplace w i v k x it g u _ hv hk e ih =>
    obtain ⟨hu, ev⟩ := Emplace_safe e hk (ih v (List.getElem?_mem hv))
    exact all_set (all_evolves ih ev) hu
  | popBack w i v g u _ hv e ih =>
    obtain ⟨hu, ev⟩ := PopBack_safe e (ih v (List.getElem?_mem hv))
    exact all_set (all_evolves ih ev) hu
  | erase w i v pos it g u _ hv e ih =>
    obtain ⟨hu, ev⟩ := Erase_safe e (ih v (List.getElem?_mem hv))
    exact all_set (all_evolves ih ev) hu
  | clear w i v g u _ hv e ih =>
    obtain ⟨hu, ev⟩ := Clear_safe e (ih v (List.getElem?_mem hv))
    exact all_set (all_evolves ih ev) hu
  | resize w i v n g u _ hv e ih =>
    obtain ⟨hu, ev⟩ := Resize_safe e (ih v (List.getElem?_mem hv))
    exact all_set (all_evolves ih ev) hu
  | reserve w i v n g u _ hv e ih =>
    obtain ⟨hu, ev, -, -⟩ := Reserve_safe e (ih v (List.getElem?_mem hv))
    exact all_set (all_evolves ih ev) hu
  | setIndex w i v k x g _ hv e ih =>
    exact all_evolves ih (setIndex_evolves e)

/-! ## Destruction, frames, and the loops of `Resize` -/

theorem fits_one (α : Type) [Elem α] : Fits α 1 := by
  unfold Fits
  rw [Nat.one_mul]
  exact Elem.sizeofType_lt

theorem rep_frame {h g : Heap α} {v : SimpleVector} {xs : List α} {d : Option Nat}
    (hrep : Rep h v xs) (fr : Frame h g d) (hne : ∀ p, v.data_ = some p → some p ≠ d) :
    Rep g v xs := by
  cases hd : v.data_ with
  | none =>
    unfold Rep at hrep ⊢
    rw [hd] at hrep ⊢
    exact hrep
  | some p =>
    obtain ⟨h1, h2, h3, h4⟩ := (rep_some_iff hd).mp hrep
    obtain ⟨hb, hs⟩ := fr.2 p (blockLen_lt_length h3) (hne p hd)
    exact (rep_some_iff hd).mpr ⟨h1, h2, by rw [hb]; exact h3, fun k hk => by rw [hs]; exact h4 k hk⟩

theorem pokeLoop {h : Heap α} {p : Nat} (body : Nat → Heap α → Option (Heap α))
    (s : Option α) (lo hi : Nat) (hle : lo ≤ hi)
    (hbody : ∀ i g, lo ≤ i → i < hi → Shape h g → slot g p i = slot h p i →
      ∃ g1, body i g = some g1 ∧ Poked g g1 p i s) :
    ∃ g, forLoop lo hi body h = some g ∧ Shape h g ∧
      ∀ r k, slot g r k = if r = p ∧ lo ≤ k ∧ k < hi then some s else slot h r k := by
  apply forLoop_inv body (fun i g => Shape h g ∧
      ∀ r k, slot g r k = if r = p ∧ lo ≤ k ∧ k < i then some s else slot h r k) lo hi h hle
  · refine ⟨shape_refl h, ?_⟩
    intro r k
    rw [if_neg (by omega)]
  · rintro i g hlo hhi ⟨hsh, hsl⟩
    obtain ⟨g1, e1, pk⟩ := hbody i g hlo hhi hsh (by rw [hsl, if_neg (by omega)])
    refine ⟨g1, e1, shape_trans hsh (poked_shape pk), ?_⟩
    intro r k
    rw [pk.2.2, hsl]
    split_ifs <;> first | rfl | (exfalso; omega)

theorem DestroyElements_ok {h : Heap α} {v : SimpleVector} {xs : List α} (hrep : Rep h v xs) :
    ∃ g, DestroyElements h v = some g ∧ Shape h g ∧ Frame h g v.data_ := by
  unfold DestroyElements
  cases hd : v.data_ with
  | none =>
    obtain ⟨hs0, -, -⟩ := rep_none hd hrep
    rw [hs0, forLoop_empty _ 0 0 h (Nat.le_refl 0)]
    exact ⟨h, rfl, shape_refl h, frame_refl h _⟩
  | some p =>
    obtain ⟨hlen, hle, hbl, hsl⟩ := (rep_some_iff hd).mp hrep
    obtain ⟨g, e, sh, sl⟩ := pokeLoop (h := h) (p := p) (fun i g => destroy g (some p) i) none
      0 v.size_ (Nat.zero_le _) (by
        intro i g _ hi _ hs
        have hlive : slot g p i = some (some xs[i]) := by
          rw [hs, hsl i (by omega), List.getElem?_eq_getElem (by omega)]
        exact destroy_ok hlive)
    refine ⟨g, e, sh, frame_of_slots (by rw [sh.1]) (fun r _ _ => sh.2 r) ?_⟩
    intro r k _ hne
    rw [sl, if_neg (fun hc => hne (by rw [hc.1]))]

theorem dtor_ok {h : Heap α} {v : SimpleVector} {xs : List α} (hrep : Rep h v xs) :
    ∃ g, dtor h v = some g ∧ Frame h g v.data_ ∧ g.length = h.length := by
  obtain ⟨g1, e1, sh1, fr1⟩ := DestroyElements_ok hrep
  unfold dtor
  rw [e1]
  cases hd : v.data_ with
  | none =>
    rw [hd] at fr1
    exact ⟨g1, rfl, fr1, sh1.1⟩
  | some p =>
    obtain ⟨-, -, hbl, -⟩ := (rep_some_iff hd).mp hrep
    obtain ⟨g2, e2, len2, bl2, sl2⟩ := operatorDelete_ok (show blockLen g1 p = some _ by
      rw [sh1.2]; exact hbl)
    refine ⟨g2, e2, ?_, by rw [len2, sh1.1]⟩
    rw [hd] at fr1
    refine frame_of_slots (by rw [len2, sh1.1]) ?_ ?_
    · intro r hr hne
      rw [bl2, if_neg (fun hc => hne (by rw [hc]))]
      exact (fr1.2 r hr hne).1
    · intro r k hr hne
      rw [sl2, if_neg (fun hc => hne (by rw [hc]))]
      exact (fr1.2 r hr hne).2 k

theorem resize_getElem? (xs : List α) (d : α) (n k : Nat) :
    (xs.take n ++ List.replicate (n - xs.length) d)[k]? =
      if k < n then (if k < xs.length then xs[k]? else some d) else none := by
  by_cases hn : n ≤ xs.length
  · have h0 : n - xs.length = 0 := by omega
    rw [h0, List.replicate_zero, List.append_nil, List.getElem?_take]
    by_cases hk : k < n
    · rw [if_pos hk, if_pos hk, if_pos (by omega)]
    · rw [if_neg hk, if_neg hk]
  · rw [List.take_of_length_le (by omega), List.getElem?_append]
    by_cases hk : k < xs.length
    · rw [if_pos hk, if_pos (by omega), if_pos hk]
    · rw [if_neg hk, List.getElem?_replicate]
      by_cases hk2 : k < n
      · rw [if_pos (by omega), if_pos hk2, if_neg hk]
      · rw [if_neg (by omega), if_neg hk2]

theorem Resize_spec [Elem α] {h : Heap α} {v : SimpleVector} {xs : List α} (n : Nat)
    (hrep : Rep h v xs) (hfit : n > v.capacity_ → Fits α (max n (2 * v.capacity_))) :
    ∃ g w, Resize h v n = some (g, w) ∧
      Rep g w (xs.take n ++ List.replicate (n - v.size_) (Elem.dflt : α)) ∧ w.size_ = n ∧
      w.capacity_ = (if n > v.capacity_ then max n (2 * v.capacity_) else v.capacity_) := by
  have step1 : ∃ h1 v1, (if n > v.capacity_ then
        Reserve h v (max n (v.capacity_ * 2 % SIZE_MOD)) else some (h, v)) = some (h1, v1) ∧
      Rep h1 v1 xs ∧ v1.size_ = v.size_ ∧ n ≤ v1.capacity_ ∧
      v1.capacity_ = (if n > v.capacity_ then max n (2 * v.capacity_) else v.capacity_) := by
    by_cases hn : n > v.capacity_
    · have hf := hfit hn
      have hlt : 2 * v.capacity_ < SIZE_MOD :=
        Nat.lt_of_le_of_lt (Nat.le_max_right _ _) (fits_lt hf)
      have e1 : v.capacity_ * 2 % SIZE_MOD = 2 * v.capacity_ := by
        rw [Nat.mul_comm, Nat.mod_eq_of_lt hlt]
      rw [if_pos hn, e1]
      obtain ⟨g1, r1, rep1, -, -, -⟩ := Reserve_grow hrep
        (show v.capacity_ < max n (2 * v.capacity_) by omega) hf
      exact ⟨g1, _, r1, rep1, rfl, by simp only []; omega, by rw [if_pos hn]⟩
    · rw [if_neg hn]
      exact ⟨h, v, rfl, hrep, rfl, by omega, by rw [if_neg hn]⟩
  obtain ⟨h1, v1, e1, rep1, hs1, hn1, hc1⟩ := step1
  have hlen1 := rep1.1
  unfold Resize
  rw [e1]
  simp only []
  by_cases hgt : n > v1.size_
  · rw [if_pos hgt]
    obtain ⟨p, hd⟩ := rep_data_some rep1 (by omega)
    obtain ⟨-, -, hbl, hsl⟩ := (rep_some_iff hd).mp rep1
    rw [hd]
    obtain ⟨g, e, sh, sl⟩ := pokeLoop (h := h1) (p := p)
      (fun i g => construct g (some p) i (Elem.dflt : α)) (some Elem.dflt)
      v1.size_ n (by omega) (by
        intro i g _ hi hsh _
        exact construct_ok _ (show blockLen g p = some v1.capacity_ by rw [hsh.2]; exact hbl)
          (by omega))
    rw [e]
    refine ⟨g, _, rfl, ?_, rfl, hc1⟩
    apply (rep_some_iff (p := p) rfl).mpr
    refine ⟨by simp; omega, hn1, by rw [sh.2]; exact hbl, ?_⟩
    intro k hk
    simp only [] at hk
    rw [sl, ← hs1, ← hlen1, resize_getElem?]
    by_cases c1 : xs.length ≤ k ∧ k < n
    · rw [if_pos ⟨rfl, c1⟩, if_pos c1.2, if_neg (by omega)]
    · rw [if_neg (fun hc => c1 hc.2), hsl k hk]
      by_cases c2 : k < n
      · rw [if_pos c2, if_pos (by omega)]
      · rw [if_neg c2, List.getElem?_eq_none (by omega)]
  · rw [if_neg hgt]
    have h0 : n - v.size_ = 0 := by omega
    rw [h0, List.replicate_zero, List.append_nil]
    cases hd : v1.data_ with
    | none =>
      obtain ⟨hs0, hc0, rfl⟩ := rep_none hd rep1
      rw [forLoop_empty _ n v1.size_ h1 (by omega)]
      refine ⟨h1, _, rfl, ?_, rfl, hc1⟩
      unfold Rep
      simp only [List.take_nil, List.length_nil]
      exact ⟨by omega, by omega, hc0⟩
    | some p =>
      obtain ⟨-, hle, hbl, hsl⟩ := (rep_some_iff hd).mp rep1
      obtain ⟨g, e, sh, sl⟩ := pokeLoop (h := h1) (p := p)
        (fun i g => destroy g (some p) i) none n v1.size_ (by omega) (by
          intro i g _ hi _ hs
          have hlive : slot g p i = some (some xs[i]) := by
            rw [hs, hsl i (by omega), List.getElem?_eq_getElem (by omega)]
          exact destroy_ok hlive)
      rw [e]
      refine ⟨g, _, rfl, ?_, rfl, hc1⟩
      apply (rep_some_iff (p := p) rfl).mpr
      refine ⟨by simp; omega, hn1, by rw [sh.2]; exact hbl, ?_⟩
      intro k hk
      simp only [] at hk
      rw [sl, List.getElem?_take]
      by_cases c1 : n ≤ k ∧ k < v1.size_
      · rw [if_pos ⟨rfl, c1⟩, if_neg (by omega)]
      · rw [if_neg (fun hc => c1 hc.2), hsl k hk]
        by_cases c2 : k < n
        · rw [if_pos c2]
        · rw [if_neg c2, List.getElem?_eq_none (by omega)]

theorem rep_eta {h : Heap α} {v : SimpleVector} {xs : List α} (hrep : Rep h v xs) :
    Rep h { size_ := v.size_, capacity_ := v.capacity_, data_ := v.data_ } xs := hrep

theorem rep_empty (h : Heap α) : Rep h { size_ := 0, capacity_ := 0, data_ := none } [] := by
  simp [Rep]

theorem insert_remove (xs : List α) (x : α) (k : Nat) (hk : k ≤ xs.length) :
    (xs.take k ++ [x] ++ xs.drop k).take k ++ (xs.take k ++ [x] ++ xs.drop k).drop (k + 1) =
      xs := by
  apply List.ext_getElem?
  intro j
  rw [remove_getElem? _ k j (by simp; omega), insert_getElem? xs x k j hk,
    insert_getElem? xs x k (j + 1) hk]
  by_cases hj : j < k
  · rw [if_pos hj, if_pos hj]
  · rw [if_neg hj, if_neg (by omega), if_neg (by omega), Nat.add_sub_cancel]

/-! ## The claims -/

/-- C1, as amended: for a well-formed vector holding `xs`, an offset
`k ≤ size` and an argument with the value `x` that is not an element of the
vector itself (an object outside the heap, or an element of another block
passed as `const Type&`), `Insert(begin + k, a)` and `Emplace(begin + k, a)`
leave the contents `take k xs ++ [x] ++ drop k xs`, set the size to
`size + 1` and return the position at offset `k` of the new storage, where
`x` now lives.  This holds on the growth path (`size == capacity`, where the
doubled block must have a byte size that fits `size_t`), on the no-growth
path at `k = size`, and on the no-growth path at `k < size` when the element
type is an implicit-lifetime type. -/
theorem C1_Insert_places_element [Elem α] (h : Heap α) (v : SimpleVector) (xs : List α)
    (k : Nat) (a : Arg α) (x : α) (hrep : Rep h v xs) (hk : k ≤ v.size_)
    (harg : Outside h v.data_ a x)
    (hfit : v.size_ = v.capacity_ → Fits α (max 1 (2 * v.capacity_)))
    (himp : v.size_ < v.capacity_ → k < v.size_ → Elem.implicitLifetime α = true) :
    ∃ g w, Insert h v ⟨v.data_, k⟩ a = some (⟨w.data_, k⟩, g, w) ∧
      Emplace h v ⟨v.data_, k⟩ a = some (⟨w.data_, k⟩, g, w) ∧
      Rep g w (xs.take k ++ [x] ++ xs.drop k) ∧
      w.size_ = xs.length + 1 ∧ load g w.data_ k = some x := by
  obtain ⟨g, w, e, rep, hs, -, hl, -⟩ := Emplace_spec k x hrep harg hk hfit himp
  exact ⟨g, w, e, e, rep, by rw [hs, hrep.1], hl⟩

/-- C1, as amended, on the no-growth path: `[1, 2, 3]` with capacity 4,
insertion at offset 1 of the element `99` of another vector, passed by
reference. -/
theorem C1_Insert_places_element_witness :
    Rep [some [some (1 : Int), some 2, some 3, none], some [some 99]] ⟨3, 4, some 0⟩
      [1, 2, 3] ∧
    Outside [some [some (1 : Int), some 2, some 3, none], some [some 99]] (some 0)
      (Arg.ref (some 1) 0) 99 ∧
    ∃ g w, Insert [some [some (1 : Int), some 2, some 3, none], some [some 99]]
        ⟨3, 4, some 0⟩ ⟨some 0, 1⟩ (Arg.ref (some 1) 0) = some (⟨w.data_, 1⟩, g, w) ∧
      Emplace [some [some (1 : Int), some 2, some 3, none], some [some 99]]
        ⟨3, 4, some 0⟩ ⟨some 0, 1⟩ (Arg.ref (some 1) 0) = some (⟨w.data_, 1⟩, g, w) ∧
      Rep g w [1, 99, 2, 3] ∧ w.size_ = 4 ∧ load g w.data_ 1 = some 99 :=
  ⟨by decide, by decide,
    C1_Insert_places_element [some [some (1 : Int), some 2, some 3, none], some [some 99]]
      ⟨3, 4, some 0⟩ [1, 2, 3] 1 (Arg.ref (some 1) 0) 99 (by decide) (by decide) (by decide)
      (fun _ => by decide) (fun _ _ => rfl)⟩

/-- C1 as stated fails when the value inserted is an element of the vector
itself.  For `v = [1, 2, 3]` with capacity 4, `v.Insert(v.begin(), v[2])`
inserts the value of `v[2]`, which is 3: the reference is read after the
shift, when slot 2 holds 2, and the contents become `[2, 1, 2, 3]`, not
`[3, 1, 2, 3]`.  On the growth path, for `v = [1, 2]` with capacity 2,
`v.Insert(v.begin() + 1, v[0])` reads `v[0]` after it has been relocated and
destroyed: the call is undefined. -/
theorem C1_argument_inside_the_vector :
    Rep [some [some (1 : Int), some 2, some 3, none]] ⟨3, 4, some 0⟩ [1, 2, 3] ∧
    index [some [some (1 : Int), some 2, some 3, none]] ⟨3, 4, some 0⟩ 2 = some 3 ∧
    Insert [some [some (1 : Int), some 2, some 3, none]] ⟨3, 4, some 0⟩
        (begin_ ⟨3, 4, some 0⟩) (Arg.ref (some 0) 2) =
      some (⟨some 0, 0⟩, [some [some 2, some 1, some 2, some 3]], ⟨4, 4, some 0⟩) ∧
    Rep [some [some (2 : Int), some 1, some 2, some 3]] ⟨4, 4, some 0⟩ [2, 1, 2, 3] ∧
    (¬ ∃ g w, Insert [some [some (1 : Int), some 2, some 3, none]] ⟨3, 4, some 0⟩
        (begin_ ⟨3, 4, some 0⟩) (Arg.ref (some 0) 2) = some (⟨w.data_, 0⟩, g, w) ∧
      Rep g w (List.take 0 [1, 2, 3] ++ [3] ++ List.drop 0 [1, 2, 3])) ∧
    Rep [some [some (1 : Int), some 2]] ⟨2, 2, some 0⟩ [1, 2] ∧
    index [some [some (1 : Int), some 2]] ⟨2, 2, some 0⟩ 0 = some 1 ∧
    Insert [some [some (1 : Int), some 2]] ⟨2, 2, some 0⟩ ⟨some 0, 1⟩
      (Arg.ref (some 0) 0) = none := by
  have e : Insert [some [some (1 : Int), some 2, some 3, none]] ⟨3, 4, some 0⟩
        (begin_ ⟨3, 4, some 0⟩) (Arg.ref (some 0) 2) =
      some (⟨some 0, 0⟩, [some [some 2, some 1, some 2, some 3]], ⟨4, 4, some 0⟩) := rfl
  refine ⟨by decide, by decide, e, by decide, ?_, by decide, by decide, rfl⟩
  rintro ⟨g, w, e2, r⟩
  rw [e] at e2
  simp only [Option.some.injEq, Prod.mk.injEq] at e2
  obtain ⟨-, rfl, rfl⟩ := e2
  exact absurd r (by decide)

/-- C2: for a well-formed vector holding `xs` and an offset `k < size`,
`Erase(begin + k)` leaves `xs` without its element of index `k`, sets the
size to `size - 1`, keeps the storage, and returns the position at offset
`k`: the element that followed the erased one, or `end()` when `k` was the
last index. -/
theorem C2_Erase_removes_element [Elem α] (h : Heap α) (v : SimpleVector) (xs : List α)
    (k : Nat) (hrep : Rep h v xs) (hk : k < v.size_) :
    ∃ g w, Erase h v ⟨v.data_, k⟩ = some (⟨w.data_, k⟩, g, w) ∧
      Rep g w (xs.take k ++ xs.drop (k + 1)) ∧ xs.take k ++ xs.drop (k + 1) = xs.eraseIdx k ∧
      w.size_ = xs.length - 1 ∧
      (k + 1 < xs.length → index g w k = xs[k + 1]?) ∧
      (k + 1 = xs.length → (⟨w.data_, k⟩ : Iter) = end_ w) := by
  obtain ⟨g, e, rep, -, -⟩ := Erase_spec k hrep hk
  refine ⟨g, _, e, rep, ?_, by rw [hrep.1], ?_, ?_⟩
  · apply List.ext_getElem?
    intro j
    rw [remove_getElem? xs k j (by have := hrep.1; omega), List.getElem?_eraseIdx]
  · intro _
    rw [rep_index rep, remove_getElem? xs k k (by have := hrep.1; omega), if_neg (by omega)]
  · intro hlast
    have := hrep.1
    simp only [end_, Iter.mk.injEq, true_and]
    omega

/-- C2 on the vector `[0, 1, 2, 3, 4]` of capacity 8, erasing at `begin()`. -/
theorem C2_Erase_removes_element_witness :
    (0 : Nat) < (⟨5, 8, some 0⟩ : SimpleVector).size_ ∧
    ∃ g w, Erase [some [some (0 : Int), some 1, some 2, some 3, some 4, none, none, none]]
        ⟨5, 8, some 0⟩ ⟨some 0, 0⟩ = some (⟨w.data_, 0⟩, g, w) ∧
      Rep g w (List.take 0 [0, 1, 2, 3, 4] ++ List.drop (0 + 1) [0, 1, 2, 3, 4]) ∧
      List.take 0 [(0 : Int), 1, 2, 3, 4] ++ List.drop (0 + 1) [0, 1, 2, 3, 4] =
        List.eraseIdx [0, 1, 2, 3, 4] 0 ∧
      w.size_ = [(0 : Int), 1, 2, 3, 4].length - 1 ∧
      (0 + 1 < [(0 : Int), 1, 2, 3, 4].length → index g w 0 = [(0 : Int), 1, 2, 3, 4][0 + 1]?) ∧
      (0 + 1 = [(0 : Int), 1, 2, 3, 4].length → (⟨w.data_, 0⟩ : Iter) = end_ w) :=
  ⟨by decide,
    C2_Erase_removes_element
      [some [some (0 : Int), some 1, some 2, some 3, some 4, none, none, none]]
      ⟨5, 8, some 0⟩ [0, 1, 2, 3, 4] 0 (by decide) (by decide)⟩

/-- C4: in every state reachable from the constructors by the public
operations used within their preconditions, every vector has
`size <= capacity`, and a capacity of zero comes with a null storage
pointer. -/
theorem C4_size_le_capacity_invariant [Elem α] (w : World α) (hr : Reachable w) :
    ∀ v ∈ w.vecs, v.size_ ≤ v.capacity_ ∧ (v.capacity_ = 0 → v.data_ = none) :=
  fun v hv => ⟨(reachable_inv hr v hv).1, (reachable_inv hr v hv).2.1⟩

/-- C4 on the state reached by `SimpleVector<int> v; v.PushBack(7);`. -/
theorem C4_size_le_capacity_invariant_witness :
    Reachable (⟨[some [some (7 : Int)]], [⟨1, 1, some 0⟩]⟩ : World Int) ∧
    ∀ v ∈ (⟨[some [some (7 : Int)]], [⟨1, 1, some 0⟩]⟩ : World Int).vecs,
      v.size_ ≤ v.capacity_ ∧ (v.capacity_ = 0 → v.data_ = none) :=
  ⟨Reachable.pushBack ⟨[], [ctorDefault]⟩ 0 ctorDefault (Arg.value 7) [some [some (7 : Int)]]
      ⟨1, 1, some 0⟩ (Reachable.ctorDefault ⟨[], []⟩ (Reachable.start [])) rfl rfl,
    C4_size_le_capacity_invariant ⟨[some [some (7 : Int)]], [⟨1, 1, some 0⟩]⟩
      (Reachable.pushBack ⟨[], [ctorDefault]⟩ 0 ctorDefault (Arg.value 7)
        [some [some (7 : Int)]] ⟨1, 1, some 0⟩
        (Reachable.ctorDefault ⟨[], []⟩ (Reachable.start [])) rfl rfl)⟩

/-- C5, at the failing input: the vector `a` (size 1, capacity 4, holding
`[7]`) is reachable and well formed; its copy reports capacity 4 and owns a
block of one slot, after copy construction and after copy assignment.  (A
second way to the same mismatch: `SimpleVector<int>(Reserve(2 ^ 62))` asks
`operator new` for `2 ^ 62 * 4 mod 2 ^ 64 = 0` bytes and reports capacity
`2 ^ 62`.) -/
theorem C5_copy_block_smaller_than_capacity :
    Reachable (⟨[some [some (7 : Int), none, none, none], some [some 7]],
      [⟨1, 4, some 0⟩, ⟨1, 4, some 1⟩]⟩ : World Int) ∧
    Rep [some [some (7 : Int), none, none, none]] ⟨1, 4, some 0⟩ [7] ∧
    ctorCopy [some [some (7 : Int), none, none, none]] ⟨1, 4, some 0⟩ =
      some ([some [some 7, none, none, none], some [some 7]], ⟨1, 4, some 1⟩) ∧
    copyAssign [some [some (7 : Int), none, none, none]] ctorDefault ⟨1, 4, some 0⟩ false =
      some ([some [some 7, none, none, none], some [some 7]], ⟨1, 4, some 1⟩) ∧
    blockLen [some [some (7 : Int), none, none, none], some [some 7]] 1 = some 1 ∧
    ctorReserve ([] : Heap Int) (2 ^ 62) = ([some []], ⟨0, 2 ^ 62, some 0⟩) := by
  refine ⟨?_, by decide, by decide, by decide, by decide, by decide⟩
  exact Reachable.ctorCopy ⟨[some [some (7 : Int), none, none, none]], [⟨1, 4, some 0⟩]⟩ 0
    ⟨1, 4, some 0⟩ _ _
    (Reachable.pushBack ⟨[some [none, none, none, none]], [⟨0, 4, some 0⟩]⟩ 0 ⟨0, 4, some 0⟩
      (Arg.value 7) [some [some (7 : Int), none, none, none]] ⟨1, 4, some 0⟩
      (Reachable.ctorReserve ⟨[], []⟩ 4 (Reachable.start [])) rfl rfl)
    rfl (by decide)

/-- C6: for well-formed vectors `a` (holding `xs`) and `b` that own different
blocks, move construction from `a`, and move assignment of `a` to `b`, give
a vector with the contents, size and capacity of `a` and leave `a` with size
0, capacity 0 and null storage; `a` can then be appended to, which gives it
size 1 and leaves the new owner of `xs` as it is. -/
theorem C6_move_leaves_source_empty [Elem α] (h : Heap α) (a b : SimpleVector)
    (xs ys : List α) (x : α) (ha : Rep h a xs) (hb : Rep h b ys)
    (hne : ∀ p, a.data_ = some p → b.data_ ≠ some p) :
    (Rep h (ctorMove a).1 xs ∧ (ctorMove a).1.size_ = xs.length ∧
      (ctorMove a).1.capacity_ = a.capacity_ ∧
      (ctorMove a).2 = { size_ := 0, capacity_ := 0, data_ := none } ∧
      ∃ g u, PushBack h (ctorMove a).2 (Arg.value x) = some (g, u) ∧ u.size_ = 1 ∧ Rep g u [x] ∧
        Rep g (ctorMove a).1 xs) ∧
    ∃ g b2 a2, moveAssign h b a false = some (g, b2, a2) ∧ Rep g b2 xs ∧
      b2.size_ = xs.length ∧ b2.capacity_ = a.capacity_ ∧
      a2 = { size_ := 0, capacity_ := 0, data_ := none } ∧
      ∃ g2 u, PushBack g a2 (Arg.value x) = some (g2, u) ∧ u.size_ = 1 ∧ Rep g2 u [x] ∧
        Rep g2 b2 xs := by
  have hpush : ∀ (k : Heap α) (w : SimpleVector), Rep k w xs →
      ∃ g u, PushBack k { size_ := 0, capacity_ := 0, data_ := none } (Arg.value x) = some (g, u) ∧
        u.size_ = 1 ∧ Rep g u [x] ∧ Rep g w xs := by
    intro k w hw
    obtain ⟨g, u, e, rep, hs, -, -, fr⟩ := EmplaceBack_spec (a := Arg.value x) x (rep_empty k)
      rfl (fun _ => by simpa using fits_one α)
    exact ⟨g, u, PushBack_eq e, by simpa using hs, by simpa using rep,
      rep_frame hw fr (fun p _ hc => by cases hc)⟩
  constructor
  · exact ⟨rep_eta ha, ha.1.symm, rfl, rfl, hpush h _ (rep_eta ha)⟩
  · obtain ⟨g, e, fr, -⟩ := dtor_ok (rep_eta hb)
    have hrep2 : Rep g { size_ := a.size_, capacity_ := a.capacity_, data_ := a.data_ } xs :=
      rep_frame (rep_eta ha) fr (fun p hp hc => hne p hp hc.symm)
    refine ⟨g, _, _, ?_, hrep2, ha.1.symm, rfl, rfl, hpush g _ hrep2⟩
    simp only [moveAssign, ctorMove, swap, if_true, e]

/-- C6 with `a = [1, 2]` (capacity 4) and `b = [9]`. -/
theorem C6_move_leaves_source_empty_witness :
    Rep [some [some (1 : Int), some 2, none, none], some [some 9]] ⟨2, 4, some 0⟩ [1, 2] ∧
    ((Rep [some [some (1 : Int), some 2, none, none], some [some 9]]
        (ctorMove ⟨2, 4, some 0⟩).1 [1, 2] ∧
      (ctorMove ⟨2, 4, some 0⟩).1.size_ = [(1 : Int), 2].length ∧
      (ctorMove ⟨2, 4, some 0⟩).1.capacity_ = (⟨2, 4, some 0⟩ : SimpleVector).capacity_ ∧
      (ctorMove ⟨2, 4, some 0⟩).2 = { size_ := 0, capacity_ := 0, data_ := none } ∧
      ∃ g u, PushBack [some [some (1 : Int), some 2, none, none], some [some 9]]
          (ctorMove ⟨2, 4, some 0⟩).2 (Arg.value 5) = some (g, u) ∧ u.size_ = 1 ∧ Rep g u [5] ∧
        Rep g (ctorMove ⟨2, 4, some 0⟩).1 [1, 2]) ∧
    ∃ g b2 a2, moveAssign [some [some (1 : Int), some 2, none, none], some [some 9]]
        ⟨1, 1, some 1⟩ ⟨2, 4, some 0⟩ false = some (g, b2, a2) ∧ Rep g b2 [1, 2] ∧
      b2.size_ = [(1 : Int), 2].length ∧
      b2.capacity_ = (⟨2, 4, some 0⟩ : SimpleVector).capacity_ ∧
      a2 = { size_ := 0, capacity_ := 0, data_ := none } ∧
      ∃ g2 u, PushBack g a2 (Arg.value 5) = some (g2, u) ∧ u.size_ = 1 ∧ Rep g2 u [5] ∧
        Rep g2 b2 [1, 2]) :=
  ⟨by decide,
    C6_move_leaves_source_empty [some [some (1 : Int), some 2, none, none], some [some 9]]
      ⟨2, 4, some 0⟩ ⟨1, 1, some 1⟩ [1, 2] [9] 5 (by decide) (by decide) (by decide)⟩

/-- C7, at the failing input: the vector `a` (size 1, capacity 4, holding
`[7]`) is copied; the copy compares equal to `a` and `a` is untouched, but
`PushBack`, `Insert` at `end()` and `Resize(2)` on the copy, which reports
capacity 4 over a block of one slot, write outside that block: the calls are
undefined, after copy construction and after copy assignment alike. -/
theorem C7_mutating_the_copy_is_undefined :
    ctorCopy [some [some (7 : Int), none, none, none]] ⟨1, 4, some 0⟩ =
      some ([some [some 7, none, none, none], some [some 7]], ⟨1, 4, some 1⟩) ∧
    copyAssign [some [some (7 : Int), none, none, none]] ctorDefault ⟨1, 4, some 0⟩ false =
      some ([some [some 7, none, none, none], some [some 7]], ⟨1, 4, some 1⟩) ∧
    opEq [some [some (7 : Int), none, none, none], some [some 7]] ⟨1, 4, some 0⟩
      ⟨1, 4, some 1⟩ = some true ∧
    PushBack [some [some (7 : Int), none, none, none], some [some 7]] ⟨1, 4, some 1⟩
      (Arg.value 9) = none ∧
    Insert [some [some (7 : Int), none, none, none], some [some 7]] ⟨1, 4, some 1⟩
      ⟨some 1, 1⟩ (Arg.value 9) = none ∧
    Resize [some [some (7 : Int), none, none, none], some [some 7]] ⟨1, 4, some 1⟩ 2 =
      none :=
  ⟨by decide, by decide, by decide, rfl, rfl, by decide⟩

/-- For a well-formed vector holding `xs`, an offset `k ≤ size` and an
argument with the value `x` that is not an element of the vector itself,
erasing at the position returned by `Insert(begin + k, a)` gives a vector of
the original size whose elements are those of the original: on the growth
path (where the doubled block must have a byte size that fits `size_t`), on
the no-growth path at `k = size`, and on the no-growth path at `k < size`
when the element type is an implicit-lifetime type. -/
theorem Erase_undoes_Insert_spec [Elem α] (h : Heap α) (v : SimpleVector) (xs : List α)
    (k : Nat) (a : Arg α) (x : α) (hrep : Rep h v xs) (hk : k ≤ v.size_)
    (harg : Outside h v.data_ a x)
    (hfit : v.size_ = v.capacity_ → Fits α (max 1 (2 * v.capacity_)))
    (himp : v.size_ < v.capacity_ → k < v.size_ → Elem.implicitLifetime α = true) :
    ∃ it g1 w1 g2 w2, Insert h v ⟨v.data_, k⟩ a = some (it, g1, w1) ∧
      Erase g1 w1 it = some (⟨w2.data_, k⟩, g2, w2) ∧ w2.size_ = v.size_ ∧
      Rep g2 w2 xs ∧ ∀ i, index g2 w2 i = index h v i := by
  obtain ⟨g1, w1, e1, rep1, hs1, -, -, -⟩ := Emplace_spec k x hrep harg hk hfit himp
  obtain ⟨g2, e2, rep2, -, -⟩ := Erase_spec k rep1 (by omega)
  rw [insert_remove xs x k (by rw [hrep.1]; exact hk)] at rep2
  refine ⟨_, g1, w1, g2, _, e1, e2, by simp only []; omega, rep2, ?_⟩
  intro i
  rw [rep_index rep2, rep_index hrep]

/-- C8, at the failing inputs.  (1) `a` has size 1 and capacity 4; its copy
`b` reports capacity 4 over a block of one slot, so `b.Insert(b.end(), 9)`
and `b.Insert(b.begin(), 9)` take the no-growth path and write at
`data_ + 1`, outside the block: the insertion is undefined and there is
nothing to erase.  (2) `v = [X(1), X(2), X(3)]` with capacity 4:
`v.Insert(v.begin(), X(9))` starts its shift with a move assignment to the
raw slot 3, which is undefined for the class `X`.  On `[1, 2, 3]` of `int`
with capacity 4 the same round trip gives back `[1, 2, 3]`. -/
theorem C8_round_trip_is_undefined :
    ctorCopy [some [some (7 : Int), none, none, none]] ⟨1, 4, some 0⟩ =
      some ([some [some 7, none, none, none], some [some 7]], ⟨1, 4, some 1⟩) ∧
    Insert [some [some (7 : Int), none, none, none], some [some 7]] ⟨1, 4, some 1⟩
      (end_ ⟨1, 4, some 1⟩) (Arg.value 9) = none ∧
    Insert [some [some (7 : Int), none, none, none], some [some 7]] ⟨1, 4, some 1⟩
      (begin_ ⟨1, 4, some 1⟩) (Arg.value 9) = none ∧
    (Insert [some [some (7 : Int), none, none, none], some [some 7]] ⟨1, 4, some 1⟩
      (end_ ⟨1, 4, some 1⟩) (Arg.value 9)).bind (fun r => Erase r.2.1 r.2.2 r.1) = none ∧
    Rep ([some [some (⟨1⟩ : X), some ⟨2⟩, some ⟨3⟩, none]] : Heap X) ⟨3, 4, some 0⟩
      [⟨1⟩, ⟨2⟩, ⟨3⟩] ∧
    Insert ([some [some (⟨1⟩ : X), some ⟨2⟩, some ⟨3⟩, none]] : Heap X) ⟨3, 4, some 0⟩
      (begin_ ⟨3, 4, some 0⟩) (Arg.value ⟨9⟩) = none ∧
    (Insert ([some [some (⟨1⟩ : X), some ⟨2⟩, some ⟨3⟩, none]] : Heap X) ⟨3, 4, some 0⟩
      (begin_ ⟨3, 4, some 0⟩) (Arg.value ⟨9⟩)).bind (fun r => Erase r.2.1 r.2.2 r.1) =
      none ∧
    (Insert ([some [some (1 : Int), some 2, some 3, none]] : Heap Int) ⟨3, 4, some 0⟩
      (begin_ ⟨3, 4, some 0⟩) (Arg.value 9)).bind (fun r => Erase r.2.1 r.2.2 r.1) =
      some (⟨some 0, 0⟩, [some [some 1, some 2, some 3, none]], ⟨3, 4, some 0⟩) := by
  refine ⟨by decide, rfl, rfl, rfl, by decide, rfl, rfl, rfl⟩

/-- For a well-formed vector holding `xs` with size `s` and capacity
`c`, `Resize(n)` sets the size to `n`, keeps the first `min s n` elements,
makes every element of index in `[s, n)` the default value, and sets the
capacity to `max n (2 * c)` when `n > c` (the grown block must have a byte
size that fits `size_t`) and leaves it `c` otherwise. -/
theorem Resize_size_elements_capacity [Elem α] (h : Heap α) (v : SimpleVector)
    (xs : List α) (n : Nat) (hrep : Rep h v xs)
    (hfit : n > v.capacity_ → Fits α (max n (2 * v.capacity_))) :
    ∃ g w, Resize h v n = some (g, w) ∧ w.size_ = n ∧
      Rep g w (xs.take n ++ List.replicate (n - v.size_) (Elem.dflt : α)) ∧
      (∀ i, i < min v.size_ n → index g w i = xs[i]?) ∧
      (∀ i, v.size_ ≤ i → i < n → index g w i = some (Elem.dflt : α)) ∧
      w.capacity_ = (if n > v.capacity_ then max n (2 * v.capacity_) else v.capacity_) := by
  obtain ⟨g, w, e, rep, hs, hc⟩ := Resize_spec n hrep hfit
  have hlen := hrep.1
  refine ⟨g, w, e, hs, rep, ?_, ?_, hc⟩
  · intro i hi
    rw [rep_index rep, ← hlen, resize_getElem?, if_pos (by omega), if_pos (by omega)]
  · intro i hi1 hi2
    rw [rep_index rep, ← hlen, resize_getElem?, if_pos hi2, if_neg (by omega)]

/-- C9, at the failing input: `SimpleVector<int> a(Reserve(4));
a.PushBack(7); SimpleVector<int> b(a);` gives a copy `b` that reports size 1
and capacity 4 over a block of one slot.  `b.Resize(2)`, `b.Resize(3)` and
`b.Resize(4)` do not grow (`new_size <= capacity_`) and default-construct at
`data_ + 1`, outside the block: the calls are undefined, where the claim has
size `n`, the element 7 followed by default values, and capacity 4.  The
same call on `a`, whose block has 4 slots, does what the claim says. -/
theorem C9_Resize_of_a_copy_is_undefined :
    ctorReserve ([] : Heap Int) 4 = ([some [none, none, none, none]], ⟨0, 4, some 0⟩) ∧
    PushBack [some [(none : Option Int), none, none, none]] ⟨0, 4, some 0⟩ (Arg.value 7) =
      some ([some [some 7, none, none, none]], ⟨1, 4, some 0⟩) ∧
    ctorCopy [some [some (7 : Int), none, none, none]] ⟨1, 4, some 0⟩ =
      some ([some [some 7, none, none, none], some [some 7]], ⟨1, 4, some 1⟩) ∧
    blockLen [some [some (7 : Int), none, none, none], some [some 7]] 1 = some 1 ∧
    Resize [some [some (7 : Int), none, none, none], some [some 7]] ⟨1, 4, some 1⟩ 2 =
      none ∧
    Resize [some [some (7 : Int), none, none, none], some [some 7]] ⟨1, 4, some 1⟩ 3 =
      none ∧
    Resize [some [some (7 : Int), none, none, none], some [some 7]] ⟨1, 4, some 1⟩ 4 =
      none ∧
    Resize [some [some (7 : Int), none, none, none], some [some 7]] ⟨1, 4, some 0⟩ 2 =
      some ([some [some 7, some 0, none, none], some [some 7]], ⟨2, 4, some 0⟩) := by
  refine ⟨rfl, rfl, by decide, by decide, by decide, by decide, by decide, by decide⟩

theorem rep_holds {h : Heap α} {v : SimpleVector} {xs : List α} (hrep : Rep h v xs) :
    Holds h v xs := by
  refine ⟨hrep.1.symm, ?_⟩
  intro i hi
  have := rep_index hrep i
  unfold index at this
  rw [if_pos hi] at this
  exact this

theorem holds_index {h : Heap α} {v : SimpleVector} {xs : List α} (hv : Holds h v xs)
    (i : Nat) : index h v i = xs[i]? := by
  unfold index
  by_cases hi : i < v.size_
  · rw [if_pos hi]; exact hv.2 i hi
  · rw [if_neg hi, List.getElem?_eq_none (by have := hv.1; omega)]

theorem holds_load {h : Heap α} {v : SimpleVector} {xs : List α} (hv : Holds h v xs)
    {i : Nat} (hi : i < xs.length) : load h v.data_ i = some xs[i] := by
  rw [hv.2 i (by rw [hv.1]; exact hi), List.getElem?_eq_getElem hi]

theorem std_equal_spec [DecidableEq α] {h : Heap α} {a b : SimpleVector} {xs ys : List α}
    (ha : Holds h a xs) (hb : Holds h b ys) (hlen : xs.length = ys.length) :
    ∀ (n i : Nat), i + n = xs.length →
      std_equal h a.data_ b.data_ n i = some (decide (xs.drop i = ys.drop i)) := by
  intro n
  induction n with
  | zero =>
    intro i hi
    have h1 : xs.drop i = [] := List.drop_eq_nil_of_le (by omega)
    have h2 : ys.drop i = [] := List.drop_eq_nil_of_le (by omega)
    simp [std_equal, h1, h2]
  | succ n ih =>
    intro i hi
    have hix : i < xs.length := by omega
    have hiy : i < ys.length := by omega
    have e1 : xs.drop i = xs[i] :: xs.drop (i + 1) := List.drop_eq_getElem_cons hix
    have e2 : ys.drop i = ys[i] :: ys.drop (i + 1) := List.drop_eq_getElem_cons hiy
    unfold std_equal
    rw [holds_load ha hix, holds_load hb hiy, e1, e2]
    simp only []
    by_cases hxy : xs[i] = ys[i]
    · rw [if_pos hxy, ih (i + 1) (by omega)]
      simp only [List.cons.injEq, hxy, true_and]
    · rw [if_neg hxy]
      exact congrArg some (decide_eq_false (fun hc => hxy (by injection hc))).symm

theorem opEq_spec [DecidableEq α] {h : Heap α} {a b : SimpleVector} {xs ys : List α}
    (ha : Holds h a xs) (hb : Holds h b ys) : opEq h a b = some (decide (xs = ys)) := by
  unfold opEq GetSize
  by_cases hs : a.size_ = b.size_
  · rw [if_neg (by simpa using hs)]
    have hlen : xs.length = ys.length := by rw [← ha.1, ← hb.1]; exact hs
    have := std_equal_spec ha hb hlen xs.length 0 (by omega)
    simp only [end_, begin_, Nat.sub_zero, ha.1]
    rw [this]
    simp
  · rw [if_pos hs]
    have hne : xs ≠ ys := by
      intro hc
      apply hs
      rw [ha.1, hb.1, hc]
    simp [hne]

theorem lex_compare_spec [LinearOrder α] {h : Heap α} {a b : SimpleVector} {xs ys : List α}
    (ha : Holds h a xs) (hb : Holds h b ys) :
    ∀ (n1 n2 i : Nat), i + n1 = xs.length → i + n2 = ys.length →
      ∃ r : Bool, lexicographical_compare h a.data_ b.data_ n1 n2 i = some r ∧
        (r = true ↔ List.Lex (fun u w : α => u < w) (xs.drop i) (ys.drop i)) := by
  intro n1
  induction n1 with
  | zero =>
    intro n2 i h1 h2
    have e1 : xs.drop i = [] := List.drop_eq_nil_of_le (by omega)
    refine ⟨decide (n2 ≠ 0), by simp [lexicographical_compare], ?_⟩
    rw [e1]
    cases n2 with
    | zero =>
      have e2 : ys.drop i = [] := List.drop_eq_nil_of_le (by omega)
      rw [e2]
      simp [List.Lex.not_nil_right]
    | succ m =>
      have hiy : i < ys.length := by omega
      rw [List.drop_eq_getElem_cons hiy]
      exact ⟨fun _ => List.Lex.nil, fun _ => by simp⟩
  | succ n1 ih =>
    intro n2 i h1 h2
    have hix : i < xs.length := by omega
    cases n2 with
    | zero =>
      have e2 : ys.drop i = [] := List.drop_eq_nil_of_le (by omega)
      refine ⟨false, by simp [lexicographical_compare], ?_⟩
      rw [e2]
      simp [List.Lex.not_nil_right]
    | succ m =>
      have hiy : i < ys.length := by omega
      rw [List.drop_eq_getElem_cons hix, List.drop_eq_getElem_cons hiy]
      unfold lexicographical_compare
      rw [holds_load ha hix, holds_load hb hiy]
      simp only []
      generalize xs[i] = xv
      generalize ys[i] = yv
      by_cases hlt : xv < yv
      · rw [if_pos hlt]
        exact ⟨true, rfl, fun _ => List.Lex.rel hlt, fun _ => rfl⟩
      · rw [if_neg hlt]
        by_cases hgt : yv < xv
        · rw [if_pos hgt]
          refine ⟨false, rfl, ?_⟩
          constructor
          · intro hc; cases hc
          · intro hc
            cases hc with
            | cons _ => exact absurd hgt (lt_irrefl _)
            | rel hr => exact absurd hr hlt
        · rw [if_neg hgt]
          have heq : xv = yv := le_antisymm (not_lt.mp hgt) (not_lt.mp hlt)
          obtain ⟨r, hr, hiff⟩ := ih m (i + 1) (by omega) (by omega)
          refine ⟨r, hr, ?_⟩
          rw [hiff, heq]
          exact List.Lex.cons_iff.symm

theorem opLt_spec [LinearOrder α] {h : Heap α} {a b : SimpleVector} {xs ys : List α}
    (ha : Holds h a xs) (hb : Holds h b ys) :
    ∃ r : Bool, opLt h a b = some r ∧
      (r = true ↔ List.Lex (fun u w : α => u < w) xs ys) := by
  have := lex_compare_spec ha hb xs.length ys.length 0 (by omega) (by omega)
  simpa [opLt, end_, begin_, ha.1, hb.1] using this

/-! ## Counting the reallocations of a run of appends -/

theorem EmplaceBack_full [Elem α] {h : Heap α} {v : SimpleVector} {xs : List α} {a : Arg α}
    (x : α) (hrep : Rep h v xs) (harg : Outside h v.data_ a x)
    (hfit : v.size_ = v.capacity_ → Fits α (max 1 (2 * v.capacity_))) :
    ∃ g w, EmplaceBack h v a = some (⟨w.data_, v.size_⟩, g, w) ∧
      Rep g w (xs ++ [x]) ∧ w.size_ = v.size_ + 1 ∧
      w.capacity_ = (if v.size_ = v.capacity_ then max 1 (2 * v.capacity_) else v.capacity_) ∧
      g.length = h.length + (if v.size_ = v.capacity_ then 1 else 0) := by
  unfold EmplaceBack
  by_cases hsc : v.size_ = v.capacity_
  · obtain ⟨e1, e2⟩ := grow_capacity (hfit hsc)
    rw [if_pos hsc, e1]
    obtain ⟨g1, r1, rep1, frA, len1, -⟩ := Reserve_grow hrep e2 (hfit hsc)
    rw [r1]
    obtain ⟨g2, p, hd, c2, rep2, pk2⟩ := construct_at_end x rep1 (show _ < _ by simp only []; omega)
    simp only [] at c2 rep2 pk2 hd
    simp only [constructArg_outside harg frA, c2]
    exact ⟨g2, _, rfl, rep2, rfl, by simp [hsc], by rw [pk2.1, len1, if_pos hsc]⟩
  · rw [if_neg hsc]
    have hlt : v.size_ < v.capacity_ := by
      have := hrep.2.1; omega
    obtain ⟨g2, p, hd, c2, rep2, pk2⟩ := construct_at_end (x := x) hrep hlt
    simp only [constructArg_outside harg (frame_refl h v.data_), c2]
    exact ⟨g2, _, rfl, rep2, rfl, by simp [hsc], by rw [pk2.1, if_neg hsc]; rfl⟩

theorem push_run [Elem α] :
    ∀ (items : List α) (h : Heap α) (v : SimpleVector) (xs : List α) (k : Nat),
      Rep h v xs → v.capacity_ = 2 ^ k → (k = 0 ∨ 2 ^ (k - 1) < xs.length) →
      1 ≤ xs.length → Fits α (2 * (xs.length + items.length)) →
      ∃ g w j, PushBackAll h v items = some (g, w) ∧ Rep g w (xs ++ items) ∧
        w.capacity_ = 2 ^ j ∧ k ≤ j ∧ (j = 0 ∨ 2 ^ (j - 1) < (xs ++ items).length) ∧
        growthEvents h v items = some (j - k) ∧ g.length = h.length + (j - k) := by
  intro items
  induction items with
  | nil =>
    intro h v xs k hrep hc hk _ _
    exact ⟨h, v, k, rfl, by simpa using hrep, hc, Nat.le_refl _, by simpa using hk,
      by simp [growthEvents], by simp⟩
  | cons x rest ih =>
    intro h v xs k hrep hc hk h1 hfit
    have hlen := hrep.1
    have hle := hrep.2.1
    have hfit1 : v.size_ = v.capacity_ → Fits α (max 1 (2 * v.capacity_)) := by
      intro hsc
      refine fits_mono ?_ hfit
      simp only [List.length_cons]
      omega
    obtain ⟨g1, w1, e1, rep1, hs1, hc1, hl1⟩ :=
      EmplaceBack_full (a := Arg.value x) x hrep rfl hfit1
    have hfit2 : Fits α (2 * ((xs ++ [x]).length + rest.length)) := by
      refine fits_mono ?_ hfit
      simp only [List.length_append, List.length_cons, List.length_nil]
      omega
    have hlen1 : 1 ≤ (xs ++ [x]).length := by simp
    by_cases hsc : v.size_ = v.capacity_
    · rw [if_pos hsc] at hc1 hl1
      have hc2 : w1.capacity_ = 2 ^ (k + 1) := by
        rw [hc1, hc, Nat.pow_succ]
        have : 0 < 2 ^ k := Nat.two_pow_pos k
        omega
      have hk2 : k + 1 = 0 ∨ 2 ^ (k + 1 - 1) < (xs ++ [x]).length := by
        right
        simp only [Nat.add_sub_cancel, List.length_append, List.length_cons, List.length_nil]
        omega
      obtain ⟨g, w, j, e, rep, hcj, hkj, hj, hgr, hgl⟩ := ih g1 w1 (xs ++ [x]) (k + 1) rep1 hc2
        hk2 hlen1 hfit2
      refine ⟨g, w, j, ?_, by simpa using rep, hcj, by omega, by simpa using hj, ?_, ?_⟩
      · simp only [PushBackAll, PushBack_eq e1, e]
      · simp only [growthEvents, PushBack_eq e1, hgr, if_pos hsc]
        congr 1; omega
      · rw [hgl, hl1]; omega
    · rw [if_neg hsc] at hc1 hl1
      have hk2 : k = 0 ∨ 2 ^ (k - 1) < (xs ++ [x]).length := by
        rcases hk with hk | hk
        · exact Or.inl hk
        · right
          simp only [List.length_append, List.length_cons, List.length_nil]
          omega
      obtain ⟨g, w, j, e, rep, hcj, hkj, hj, hgr, hgl⟩ := ih g1 w1 (xs ++ [x]) k rep1
        (by rw [hc1, hc]) hk2 hlen1 hfit2
      refine ⟨g, w, j, ?_, by simpa using rep, hcj, hkj, by simpa using hj, ?_, ?_⟩
      · simp only [PushBackAll, PushBack_eq e1, e]
      · simp only [growthEvents, PushBack_eq e1, hgr, if_neg hsc, Nat.add_zero]
      · rw [hgl, hl1]; omega

theorem push_run_from_empty [Elem α] (h : Heap α) (items : List α) (hN : 1 ≤ items.length)
    (hfit : Fits α (2 * items.length)) :
    ∃ g w j, PushBackAll h ctorDefault items = some (g, w) ∧ Rep g w items ∧
      w.capacity_ = 2 ^ j ∧ (j = 0 ∨ 2 ^ (j - 1) < items.length) ∧
      growthEvents h ctorDefault items = some (1 + j) ∧ g.length = h.length + (1 + j) := by
  cases items with
  | nil => simp at hN
  | cons x rest =>
    have hfit1 : ctorDefault.size_ = ctorDefault.capacity_ →
        Fits α (max 1 (2 * ctorDefault.capacity_)) := by
      intro _
      refine fits_mono ?_ hfit
      simp only [ctorDefault, List.length_cons]
      omega
    obtain ⟨g1, w1, e1, rep1, hs1, hc1, hl1⟩ :=
      EmplaceBack_full (a := Arg.value x) x (rep_ctorDefault h) rfl hfit1
    have hsz : (ctorDefault : SimpleVector).size_ = ctorDefault.capacity_ := rfl
    rw [if_pos hsz] at hc1 hl1
    obtain ⟨g, w, j, e, rep, hcj, -, hj, hgr, hgl⟩ := push_run rest g1 w1 ([] ++ [x]) 0 rep1
      (by rw [hc1]; rfl) (Or.inl rfl) (by simp) (by
        refine fits_mono ?_ hfit
        simp only [List.nil_append, List.length_cons, List.length_nil]
        omega)
    refine ⟨g, w, j, ?_, by simpa using rep, hcj, by simpa using hj, ?_, ?_⟩
    · simp only [PushBackAll, PushBack_eq e1, e]
    · simp only [growthEvents, PushBack_eq e1, hgr, if_pos hsz, Nat.sub_zero]
      congr 1; omega
    · rw [hgl, hl1]; omega

/-! ## Inserting at `end()` against appending -/

theorem forLoop_self (body : Nat → Heap α → Option (Heap α)) (lo : Nat) (h : Heap α) :
    forLoop lo lo body h = some h :=
  forLoop_empty body lo lo h (Nat.le_refl lo)

theorem Reserve_capacity [Elem α] {h g : Heap α} {v u : SimpleVector} {n : Nat}
    (e : Reserve h v n = some (g, u)) :
    u.capacity_ = (if n > v.capacity_ then n else v.capacity_) ∧ u.size_ = v.size_ := by
  unfold Reserve at e
  by_cases hn : n > v.capacity_
  · rw [if_pos hn] at e
    have hA : Allocate h n = (some h.length, (Allocate h n).2) := rfl
    rw [hA] at e
    simp only [] at e
    split at e
    · split at e
      · simp only [Option.some.injEq, Prod.mk.injEq] at e
        obtain ⟨-, rfl⟩ := e
        exact ⟨by rw [if_pos hn], rfl⟩
      · cases e
    · cases e
  · rw [if_neg hn] at e
    simp only [Option.some.injEq, Prod.mk.injEq] at e
    obtain ⟨-, rfl⟩ := e
    exact ⟨by rw [if_neg hn], rfl⟩

theorem EmplaceBack_capacity [Elem α] {h g : Heap α} {v u : SimpleVector} {a : Arg α} {it : Iter}
    (e : EmplaceBack h v a = some (it, g, u)) : v.capacity_ ≤ u.capacity_ := by
  unfold EmplaceBack at e
  split at e
  · next h1 v1 e1 =>
    have hc : v.capacity_ ≤ v1.capacity_ := by
      by_cases hsc : v.size_ = v.capacity_
      · rw [if_pos hsc] at e1
        have := (Reserve_capacity e1).1
        generalize (if v.capacity_ = 0 then 1 else v.capacity_ * 2 % SIZE_MOD) = nc at this
        by_cases hh : nc > v.capacity_
        · rw [if_pos hh] at this; omega
        · rw [if_neg hh] at this; omega
      · rw [if_neg hsc] at e1
        simp only [Option.some.injEq, Prod.mk.injEq] at e1
        obtain ⟨-, rfl⟩ := e1
        exact Nat.le_refl _
    split at e
    · simp only [Option.some.injEq, Prod.mk.injEq] at e
      obtain ⟨-, -, rfl⟩ := e
      exact hc
    · cases e
  · cases e

theorem PushBack_capacity [Elem α] {h g : Heap α} {v u : SimpleVector} {a : Arg α}
    (e : PushBack h v a = some (g, u)) : v.capacity_ ≤ u.capacity_ := by
  unfold PushBack at e
  split at e
  · next it h1 v1 e1 =>
    simp only [Option.some.injEq, Prod.mk.injEq] at e
    obtain ⟨-, rfl⟩ := e
    exact EmplaceBack_capacity e1
  · cases e

theorem Emplace_capacity [Elem α] {h g : Heap α} {v u : SimpleVector} {pos it : Iter} {a : Arg α}
    (hhalf : v.capacity_ * 2 < SIZE_MOD) (e : Emplace h v pos a = some (it, g, u)) :
    v.capacity_ ≤ u.capacity_ := by
  unfold Emplace at e
  split at e
  · cases e
  · next index _ =>
    by_cases hsc : v.size_ = v.capacity_
    · rw [if_pos hsc] at e
      have hnc : v.capacity_ ≤ (if v.capacity_ = 0 then 1 else v.capacity_ * 2 % SIZE_MOD) := by
        by_cases hc : v.capacity_ = 0
        · rw [if_pos hc]; omega
        · rw [if_neg hc, Nat.mod_eq_of_lt hhalf]; omega
      generalize (if v.capacity_ = 0 then 1 else v.capacity_ * 2 % SIZE_MOD) = nc at e hnc
      have hA : Allocate h nc = (some h.length, (Allocate h nc).2) := rfl
      simp only [] at e
      rw [hA] at e
      simp only [] at e
      split at e
      · split at e
        · split at e
          · split at e
            · simp only [Option.some.injEq, Prod.mk.injEq] at e
              obtain ⟨-, -, rfl⟩ := e
              exact hnc
            · cases e
          · cases e
        · cases e
      · cases e
    · rw [if_neg hsc] at e
      split at e
      · split at e
        · simp only [Option.some.injEq, Prod.mk.injEq] at e
          obtain ⟨-, -, rfl⟩ := e
          exact Nat.le_refl _
        · cases e
      · cases e

theorem PopBack_fields {h g : Heap α} {v u : SimpleVector} (e : PopBack h v = some (g, u)) :
    u.capacity_ = v.capacity_ ∧ u.size_ = v.size_ - 1 ∧ 0 < v.size_ := by
  unfold PopBack at e
  split at e
  · next hpos =>
    split at e
    · simp only [Option.some.injEq, Prod.mk.injEq] at e
      obtain ⟨-, rfl⟩ := e
      exact ⟨rfl, rfl, hpos⟩
    · cases e
  · cases e

theorem Erase_fields [Elem α] {h g : Heap α} {v u : SimpleVector} {pos it : Iter}
    (e : Erase h v pos = some (it, g, u)) :
    u.capacity_ = v.capacity_ ∧ u.size_ = v.size_ - 1 := by
  unfold Erase at e
  split at e
  · cases e
  · split at e
    · split at e
      · split at e
        · simp only [Option.some.injEq, Prod.mk.injEq] at e
          obtain ⟨-, -, rfl⟩ := e
          exact ⟨rfl, rfl⟩
        · cases e
      · cases e
    · cases e

theorem Clear_fields {h g : Heap α} {v u : SimpleVector} (e : Clear h v = some (g, u)) :
    u.capacity_ = v.capacity_ ∧ u.size_ = 0 := by
  unfold Clear at e
  split at e
  · simp only [Option.some.injEq, Prod.mk.injEq] at e
    obtain ⟨-, rfl⟩ := e
    exact ⟨rfl, rfl⟩
  · cases e

theorem Resize_capacity [Elem α] {h g : Heap α} {v u : SimpleVector} {n : Nat}
    (e : Resize h v n = some (g, u)) : v.capacity_ ≤ u.capacity_ ∧ u.size_ = n := by
  unfold Resize at e
  split at e
  · next h1 v1 e1 =>
    have hc : v.capacity_ ≤ v1.capacity_ := by
      by_cases hn : n > v.capacity_
      · rw [if_pos hn] at e1
        have := (Reserve_capacity e1).1
        generalize max n (v.capacity_ * 2 % SIZE_MOD) = nc at this
        by_cases hh : nc > v.capacity_
        · rw [if_pos hh] at this; omega
        · rw [if_neg hh] at this; omega
      · rw [if_neg hn] at e1
        simp only [Option.some.injEq, Prod.mk.injEq] at e1
        obtain ⟨-, rfl⟩ := e1
        exact Nat.le_refl _
    split at e
    · simp only [Option.some.injEq, Prod.mk.injEq] at e
      obtain ⟨-, rfl⟩ := e
      exact ⟨hc, rfl⟩
    · cases e
  · cases e

theorem dropLast_getElem? (xs : List α) (k : Nat) :
    xs.dropLast[k]? = if k < xs.length - 1 then xs[k]? else none := by
  rw [List.dropLast_eq_take, List.getElem?_take]

theorem PopBack_spec {h : Heap α} {v : SimpleVector} {xs : List α} (hrep : Rep h v xs)
    (hpos : 0 < v.size_) :
    ∃ g, PopBack h v =
        some (g, { size_ := v.size_ - 1, capacity_ := v.capacity_, data_ := v.data_ }) ∧
      Rep g { size_ := v.size_ - 1, capacity_ := v.capacity_, data_ := v.data_ }
        xs.dropLast := by
  obtain ⟨p, hd⟩ := rep_data_some hrep (by have := hrep.2.1; omega)
  obtain ⟨hlen, hle, hbl, hsl⟩ := (rep_some_iff hd).mp hrep
  have hlive : slot h p (v.size_ - 1) = some (some xs[v.size_ - 1]) := by
    rw [hsl _ (by omega), List.getElem?_eq_getElem (by omega)]
  obtain ⟨g, e, pk⟩ := destroy_ok hlive
  refine ⟨g, by simp only [PopBack, if_pos hpos, hd, e], ?_⟩
  rw [hd]
  refine poked_rep hd hrep pk (by simp; omega) (by omega) ?_
  intro k _
  rw [dropLast_getElem?, hlen]
  by_cases hk : k = v.size_ - 1
  · rw [if_pos hk, if_neg (by omega)]
  · rw [if_neg hk]
    by_cases hk2 : k < v.size_ - 1
    · rw [if_pos hk2]
    · rw [if_neg hk2, List.getElem?_eq_none (by omega)]

theorem Clear_spec {h : Heap α} {v : SimpleVector} {xs : List α} (hrep : Rep h v xs) :
    ∃ g, Clear h v = some (g, { size_ := 0, capacity_ := v.capacity_, data_ := v.data_ }) ∧
      Rep g { size_ := 0, capacity_ := v.capacity_, data_ := v.data_ } [] := by
  unfold Clear DestroyElements
  cases hd : v.data_ with
  | none =>
    obtain ⟨hs0, hc0, -⟩ := rep_none hd hrep
    rw [hs0, forLoop_self]
    refine ⟨h, rfl, ?_⟩
    unfold Rep
    exact ⟨rfl, Nat.zero_le _, hc0⟩
  | some p =>
    obtain ⟨hlen, hle, hbl, hsl⟩ := (rep_some_iff hd).mp hrep
    obtain ⟨g, e, sh, sl⟩ := pokeLoop (h := h) (p := p) (fun i g => destroy g (some p) i) none
      0 v.size_ (Nat.zero_le _) (by
        intro i g _ hi _ hs
        have hlive : slot g p i = some (some xs[i]) := by
          rw [hs, hsl i (by omega), List.getElem?_eq_getElem (by omega)]
        exact destroy_ok hlive)
    rw [e]
    refine ⟨g, rfl, ?_⟩
    apply (rep_some_iff (p := p) rfl).mpr
    refine ⟨rfl, Nat.zero_le _, by rw [sh.2]; exact hbl, ?_⟩
    intro k hk
    simp only [] at hk
    rw [sl]
    by_cases hk2 : k < v.size_
    · rw [if_pos ⟨rfl, Nat.zero_le _, hk2⟩]
      simp
    · rw [if_neg (fun hc => hk2 hc.2.2), hsl k hk, List.getElem?_eq_none (by omega)]
      simp

/-- C11: for every vector and index, `At` throws `out_of_range` exactly when
`index >= size`; when `index < size` it returns the reference to slot
`index`, whose element is the one `operator[]` gives; so `At(size + k)`
throws for every `k`, `At(size - 1)` returns when `size > 0`, and a throwing
`At` leaves heap and vector as they were. -/
theorem C11_At_checks_the_range (h : Heap α) (v : SimpleVector) (i : Nat) :
    (At h v i = Run.thrown Exception.out_of_range (h, v) ↔ i ≥ v.size_) ∧
    (i < v.size_ → At h v i = Run.done ⟨v.data_, i⟩ (h, v) ∧
      load h v.data_ i = index h v i) ∧
    (∀ k, At h v (v.size_ + k) = Run.thrown Exception.out_of_range (h, v)) ∧
    (0 < v.size_ → At h v (v.size_ - 1) = Run.done ⟨v.data_, v.size_ - 1⟩ (h, v)) ∧
    (∀ e s, At h v i = Run.thrown e s → e = Exception.out_of_range ∧ s = (h, v)) := by
  refine ⟨?_, ?_, ?_, ?_, ?_⟩
  · unfold At
    by_cases hi : i ≥ v.size_
    · simp [hi]
    · simp [hi]
  · intro hi
    refine ⟨by simp [At, hi], ?_⟩
    unfold index
    rw [if_pos hi]
  · intro k
    simp [At]
  · intro hs
    have : ¬ (v.size_ - 1 ≥ v.size_) := by omega
    simp [At, this]
  · intro e s he
    unfold At at he
    split at he
    · simp only [Run.thrown.injEq] at he
      exact ⟨he.1.symm, he.2.symm⟩
    · cases he

/-- C13: for vectors `x` and `y` holding `xs` and `ys`, `x == y` is true
exactly when they have the same size and `x[i] == y[i]` at every index, that
is when `xs = ys`; the capacities play no part; `x != y` is the negation. -/
theorem C13_equality_is_elementwise [DecidableEq α] (h : Heap α) (x y : SimpleVector)
    (xs ys : List α) (hx : Holds h x xs) (hy : Holds h y ys) :
    opEq h x y = some (decide (xs = ys)) ∧
    (opEq h x y = some true ↔
      x.size_ = y.size_ ∧ ∀ i, i < x.size_ → index h x i = index h y i) ∧
    (∀ c1 c2, opEq h { x with capacity_ := c1 } { y with capacity_ := c2 } = opEq h x y) ∧
    opNe h x y = (opEq h x y).map (fun b => !b) ∧
    opNe h x y = some (!decide (xs = ys)) := by
  have hspec := opEq_spec hx hy
  refine ⟨hspec, ?_, fun _ _ => rfl, rfl, by simp [opNe, hspec]⟩
  rw [hspec]
  constructor
  · intro hd
    have hxy : xs = ys := by simpa using hd
    subst hxy
    refine ⟨by rw [hx.1, hy.1], ?_⟩
    intro i _
    rw [holds_index hx, holds_index hy]
  · rintro ⟨hs, hi⟩
    have hxy : xs = ys := by
      apply List.ext_getElem?
      intro i
      by_cases hlt : i < x.size_
      · rw [← holds_index hx, ← holds_index hy]
        exact hi i hlt
      · rw [List.getElem?_eq_none (by have := hx.1; omega),
          List.getElem?_eq_none (by have := hy.1; omega)]
    simp [hxy]

/-- C13 on `[1, 2]` with capacity 2 and `[1, 2]` with capacity 4. -/
theorem C13_equality_is_elementwise_witness :
    Holds [some [some (1 : Int), some 2], some [some 1, some 2, none, none]]
      ⟨2, 2, some 0⟩ [1, 2] ∧
    opEq [some [some (1 : Int), some 2], some [some 1, some 2, none, none]]
      ⟨2, 2, some 0⟩ ⟨2, 4, some 1⟩ = some (decide ([(1 : Int), 2] = [1, 2])) :=
  ⟨by decide,
    (C13_equality_is_elementwise
      [some [some (1 : Int), some 2], some [some 1, some 2, none, none]]
      ⟨2, 2, some 0⟩ ⟨2, 4, some 1⟩ [1, 2] [1, 2] (by decide) (by decide)).1⟩

/-- C14: for an element type with a linear order and vectors `x`, `y`
holding `xs`, `ys`: `x < y` is the lexicographic order of `xs` and `ys`;
exactly one of `x < y`, `x == y`, `y < x` is true; `x <= y` is `!(y < x)`,
`x > y` is `y < x`, and `x >= y` is `!(x < y)`. -/
theorem C14_ordering_is_lexicographic [LinearOrder α] (h : Heap α) (x y : SimpleVector)
    (xs ys : List α) (hx : Holds h x xs) (hy : Holds h y ys) :
    ∃ lt gt eq : Bool, opLt h x y = some lt ∧ opLt h y x = some gt ∧ opEq h x y = some eq ∧
      (lt = true ↔ List.Lex (fun u w : α => u < w) xs ys) ∧
      (gt = true ↔ List.Lex (fun u w : α => u < w) ys xs) ∧
      ((lt = true ∧ eq = false ∧ gt = false) ∨ (lt = false ∧ eq = true ∧ gt = false) ∨
        (lt = false ∧ eq = false ∧ gt = true)) ∧
      opLe h x y = some (!gt) ∧ opGt h x y = some gt ∧ opGe h x y = some (!lt) := by
  obtain ⟨lt, hlt, ilt⟩ := opLt_spec hx hy
  obtain ⟨gt, hgt, igt⟩ := opLt_spec hy hx
  have heq := opEq_spec hx hy
  refine ⟨lt, gt, decide (xs = ys), hlt, hgt, heq, ilt, igt, ?_, by simp [opLe, hgt],
    by simp [opGt, hgt], by simp [opGe, hlt]⟩
  have tri := (List.Lex.isTrichotomous (fun u w : α => u < w)).trichotomous xs ys
  have asy := (List.Lex.isAsymm (fun u w : α => u < w)).asymm
  rcases tri with t | t | t
  · left
    have h1 : ¬ List.Lex (fun u w : α => u < w) ys xs := asy _ _ t
    have h2 : xs ≠ ys := by
      rintro rfl; exact h1 t
    refine ⟨ilt.mpr t, by simp [h2], ?_⟩
    cases gt with
    | false => rfl
    | true => exact absurd (igt.mp rfl) h1
  · right; left
    subst t
    have h1 : ¬ List.Lex (fun u w : α => u < w) xs xs := fun hc => asy _ _ hc hc
    refine ⟨?_, by simp, ?_⟩
    · cases lt with
      | false => rfl
      | true => exact absurd (ilt.mp rfl) h1
    · cases gt with
      | false => rfl
      | true => exact absurd (igt.mp rfl) h1
  · right; right
    have h1 : ¬ List.Lex (fun u w : α => u < w) xs ys := asy _ _ t
    have h2 : xs ≠ ys := by
      rintro rfl; exact h1 t
    refine ⟨?_, by simp [h2], igt.mpr t⟩
    cases lt with
    | false => rfl
    | true => exact absurd (ilt.mp rfl) h1

/-- C14 on `[1, 2]` and `[1, 3, 0]`. -/
theorem C14_ordering_is_lexicographic_witness :
    Holds [some [some (1 : Int), some 2], some [some 1, some 3, some 0, none]]
      ⟨2, 2, some 0⟩ [1, 2] ∧
    ∃ lt gt eq : Bool,
      opLt [some [some (1 : Int), some 2], some [some 1, some 3, some 0, none]]
        ⟨2, 2, some 0⟩ ⟨3, 4, some 1⟩ = some lt ∧
      opLt [some [some (1 : Int), some 2], some [some 1, some 3, some 0, none]]
        ⟨3, 4, some 1⟩ ⟨2, 2, some 0⟩ = some gt ∧
      opEq [some [some (1 : Int), some 2], some [some 1, some 3, some 0, none]]
        ⟨2, 2, some 0⟩ ⟨3, 4, some 1⟩ = some eq ∧
      (lt = true ↔ List.Lex (fun u w : Int => u < w) [1, 2] [1, 3, 0]) ∧
      (gt = true ↔ List.Lex (fun u w : Int => u < w) [1, 3, 0] [1, 2]) ∧
      ((lt = true ∧ eq = false ∧ gt = false) ∨ (lt = false ∧ eq = true ∧ gt = false) ∨
        (lt = false ∧ eq = false ∧ gt = true)) ∧
      opLe [some [some (1 : Int), some 2], some [some 1, some 3, some 0, none]]
        ⟨2, 2, some 0⟩ ⟨3, 4, some 1⟩ = some (!gt) ∧
      opGt [some [some (1 : Int), some 2], some [some 1, some 3, some 0, none]]
        ⟨2, 2, some 0⟩ ⟨3, 4, some 1⟩ = some gt ∧
      opGe [some [some (1 : Int), some 2], some [some 1, some 3, some 0, none]]
        ⟨2, 2, some 0⟩ ⟨3, 4, some 1⟩ = some (!lt) :=
  ⟨by decide,
    C14_ordering_is_lexicographic
      [some [some (1 : Int), some 2], some [some 1, some 3, some 0, none]]
      ⟨2, 2, some 0⟩ ⟨3, 4, some 1⟩ [1, 2] [1, 3, 0] (by decide) (by decide)⟩

/-- C12: appending the `N >= 1` elements of `items` one at a time to an
empty vector (the grown blocks having byte sizes that fit `size_t`) ends with
a capacity that is the smallest power of two `>= N`, and the number of
appends that reallocated is `1 + log2 capacity`, at most
`floor (log2 N) + 2`; the heap has grown by that many blocks. -/
theorem C12_appends_reallocate_log_times [Elem α] (h : Heap α) (items : List α)
    (hN : 1 ≤ items.length) (hfit : Fits α (2 * items.length)) :
    ∃ g w j, PushBackAll h ctorDefault items = some (g, w) ∧ w.capacity_ = 2 ^ j ∧
      items.length ≤ w.capacity_ ∧ (∀ m, items.length ≤ 2 ^ m → w.capacity_ ≤ 2 ^ m) ∧
      growthEvents h ctorDefault items = some (1 + Nat.log 2 w.capacity_) ∧
      g.length = h.length + (1 + Nat.log 2 w.capacity_) ∧
      1 + Nat.log 2 w.capacity_ ≤ Nat.log 2 items.length + 2 := by
  obtain ⟨g, w, j, e, rep, hc, hj, hgr, hgl⟩ := push_run_from_empty h items hN hfit
  have hlog : Nat.log 2 w.capacity_ = j := by rw [hc]; exact Nat.log_pow (by decide) j
  have hle : items.length ≤ w.capacity_ := by
    have h1 := rep.1
    have h2 := rep.2.1
    omega
  refine ⟨g, w, j, e, hc, hle, ?_, by rw [hlog]; exact hgr, by rw [hlog]; exact hgl, ?_⟩
  · intro m hm
    rw [hc]
    rcases hj with hj | hj
    · rw [hj]
      exact Nat.two_pow_pos m
    · have hlt : 2 ^ (j - 1) < 2 ^ m := Nat.lt_of_lt_of_le hj hm
      have hjm : j - 1 < m := (Nat.pow_lt_pow_iff_right (by decide)).mp hlt
      exact (Nat.pow_le_pow_iff_right (by decide)).mpr (by omega)
  · rw [hlog]
    rcases hj with hj | hj
    · omega
    · have := Nat.le_log_of_pow_le (by decide : 1 < 2) (Nat.le_of_lt hj)
      omega

/-- C12 for five appends: capacity 8, four reallocations. -/
theorem C12_appends_reallocate_log_times_witness :
    1 ≤ [(0 : Int), 1, 2, 3, 4].length ∧
    ∃ g w j, PushBackAll [] ctorDefault [(0 : Int), 1, 2, 3, 4] = some (g, w) ∧
      w.capacity_ = 2 ^ j ∧ [(0 : Int), 1, 2, 3, 4].length ≤ w.capacity_ ∧
      (∀ m, [(0 : Int), 1, 2, 3, 4].length ≤ 2 ^ m → w.capacity_ ≤ 2 ^ m) ∧
      growthEvents [] ctorDefault [(0 : Int), 1, 2, 3, 4] =
        some (1 + Nat.log 2 w.capacity_) ∧
      g.length = ([] : Heap Int).length + (1 + Nat.log 2 w.capacity_) ∧
      1 + Nat.log 2 w.capacity_ ≤ Nat.log 2 [(0 : Int), 1, 2, 3, 4].length + 2 :=
  ⟨by decide,
    C12_appends_reallocate_log_times [] [(0 : Int), 1, 2, 3, 4] (by decide) (by decide)⟩

/-- The in-place mutators never lower the capacity of a well-formed vector.
For a well-formed vector holding `xs` and an argument that is not an element
of the vector itself, every one of `PushBack`, `EmplaceBack`, `Insert`,
`Emplace`, `Resize`, `Reserve`, `Clear`, `PopBack` (on a non-empty vector)
and `Erase` (at an offset below the size) is defined (growth asking for
blocks whose byte size fits `size_t`; an insertion that shifts without
growing needs an implicit-lifetime element type) and leaves a capacity `>=`
the one before; `PopBack`, `Erase` and `Clear` leave it unchanged, `Clear`
sets the size to 0 and `PopBack` removes exactly the last element.  The
capacity facts hold for any heap, vector and argument whenever the call is
defined, for `Insert` and `Emplace` provided `capacity * 2` does not wrap. -/
theorem capacity_never_decreases_spec [Elem α] (h : Heap α) (v : SimpleVector)
    (xs : List α) (a : Arg α) (x : α) (k n : Nat) (hrep : Rep h v xs) (hk : k ≤ v.size_)
    (harg : Outside h v.data_ a x)
    (hfit : v.size_ = v.capacity_ → Fits α (max 1 (2 * v.capacity_)))
    (hfitn : n > v.capacity_ → Fits α (max n (2 * v.capacity_)))
    (himp : v.size_ < v.capacity_ → k < v.size_ → Elem.implicitLifetime α = true) :
    (∃ it g u, EmplaceBack h v a = some (it, g, u) ∧ PushBack h v a = some (g, u) ∧
      v.capacity_ ≤ u.capacity_) ∧
    (∃ it g u, Emplace h v ⟨v.data_, k⟩ a = some (it, g, u) ∧
      Insert h v ⟨v.data_, k⟩ a = some (it, g, u) ∧ v.capacity_ ≤ u.capacity_) ∧
    (∃ g u, Resize h v n = some (g, u) ∧ v.capacity_ ≤ u.capacity_) ∧
    (∃ g u, Reserve h v n = some (g, u) ∧ v.capacity_ ≤ u.capacity_) ∧
    (∃ g u, Clear h v = some (g, u) ∧ u.capacity_ = v.capacity_ ∧ u.size_ = 0 ∧
      Rep g u []) ∧
    (0 < v.size_ → ∃ g u, PopBack h v = some (g, u) ∧ u.capacity_ = v.capacity_ ∧
      u.size_ = v.size_ - 1 ∧ Rep g u xs.dropLast) ∧
    (k < v.size_ → ∃ it g u, Erase h v ⟨v.data_, k⟩ = some (it, g, u) ∧
      u.capacity_ = v.capacity_) ∧
    ∀ (h2 g : Heap α) (v2 u : SimpleVector) (pos it : Iter) (b : Arg α),
      (EmplaceBack h2 v2 b = some (it, g, u) → v2.capacity_ ≤ u.capacity_) ∧
      (PushBack h2 v2 b = some (g, u) → v2.capacity_ ≤ u.capacity_) ∧
      (v2.capacity_ * 2 < SIZE_MOD → Emplace h2 v2 pos b = some (it, g, u) →
        v2.capacity_ ≤ u.capacity_) ∧
      (v2.capacity_ * 2 < SIZE_MOD → Insert h2 v2 pos b = some (it, g, u) →
        v2.capacity_ ≤ u.capacity_) ∧
      (Resize h2 v2 n = some (g, u) → v2.capacity_ ≤ u.capacity_) ∧
      (Reserve h2 v2 n = some (g, u) → v2.capacity_ ≤ u.capacity_) ∧
      (PopBack h2 v2 = some (g, u) → u.capacity_ = v2.capacity_) ∧
      (Erase h2 v2 pos = some (it, g, u) → u.capacity_ = v2.capacity_) ∧
      (Clear h2 v2 = some (g, u) → u.capacity_ = v2.capacity_ ∧ u.size_ = 0) := by
  have hres : ∀ (h2 g : Heap α) (v2 u : SimpleVector), Reserve h2 v2 n = some (g, u) →
      v2.capacity_ ≤ u.capacity_ := by
    intro h2 g v2 u e
    have := (Reserve_capacity e).1
    by_cases hh : n > v2.capacity_
    · rw [if_pos hh] at this; omega
    · rw [if_neg hh] at this; omega
  refine ⟨?_, ?_, ?_, ?_, ?_, ?_, ?_, ?_⟩
  · obtain ⟨g, u, e, -, -, -, -, -⟩ := EmplaceBack_spec x hrep harg hfit
    exact ⟨_, g, u, e, PushBack_eq e, EmplaceBack_capacity e⟩
  · obtain ⟨g, u, e, -, -, hc, -, -⟩ := Emplace_spec k x hrep harg hk hfit himp
    refine ⟨_, g, u, e, e, ?_⟩
    rw [hc]
    split <;> omega
  · obtain ⟨g, u, e, -, -, -⟩ := Resize_spec n hrep hfitn
    exact ⟨g, u, e, (Resize_capacity e).1⟩
  · by_cases hn : n > v.capacity_
    · obtain ⟨g, e, -, -, -, -⟩ := Reserve_grow hrep hn
        (fits_mono (Nat.le_max_left _ _) (hfitn hn))
      exact ⟨g, _, e, hres _ _ _ _ e⟩
    · exact ⟨h, v, by simp [Reserve, hn], Nat.le_refl _⟩
  · obtain ⟨g, e, rep⟩ := Clear_spec hrep
    exact ⟨g, _, e, rfl, rfl, rep⟩
  · intro hpos
    obtain ⟨g, e, rep⟩ := PopBack_spec hrep hpos
    exact ⟨g, _, e, rfl, rfl, rep⟩
  · intro hlt
    obtain ⟨g, e, -, -, -⟩ := Erase_spec k hrep hlt
    exact ⟨_, g, _, e, rfl⟩
  · intro h2 g v2 u pos it b
    exact ⟨EmplaceBack_capacity, PushBack_capacity, fun hh e => Emplace_capacity hh e,
      fun hh e => Emplace_capacity hh e, fun e => (Resize_capacity e).1, hres h2 g v2 u,
      fun e => (PopBack_fields e).1, fun e => (Erase_fields e).1, Clear_fields⟩

/-- C20, at the failing inputs.  (1) `SimpleVector<int> a(Reserve(4));
a.PushBack(7); SimpleVector<int> b(a);` gives a copy `b` that reports
capacity 4 over a block of one slot.  `b.PushBack(9)`, `b.EmplaceBack(9)`,
`b.Insert(b.end(), 9)`, `b.Emplace(b.begin(), 9)` and `b.Resize(2)` find
`size_ < capacity_`, do not grow, and write at `data_ + 1`, outside the
block: the calls are undefined, so there is no capacity afterwards to
compare.  `PopBack`, `Erase`, `Clear` and `Reserve` on `b` are defined and
behave as the claim says.  (2) `v = [X(1), X(2), X(3)]` with capacity 4:
`v.Insert(v.begin(), X(9))` starts its shift with a move assignment to the
raw slot 3, which is undefined for the class `X`. -/
theorem C20_mutators_undefined_on_a_copy :
    ctorReserve ([] : Heap Int) 4 = ([some [none, none, none, none]], ⟨0, 4, some 0⟩) ∧
    PushBack [some [(none : Option Int), none, none, none]] ⟨0, 4, some 0⟩ (Arg.value 7) =
      some ([some [some 7, none, none, none]], ⟨1, 4, some 0⟩) ∧
    ctorCopy [some [some (7 : Int), none, none, none]] ⟨1, 4, some 0⟩ =
      some ([some [some 7, none, none, none], some [some 7]], ⟨1, 4, some 1⟩) ∧
    PushBack [some [some (7 : Int), none, none, none], some [some 7]] ⟨1, 4, some 1⟩
      (Arg.value 9) = none ∧
    EmplaceBack [some [some (7 : Int), none, none, none], some [some 7]] ⟨1, 4, some 1⟩
      (Arg.value 9) = none ∧
    Insert [some [some (7 : Int), none, none, none], some [some 7]] ⟨1, 4, some 1⟩
      (end_ ⟨1, 4, some 1⟩) (Arg.value 9) = none ∧
    Emplace [some [some (7 : Int), none, none, none], some [some 7]] ⟨1, 4, some 1⟩
      (begin_ ⟨1, 4, some 1⟩) (Arg.value 9) = none ∧
    Resize [some [some (7 : Int), none, none, none], some [some 7]] ⟨1, 4, some 1⟩ 2 =
      none ∧
    Reserve [some [some (7 : Int), none, none, none], some [some 7]] ⟨1, 4, some 1⟩ 9 =
      some ([some [some 7, none, none, none], none,
        some [some 7, none, none, none, none, none, none, none, none]], ⟨1, 9, some 2⟩) ∧
    PopBack [some [some (7 : Int), none, none, none], some [some 7]] ⟨1, 4, some 1⟩ =
      some ([some [some 7, none, none, none], some [none]], ⟨0, 4, some 1⟩) ∧
    Erase [some [some (7 : Int), none, none, none], some [some 7]] ⟨1, 4, some 1⟩
        (begin_ ⟨1, 4, some 1⟩) =
      some (⟨some 1, 0⟩, [some [some 7, none, none, none], some [none]], ⟨0, 4, some 1⟩) ∧
    Clear [some [some (7 : Int), none, none, none], some [some 7]] ⟨1, 4, some 1⟩ =
      some ([some [some 7, none, none, none], some [none]], ⟨0, 4, some 1⟩) ∧
    Rep ([some [some (⟨1⟩ : X), some ⟨2⟩, some ⟨3⟩, none]] : Heap X) ⟨3, 4, some 0⟩
      [⟨1⟩, ⟨2⟩, ⟨3⟩] ∧
    Insert ([some [some (⟨1⟩ : X), some ⟨2⟩, some ⟨3⟩, none]] : Heap X) ⟨3, 4, some 0⟩
      (begin_ ⟨3, 4, some 0⟩) (Arg.value ⟨9⟩) = none := by
  refine ⟨rfl, rfl, by decide, rfl, rfl, rfl, rfl, by decide, rfl, rfl, rfl, rfl, by decide,
    rfl⟩

/-! ## Exceptions thrown by element constructors -/

theorem forLoopTAux_throw (body : Nat → Heap α → Run Unit (Heap α))
    (Inv : Nat → Heap α → Prop) (Q : Exception → Heap α → Prop) (k : Nat) :
    ∀ (n lo : Nat) (h : Heap α), lo ≤ k → k < lo + n → Inv lo h →
      (∀ i g, lo ≤ i → i < k → Inv i g → ∃ g1, body i g = Run.done () g1 ∧ Inv (i + 1) g1) →
      (∀ g, Inv k g → ∃ e g1, body k g = Run.thrown e g1 ∧ Q e g1) →
      ∃ e g, forLoopTAux body n lo h = Run.thrown e (k, g) ∧ Q e g := by
  intro n
  induction n with
  | zero => intro lo h h1 h2; omega
  | succ n ih =>
    intro lo h hlo hhi h0 hstep hthrow
    by_cases hk : lo = k
    · subst hk
      obtain ⟨e, g1, e1, q1⟩ := hthrow h h0
      exact ⟨e, g1, by simp [forLoopTAux, e1], q1⟩
    · obtain ⟨g1, e1, i1⟩ := hstep lo h (Nat.le_refl _) (by omega) h0
      obtain ⟨e, g, e2, q2⟩ := ih (lo + 1) g1 (by omega) (by omega) i1
        (fun i g hi1 hi2 hinv => hstep i g (by omega) hi2 hinv) hthrow
      exact ⟨e, g, by simp [forLoopTAux, e1, e2], q2⟩

theorem forLoopTAux_never (body : Nat → Heap α → Option (Heap α)) :
    ∀ (n i : Nat) (h : Heap α),
      forLoopTAux (fun i g =>
          match body i g with
          | some g1 => Run.done () g1
          | none => Run.undefined) n i h =
        match forLoopAux body n i h with
        | some g => Run.done () (i + n, g)
        | none => Run.undefined := by
  intro n
  induction n with
  | zero => intro i h; rfl
  | succ n ih =>
    intro i h
    unfold forLoopTAux forLoopAux
    cases hb : body i h with
    | none => rfl
    | some g1 =>
      simp only []
      rw [ih (i + 1) g1]
      have : i + 1 + n = i + (n + 1) := by omega
      rw [this]

theorem copyAssignT_never [Elem α] (h : Heap α) (v rhs : SimpleVector) (same : Bool) :
    copyAssignT (fun _ => false) h v rhs same =
      match copyAssign h v rhs same with
      | some (g, u) => Run.done () (g, u)
      | none => Run.undefined := by
  have hloop : ∀ (first : Iter) (nd : Option Nat) (n : Nat) (g : Heap α),
      copyLoopT (fun _ => false) g first nd n =
        match forLoop 0 n (fun i g =>
            match load g first.base (first.off + i) with
            | some x => construct g nd i x
            | none => none) g with
        | some g1 => Run.done () (0 + (n - 0), g1)
        | none => Run.undefined := by
    intro first nd n g
    unfold copyLoopT forLoopT forLoop
    rw [← forLoopTAux_never]
    congr 1
    funext i g0
    unfold constructT
    cases load g0 first.base (first.off + i) with
    | none => rfl
    | some x => simp
  unfold copyAssignT copyAssign ctorCopyT ctorCopy AllocateAndCopyT AllocateAndCopy
  cases same with
  | true => rfl
  | false =>
    simp only [if_true]
    by_cases hc : rhs.capacity_ ≠ 0
    · simp only [if_pos hc, end_, begin_, if_true, hloop]
      cases forLoop 0 (rhs.size_ - 0) (fun i g =>
            match load g rhs.data_ (0 + i) with
            | some x => construct g (Allocate h (rhs.size_ - 0)).1 i x
            | none => none) (Allocate h (rhs.size_ - 0)).2 with
      | none => rfl
      | some g1 =>
        simp only []
        cases dtor g1 (swap v ⟨rhs.size_, rhs.capacity_, (Allocate h (rhs.size_ - 0)).1⟩).2 with
        | none => rfl
        | some g2 => rfl
    · simp only [if_neg hc]
      cases dtor h (swap v ⟨rhs.size_, rhs.capacity_, none⟩).2 with
      | none => rfl
      | some g2 => rfl

/-! ## Without exceptions the two models agree -/

theorem forLoopT_never (bodyT : Nat → Heap α → Run Unit (Heap α))
    (body : Nat → Heap α → Option (Heap α))
    (hb : ∀ i g, bodyT i g =
      match body i g with
      | some g1 => Run.done () g1
      | none => Run.undefined) (lo hi : Nat) (h : Heap α) :
    forLoopT lo hi bodyT h =
      match forLoop lo hi body h with
      | some g => Run.done () (lo + (hi - lo), g)
      | none => Run.undefined := by
  have hfun : bodyT = fun i g =>
      match body i g with
      | some g1 => Run.done () g1
      | none => Run.undefined := by
    funext i g
    exact hb i g
  rw [hfun]
  exact forLoopTAux_never body (hi - lo) lo h

theorem constructT_never (h : Heap α) (d : Option Nat) (i : Nat) (x : α) :
    constructT (fun _ => false) h d i x =
      match construct h d i x with
      | some g1 => Run.done () g1
      | none => Run.undefined := by
  simp [constructT]

theorem relocateT_never [Elem α] (h : Heap α) (dst : Option Nat) (j : Nat) (src : Option Nat)
    (i : Nat) :
    relocateT (fun _ => false) h dst j src i =
      match relocate h dst j src i with
      | some g1 => Run.done () g1
      | none => Run.undefined := by
  simp [relocateT]

theorem ReserveT_never [Elem α] (h : Heap α) (v : SimpleVector) (n : Nat) :
    ReserveT (fun _ => false) h v n =
      match Reserve h v n with
      | some s => Run.done () s
      | none => Run.undefined := by
  unfold ReserveT Reserve
  by_cases hn : n > v.capacity_
  · simp only [if_pos hn]
    rw [forLoopT_never _ (fun i g => relocate g (Allocate h n).1 i v.data_ i)
      (fun i g => relocateT_never g _ i _ i)]
    cases forLoop 0 v.size_ (fun i g => relocate g (Allocate h n).1 i v.data_ i)
        (Allocate h n).2 with
    | none => rfl
    | some h2 =>
      simp only []
      cases operatorDelete h2 v.data_ with
      | none => rfl
      | some h3 => rfl
  · simp only [if_neg hn]

theorem ctorSizedT_never [Elem α] (h : Heap α) (n : Nat) :
    ctorSizedT (fun _ => false) h n =
      match ctorSized (α := α) h n with
      | some (g, v) => Run.done v g
      | none => Run.undefined := by
  unfold ctorSizedT ctorSized AllocateAndDefaultInitializeT AllocateAndDefaultInitialize
  by_cases hn : n ≠ 0
  · simp only [if_pos hn]
    rw [forLoopT_never _ (fun i g => construct g (Allocate h n).1 i (Elem.dflt : α))
      (fun i g => constructT_never g _ i _)]
    cases forLoop 0 n (fun i g => construct g (Allocate h n).1 i (Elem.dflt : α))
        (Allocate h n).2 with
    | none => rfl
    | some h2 => rfl
  · simp only [if_neg hn]

theorem ctorFillT_never [Elem α] (h : Heap α) (n : Nat) (value : α) :
    ctorFillT (fun _ => false) h n value =
      match ctorFill h n value with
      | some (g, v) => Run.done v g
      | none => Run.undefined := by
  unfold ctorFillT ctorFill AllocateAndFillT AllocateAndFill
  by_cases hn : n ≠ 0
  · simp only [if_pos hn]
    rw [forLoopT_never _ (fun i g => construct g (Allocate h n).1 i value)
      (fun i g => constructT_never g _ i _)]
    cases forLoop 0 n (fun i g => construct g (Allocate h n).1 i value) (Allocate h n).2 with
    | none => rfl
    | some h2 => rfl
  · simp only [if_neg hn]

theorem ResizeT_never [Elem α] (h : Heap α) (v : SimpleVector) (n : Nat) :
    ResizeT (fun _ => false) h v n =
      match Resize h v n with
      | some s => Run.done () s
      | none => Run.undefined := by
  unfold ResizeT Resize
  rw [show (if n > v.capacity_ then
        ReserveT (fun _ => false) h v (max n (v.capacity_ * 2 % SIZE_MOD))
      else Run.done () (h, v)) =
      match (if n > v.capacity_ then Reserve h v (max n (v.capacity_ * 2 % SIZE_MOD))
        else some (h, v)) with
      | some s => Run.done () s
      | none => Run.undefined by
    by_cases hn : n > v.capacity_
    · rw [if_pos hn, if_pos hn, ReserveT_never]
    · rw [if_neg hn, if_neg hn]]
  cases (if n > v.capacity_ then Reserve h v (max n (v.capacity_ * 2 % SIZE_MOD))
      else some (h, v)) with
  | none => rfl
  | some s =>
    obtain ⟨h1, v1⟩ := s
    simp only []
    by_cases hs : n > v1.size_
    · simp only [if_pos hs]
      rw [forLoopT_never _ (fun i g => construct g v1.data_ i (Elem.dflt : α))
        (fun i g => constructT_never g _ i _)]
      cases forLoop v1.size_ n (fun i g => construct g v1.data_ i (Elem.dflt : α)) h1 with
      | none => rfl
      | some h2 => rfl
    · simp only [if_neg hs]
      cases forLoop n v1.size_ (fun i g => destroy g v1.data_ i) h1 with
      | none => rfl
      | some h2 => rfl

theorem EmplaceBackT_never [Elem α] (h : Heap α) (v : SimpleVector) (x : α) :
    EmplaceBackT (fun _ => false) h v x =
      match EmplaceBack h v (Arg.value x) with
      | some (it, s) => Run.done it s
      | none => Run.undefined := by
  unfold EmplaceBackT EmplaceBack
  rw [show (if v.size_ = v.capacity_ then
        ReserveT (fun _ => false) h v (if v.capacity_ = 0 then 1 else v.capacity_ * 2 % SIZE_MOD)
      else Run.done () (h, v)) =
      match (if v.size_ = v.capacity_ then
          Reserve h v (if v.capacity_ = 0 then 1 else v.capacity_ * 2 % SIZE_MOD)
        else some (h, v)) with
      | some s => Run.done () s
      | none => Run.undefined by
    by_cases hn : v.size_ = v.capacity_
    · rw [if_pos hn, if_pos hn, ReserveT_never]
    · rw [if_neg hn, if_neg hn]]
  cases (if v.size_ = v.capacity_ then
      Reserve h v (if v.capacity_ = 0 then 1 else v.capacity_ * 2 % SIZE_MOD)
    else some (h, v)) with
  | none => rfl
  | some s =>
    obtain ⟨h1, v1⟩ := s
    simp only [constructT_never, constructArg_value]
    cases construct h1 v1.data_ v1.size_ x with
    | none => rfl
    | some h2 => rfl

theorem constructLoopT_throw {throwsAt : Nat → Bool} {h : Heap α} {q L n k : Nat} (x : α)
    (hdst : blockLen h q = some L) (hn : n ≤ L) (hk : k < n) (ht : throwsAt k = true)
    (hmin : ∀ j, j < k → throwsAt j = false) :
    ∃ g, forLoopT 0 n (fun i g => constructT throwsAt g (some q) i x) h =
        Run.thrown Exception.element (k, g) ∧
      Shape h g ∧ ∀ r j, slot g r j = if r = q ∧ j < k then some (some x) else slot h r j := by
  have key := forLoopTAux_throw (fun i g => constructT throwsAt g (some q) i x)
    (fun i g => Shape h g ∧
      ∀ r j, slot g r j = if r = q ∧ j < i then some (some x) else slot h r j)
    (fun e g => e = Exception.element ∧ Shape h g ∧
      ∀ r j, slot g r j = if r = q ∧ j < k then some (some x) else slot h r j)
    k (n - 0) 0 h (Nat.zero_le _) (by omega)
    ⟨shape_refl h, fun r j => by rw [if_neg (by omega)]⟩ ?_ ?_
  · obtain ⟨e, g, e1, rfl, sh, sl⟩ := key
    exact ⟨g, e1, sh, sl⟩
  · rintro i g - hik ⟨sh, sl⟩
    obtain ⟨g1, c1, pk⟩ := construct_ok x (show blockLen g q = some L by rw [sh.2]; exact hdst)
      (show i < L by omega)
    refine ⟨g1, ?_, shape_trans sh (poked_shape pk), ?_⟩
    · simp only [constructT, hmin i hik, c1]
      rfl
    · intro r j
      rw [pk.2.2, sl]
      by_cases hr : r = q
      · subst hr
        by_cases hj : j = i
        · subst hj
          rw [if_pos ⟨rfl, rfl⟩, if_pos ⟨rfl, by omega⟩]
        · rw [if_neg (fun hc => hj hc.2)]
          by_cases hji : j < i
          · rw [if_pos ⟨rfl, hji⟩, if_pos ⟨rfl, by omega⟩]
          · rw [if_neg (fun hc => hji hc.2), if_neg (by omega)]
      · rw [if_neg (fun hc => hr hc.1), if_neg (fun hc => hr hc.1), if_neg (fun hc => hr hc.1)]
  · rintro g ⟨sh, sl⟩
    refine ⟨Exception.element, g, ?_, rfl, sh, sl⟩
    simp only [constructT, ht]
    rfl

/-- For every size `n` and every slot `k < n` whose construction is the first
to throw, `SimpleVector(n)` and `SimpleVector(n, value)` end with the
exception while the block they allocated is still allocated and its slots
`[0, k)` still hold the elements constructed. -/
theorem sized_ctors_keep_block_on_throw [Elem α] {throwsAt : Nat → Bool} (h : Heap α)
    {n k : Nat} (value : α) (hk : k < n) (hfit : Fits α n) (ht : throwsAt k = true)
    (hmin : ∀ j, j < k → throwsAt j = false) :
    (∃ g, ctorSizedT throwsAt h n = Run.thrown Exception.element g ∧
      g.length = h.length + 1 ∧ blockLen g h.length = some n ∧
      (∀ j, j < k → slot g h.length j = some (some (Elem.dflt : α))) ∧
      Frame h g none) ∧
    ∃ g, ctorFillT throwsAt h n value = Run.thrown Exception.element g ∧
      g.length = h.length + 1 ∧ blockLen g h.length = some n ∧
      (∀ j, j < k → slot g h.length j = some (some value)) ∧
      Frame h g none := by
  obtain ⟨-, hlen1, hbl1, hsl1⟩ := Allocate_view (α := α) h n
  rw [fits_div hfit] at hbl1 hsl1
  generalize hh1 : (Allocate h n).2 = h1 at hlen1 hbl1 hsl1
  have hAlloc : Allocate h n = (some h.length, h1) := by rw [← hh1]; rfl
  have hLq : blockLen h1 h.length = some n := by rw [hbl1, if_pos rfl]
  have hn0 : n ≠ 0 := by omega
  have main : ∀ x : α, ∃ g,
      forLoopT 0 n (fun i g => constructT throwsAt g (some h.length) i x) h1 =
        Run.thrown Exception.element (k, g) ∧
      g.length = h.length + 1 ∧ blockLen g h.length = some n ∧
      (∀ j, j < k → slot g h.length j = some (some x)) ∧ Frame h g none := by
    intro x
    obtain ⟨g, e, sh, sl⟩ := constructLoopT_throw x hLq (Nat.le_refl _) hk ht hmin
    refine ⟨g, e, by rw [sh.1, hlen1], by rw [sh.2]; exact hLq, ?_, ?_⟩
    · intro j hj
      rw [sl, if_pos ⟨rfl, hj⟩]
    · refine frame_of_slots (by rw [sh.1, hlen1]; omega) ?_ ?_
      · intro r hr _
        rw [sh.2, hbl1, if_neg (by omega)]
      · intro r j hr _
        rw [sl, if_neg (by omega), hsl1, if_neg (by omega)]
  constructor
  · obtain ⟨g, e, r⟩ := main Elem.dflt
    refine ⟨g, ?_, r⟩
    unfold ctorSizedT AllocateAndDefaultInitializeT
    simp only [if_pos hn0, hAlloc, e]
  · obtain ⟨g, e, r⟩ := main value
    refine ⟨g, ?_, r⟩
    unfold ctorFillT AllocateAndFillT
    simp only [if_pos hn0, hAlloc, e]

/-- C16: the sized constructors do not clean up.  For `SimpleVector<int> v(3)`
and `SimpleVector<int> v(3, 7)` with the construction of the element for slot 1
throwing, the exception leaves the constructor while the block of 3 slots
allocated by the call is still allocated and its slot 0 still holds the
element constructed: nothing was destroyed and nothing released.  The copy
constructor, whose `AllocateAndCopy` has the handler, ends in the same
situation with the new block released. -/
theorem C16_sized_ctors_leak_on_throw :
    ctorSizedT (fun i => decide (i = 1)) ([] : Heap Int) 3 =
      Run.thrown Exception.element [some [some 0, none, none]] ∧
    ctorFillT (fun i => decide (i = 1)) ([] : Heap Int) 3 7 =
      Run.thrown Exception.element [some [some 7, none, none]] ∧
    blockLen ([some [some 0, none, none]] : Heap Int) 0 = some 3 ∧
    slot ([some [some 0, none, none]] : Heap Int) 0 0 = some (some 0) ∧
    blockLen ([some [some 7, none, none]] : Heap Int) 0 = some 3 ∧
    slot ([some [some 7, none, none]] : Heap Int) 0 0 = some (some 7) ∧
    ctorCopyT (fun i => decide (i = 1)) ([some [some 1, some 2, some 3]] : Heap Int)
        ⟨3, 3, some 0⟩ =
      Run.thrown Exception.element [some [some 1, some 2, some 3], none] ∧
    blockLen ([some [some 1, some 2, some 3], none] : Heap Int) 1 = none := by
  refine ⟨rfl, rfl, rfl, rfl, rfl, rfl, rfl, rfl⟩

theorem relocLoopT_throw [Elem α] {throwsAt : Nat → Bool} {h : Heap α} {p q L n k : Nat}
    (hpq : p ≠ q) (hsrc : ∀ i, i < n → ∃ y, slot h p i = some (some y))
    (hdst : blockLen h q = some L) (hn : n ≤ L) (hk : k < n) (ht : throwsAt k = true)
    (hmin : ∀ j, j < k → throwsAt j = false) :
    ∃ g, forLoopT 0 n (fun i g => relocateT throwsAt g (some q) i (some p) i) h =
        Run.thrown Exception.element (k, g) ∧
      Shape h g ∧
      ∀ r j, slot g r j =
        if r = q ∧ j < k then slot h p j
        else if r = p ∧ j < k then some none else slot h r j := by
  have key := forLoopTAux_throw (fun i g => relocateT throwsAt g (some q) i (some p) i)
    (fun i g => Shape h g ∧
      ∀ r j, slot g r j =
        if r = q ∧ j < i then slot h p j
        else if r = p ∧ j < i then some none else slot h r j)
    (fun e g => e = Exception.element ∧ Shape h g ∧
      ∀ r j, slot g r j =
        if r = q ∧ j < k then slot h p j
        else if r = p ∧ j < k then some none else slot h r j)
    k (n - 0) 0 h (Nat.zero_le _) (by omega)
    ⟨shape_refl h, fun r j => by rw [if_neg (by omega), if_neg (by omega)]⟩ ?_ ?_
  · obtain ⟨e, g, e1, rfl, sh, sl⟩ := key
    exact ⟨g, e1, sh, sl⟩
  · rintro i g - hik ⟨sh, sl⟩
    obtain ⟨y, hy⟩ := hsrc i (by omega)
    have hs : slot g p i = some (some y) := by
      rw [sl, if_neg (fun hc => hpq hc.1), if_neg (by omega), hy]
    obtain ⟨g1, c1, sh1, sl1⟩ := relocate_ok hs
      (show blockLen g q = some L by rw [sh.2]; exact hdst) (show i < L by omega)
      (fun hc => hpq hc.1.symm)
    refine ⟨g1, ?_, shape_trans sh sh1, ?_⟩
    · simp only [relocateT, hmin i hik, c1]
      rfl
    · intro r j
      rw [sl1, sl]
      by_cases hj : j = i
      · subst hj
        split_ifs <;> first | rfl | exact hy.symm | (exfalso; omega)
      · split_ifs <;> first | rfl | (exfalso; omega)
  · rintro g ⟨sh, sl⟩
    refine ⟨Exception.element, g, ?_, rfl, sh, sl⟩
    simp only [relocateT, ht]
    rfl

theorem rep_dead_slot {h : Heap α} {v : SimpleVector} {p j : Nat} (hd : v.data_ = some p)
    (hj : j < v.size_) (hs : slot h p j = some none) : ∀ ys, ¬ Rep h v ys := by
  intro ys hr
  obtain ⟨hlen, hle, -, hsl⟩ := (rep_some_iff hd).mp hr
  have := hsl j (by omega)
  rw [hs, List.getElem?_eq_getElem (by omega)] at this
  cases this

theorem rep_stray_slot {h : Heap α} {v : SimpleVector} {p j : Nat} {y : α}
    (hd : v.data_ = some p) (hj : v.size_ ≤ j) (hs : slot h p j = some (some y)) :
    ∀ ys, ¬ Rep h v ys := by
  intro ys hr
  obtain ⟨hlen, hle, hbl, hsl⟩ := (rep_some_iff hd).mp hr
  obtain ⟨L, hL, hjL⟩ := slot_lt_blockLen hs
  rw [hbl] at hL
  cases hL
  have := hsl j hjL
  rw [hs, List.getElem?_eq_none (by omega)] at this
  cases this

theorem dtor_dead_slot {h : Heap α} {v : SimpleVector} {p : Nat} (hd : v.data_ = some p)
    (hj : 0 < v.size_) (hs : slot h p 0 = some none) : dtor h v = none := by
  have hdes : destroy h (some p) 0 = none := by
    cases e : destroy h (some p) 0 with
    | none => rfl
    | some g =>
      obtain ⟨p2, y, hp2, hy, -⟩ := destroy_some e
      cases hp2
      rw [hs] at hy
      cases hy
  obtain ⟨m, hm⟩ : ∃ m, v.size_ - 0 = m + 1 := ⟨v.size_ - 1, by omega⟩
  unfold dtor DestroyElements forLoop
  rw [hm, hd]
  unfold forLoopAux
  rw [hdes]

/-- For every well-formed vector with at least two elements: when `Reserve`
relocates into the larger block and the move constructor throws for slot
`k >= 1`, the call ends with the exception and with `*this` unchanged in its
fields, but the slots `[0, k)` of its block have been destroyed, their values
live on in a block that nothing owns, no list of elements describes the vector
any more, and running its destructor is undefined. -/
theorem ReserveT_throw [Elem α] {throwsAt : Nat → Bool} {h : Heap α} {v : SimpleVector}
    {xs : List α} {n k : Nat} (hrep : Rep h v xs) (hn : v.capacity_ < n) (hfit : Fits α n)
    (hk0 : 0 < k) (hk : k < v.size_) (ht : throwsAt k = true)
    (hmin : ∀ j, j < k → throwsAt j = false) :
    ∃ g p, v.data_ = some p ∧ ReserveT throwsAt h v n = Run.thrown Exception.element (g, v) ∧
      (∀ j, j < k → slot g p j = some none) ∧
      (∀ j, j < k → slot g h.length j = some xs[j]?) ∧
      blockLen g h.length = some n ∧ blockLen g p = some v.capacity_ ∧
      (∀ ys, ¬ Rep g v ys) ∧ index g v 0 = none ∧ dtor g v = none := by
  obtain ⟨-, hlen1, hbl1, hsl1⟩ := Allocate_view (α := α) h n
  rw [fits_div hfit] at hbl1 hsl1
  generalize hh1 : (Allocate h n).2 = h1 at hlen1 hbl1 hsl1
  have hAlloc : Allocate h n = (some h.length, h1) := by rw [← hh1]; rfl
  obtain ⟨p, hd⟩ := rep_data_some hrep (by have := hrep.2.1; omega)
  obtain ⟨hlen, hle, hbl, hsl⟩ := (rep_some_iff hd).mp hrep
  have hp : p < h.length := blockLen_lt_length hbl
  have hpq : p ≠ h.length := by omega
  have hsrc : ∀ i, i < v.size_ → ∃ y, slot h1 p i = some (some y) := by
    intro i hi
    rw [hsl1, if_neg hpq, hsl i (by omega)]
    exact ⟨xs[i], by rw [List.getElem?_eq_getElem (by omega)]⟩
  have hLq : blockLen h1 h.length = some n := by rw [hbl1, if_pos rfl]
  obtain ⟨g, e, sh, sl⟩ := relocLoopT_throw hpq hsrc hLq (by omega) hk ht hmin
  have hdead : ∀ j, j < k → slot g p j = some none := by
    intro j hj
    rw [sl, if_neg (fun hc => hpq hc.1), if_pos ⟨rfl, hj⟩]
  have hmoved : ∀ j, j < k → slot g h.length j = some xs[j]? := by
    intro j hj
    rw [sl, if_pos ⟨rfl, hj⟩, hsl1, if_neg hpq, hsl j (by omega)]
  refine ⟨g, p, hd, ?_, hdead, hmoved, by rw [sh.2]; exact hLq,
    by rw [sh.2, hbl1, if_neg hpq]; exact hbl,
    rep_dead_slot hd (show 0 < v.size_ by omega) (hdead 0 hk0), ?_,
    dtor_dead_slot hd (by omega) (hdead 0 hk0)⟩
  · unfold ReserveT
    rw [if_pos hn, hAlloc]
    simp only [hd, e]
  · unfold index
    rw [if_pos (show 0 < v.size_ by omega), hd]
    cases el : load g (some p) 0 with
    | none => rfl
    | some y =>
      obtain ⟨p2, hp2, hy⟩ := load_some el
      cases hp2
      rw [hdead 0 hk0] at hy
      cases hy

/-- C17: a construction that throws in the middle of a mutating operation
leaves the vector broken.  (1) `v = [1, 2]` with capacity 2: `Reserve(4)`,
`PushBack(9)` and `Insert(begin(), 9)` relocate the elements to a new block;
when a move construction after the first relocation throws, the exception
leaves the call with `size_ = 2` and `data_` still the old block, whose slot 0
has already been destroyed: reading `v[0]` and destroying `v` are undefined,
and the new block, with the element moved into it, is owned by nothing.
(2) `v = [1, 2]` with capacity 4: `Resize(4)` constructs slot 2, the
construction for slot 3 throws, and the call ends with `size_ = 2` and a live
element in slot 2, outside `[0, size_)`.  In neither state is there a list of
elements that the vector represents. -/
theorem C17_throwing_construction_breaks_the_vector :
    Rep ([some [some (1 : Int), some 2]] : Heap Int) ⟨2, 2, some 0⟩ [1, 2] ∧
    ReserveT (fun i => decide (i = 1)) ([some [some (1 : Int), some 2]] : Heap Int)
        ⟨2, 2, some 0⟩ 4 =
      Run.thrown Exception.element
        ([some [none, some 2], some [some 1, none, none, none]], ⟨2, 2, some 0⟩) ∧
    PushBackT (fun i => decide (i = 1)) ([some [some (1 : Int), some 2]] : Heap Int)
        ⟨2, 2, some 0⟩ 9 =
      Run.thrown Exception.element
        ([some [none, some 2], some [some 1, none, none, none]], ⟨2, 2, some 0⟩) ∧
    EmplaceGrowT (fun i => decide (i = 2)) ([some [some (1 : Int), some 2]] : Heap Int)
        ⟨2, 2, some 0⟩ ⟨some 0, 0⟩ 9 =
      Run.thrown Exception.element
        ([some [none, some 2], some [some 9, some 1, none, none]], ⟨2, 2, some 0⟩) ∧
    slot ([some [none, some 2], some [some 1, none, none, none]] : Heap Int) 0 0 = some none ∧
    index ([some [none, some 2], some [some 1, none, none, none]] : Heap Int)
      ⟨2, 2, some 0⟩ 0 = none ∧
    dtor ([some [none, some 2], some [some 1, none, none, none]] : Heap Int)
      ⟨2, 2, some 0⟩ = none ∧
    (∀ ys, ¬ Rep ([some [none, some 2], some [some 1, none, none, none]] : Heap Int)
      ⟨2, 2, some 0⟩ ys) ∧
    (∀ ys, ¬ Rep ([some [none, some 2], some [some 9, some 1, none, none]] : Heap Int)
      ⟨2, 2, some 0⟩ ys) ∧
    Rep ([some [some (1 : Int), some 2, none, none]] : Heap Int) ⟨2, 4, some 0⟩ [1, 2] ∧
    ResizeT (fun i => decide (i = 3)) ([some [some (1 : Int), some 2, none, none]] : Heap Int)
        ⟨2, 4, some 0⟩ 4 =
      Run.thrown Exception.element ([some [some 1, some 2, some 0, none]], ⟨2, 4, some 0⟩) ∧
    slot ([some [some 1, some 2, some 0, none]] : Heap Int) 0 2 = some (some 0) ∧
    (∀ ys, ¬ Rep ([some [some 1, some 2, some 0, none]] : Heap Int) ⟨2, 4, some 0⟩ ys) := by
  refine ⟨by decide, rfl, rfl, rfl, rfl, rfl, rfl, ?_, ?_, by decide, rfl, rfl, ?_⟩
  · exact rep_dead_slot (p := 0) (j := 0) rfl (by decide) rfl
  · exact rep_dead_slot (p := 0) (j := 0) rfl (by decide) rfl
  · exact rep_stray_slot (p := 0) (j := 2) (y := 0) rfl (by decide) rfl

/-! ## The shift of the no-growth insertion -/

theorem poked_live {h g : Heap α} {p i : Nat} {x : α} (pk : Poked h g p i (some x))
    {r j : Nat} (hl : ∃ y, slot h r j = some (some y)) : ∃ z, slot g r j = some (some z) := by
  rw [pk.2.2]
  by_cases hc : r = p ∧ j = i
  · rw [if_pos hc]; exact ⟨x, rfl⟩
  · rw [if_neg hc]; exact hl

theorem move_backward_aux_live [Elem α] (d : Option Nat) :
    ∀ (n last dl : Nat) (h g : Heap α), move_backward_aux d n last dl h = some g →
      ∀ r j, (∃ y, slot h r j = some (some y)) → ∃ z, slot g r j = some (some z) := by
  intro n
  induction n with
  | zero => intro last dl h g e r j hl; cases e; exact hl
  | succ n ih =>
    intro last dl h g e r j hl
    unfold move_backward_aux at e
    split at e
    · next y h1 e1 =>
      obtain ⟨p, -, -, p1⟩ := moveOut_some e1
      split at e
      · next h2 e2 =>
        obtain ⟨p2, L, -, -, -, pk2⟩ := assign_some e2
        exact ih _ _ h2 g e r j (poked_live pk2 (poked_live p1 hl))
      · cases e
    · cases e

/-- For every well-formed vector with spare capacity and every offset
`k < size_`: the first step of the shift of `Emplace` moves out of slot
`size_ - 1` and assigns to slot `size_`, which is raw at that moment.  For an
element type that is not an implicit-lifetime type that assignment, the
shift and the whole insertion are undefined.  For an implicit-lifetime type
the shift is defined, and when it is done slot `k`, where the new element is
then constructed, holds a live object. -/
theorem shift_assigns_raw_slot [Elem α] {h : Heap α} {v : SimpleVector} {xs : List α}
    (k : Nat) (hrep : Rep h v xs) (hk : k < v.size_) (hlt : v.size_ < v.capacity_) :
    ∃ p y h1, v.data_ = some p ∧
      moveOut h v.data_ (v.size_ - 1) = some (y, h1) ∧ slot h1 p v.size_ = some none ∧
      move_backward v.data_ k v.size_ (v.size_ + 1) h =
        (assign h1 v.data_ (v.size_ + 1 - 1) y).bind (fun h2 =>
          move_backward_aux v.data_ (v.size_ - k - 1) (v.size_ - 1) (v.size_ + 1 - 1) h2) ∧
      (Elem.implicitLifetime α = false →
        assign h1 v.data_ (v.size_ + 1 - 1) y = none ∧
        move_backward v.data_ k v.size_ (v.size_ + 1) h = none ∧
        ∀ a : Arg α, Emplace h v ⟨v.data_, k⟩ a = none) ∧
      (Elem.implicitLifetime α = true →
        ∃ h3 z, move_backward v.data_ k v.size_ (v.size_ + 1) h = some h3 ∧
          slot h3 p k = some (some z) ∧
          ∀ a : Arg α, Emplace h v ⟨v.data_, k⟩ a =
            (constructArg h3 v.data_ k a).map (fun g =>
              ((⟨v.data_, k⟩ : Iter), g, { v with size_ := v.size_ + 1 }))) := by
  obtain ⟨p, hd⟩ := rep_data_some hrep (by omega)
  obtain ⟨hlen, -, hbl, hsl⟩ := (rep_some_iff hd).mp hrep
  have hlast : slot h p (v.size_ - 1) = some (some xs[v.size_ - 1]) := by
    rw [hsl _ (by omega), List.getElem?_eq_getElem (by omega)]
  obtain ⟨h1, e1, p1⟩ := moveOut_ok hlast
  have hraw : slot h1 p v.size_ = some none := by
    rw [p1.2.2, if_neg (by omega), hsl _ hlt, List.getElem?_eq_none (by omega)]
  have hunf : move_backward (some p) k v.size_ (v.size_ + 1) h =
      (assign h1 (some p) (v.size_ + 1 - 1) xs[v.size_ - 1]).bind (fun h2 =>
        move_backward_aux (some p) (v.size_ - k - 1) (v.size_ - 1) (v.size_ + 1 - 1) h2) := by
    have hm : v.size_ - k = (v.size_ - k - 1) + 1 := by omega
    unfold move_backward
    generalize v.size_ - k - 1 = m at hm
    rw [hm, move_backward_aux]
    simp only [Nat.add_sub_cancel, e1]
    cases assign h1 (some p) v.size_ xs[v.size_ - 1] with
    | none => rfl
    | some h2 => rfl
  have hemp : ∀ (a : Arg α) (r : Option (Heap α)),
      move_backward (some p) k v.size_ (v.size_ + 1) h = r →
      Emplace h v ⟨v.data_, k⟩ a =
        r.bind (fun h3 => (constructArg h3 v.data_ k a).map (fun g =>
          ((⟨v.data_, k⟩ : Iter), g, { v with size_ := v.size_ + 1 }))) := by
    intro a r hr
    unfold Emplace
    rw [offsetOf_data]
    simp only [if_neg (Nat.ne_of_lt hlt), if_pos hk, hd, hr]
    cases r with
    | none => rfl
    | some h3 =>
      simp only [Option.some_bind]
      cases constructArg h3 (some p) k a with
      | none => rfl
      | some g => rfl
  refine ⟨p, xs[v.size_ - 1], h1, hd, by rw [hd]; exact e1, hraw, by rw [hd]; exact hunf,
    ?_, ?_⟩
  · intro himp
    have ha : assign h1 (some p) (v.size_ + 1 - 1) xs[v.size_ - 1] = none := by
      rw [Nat.add_sub_cancel]
      exact assign_raw _ hraw himp
    have hmb : move_backward (some p) k v.size_ (v.size_ + 1) h = none := by
      rw [hunf, ha]; rfl
    refine ⟨by rw [hd]; exact ha, by rw [hd]; exact hmb, ?_⟩
    intro a
    rw [hemp a none hmb]
    rfl
  · intro himp
    obtain ⟨h3, e3, -, -⟩ := move_backward_aux_ok (p := p) (L := v.capacity_) himp
      (v.size_ - k) v.size_ h (by omega)
      (fun j hj1 hj2 => ⟨xs[j], by rw [hsl j (by omega), List.getElem?_eq_getElem (by omega)]⟩)
      hbl hlt
    have hk0 : ∃ y, slot h p k = some (some y) :=
      ⟨xs[k], by rw [hsl k (by omega), List.getElem?_eq_getElem (by omega)]⟩
    obtain ⟨z, hz⟩ := move_backward_aux_live (some p) _ _ _ h h3 e3 p k hk0
    refine ⟨h3, z, by rw [hd]; exact e3, hz, ?_⟩
    intro a
    rw [hemp a (some h3) e3]
    rfl

/-- C19: the shift of the no-growth insertion assigns to a raw slot, and the
new element is constructed over a live object.  For
`v = [X(1), X(2), X(3)]` with capacity 4 and `Insert(begin(), X(9))`: the
first step of `std::move_backward` moves out of slot 2 and assigns to slot 3,
which is raw at that moment (no object was ever constructed there); for the
class `X` this assignment, and with it the shift and the insertion, is
undefined.  For `int`, an implicit-lifetime type, the same shift on
`[1, 2, 3]` is defined and leaves slot 0 holding the live moved-from object,
and `new (data_ + 0) int(9)` constructs over it without destroying it; the
final contents are `[9, 1, 2, 3]` with the slots `[0, 4)` live.  At `end()`
there is no shift and the new element is constructed into the raw slot. -/
theorem C19_shift_assigns_a_raw_slot :
    Rep ([some [some (⟨1⟩ : X), some ⟨2⟩, some ⟨3⟩, none]] : Heap X) ⟨3, 4, some 0⟩
      [⟨1⟩, ⟨2⟩, ⟨3⟩] ∧
    moveOut ([some [some (⟨1⟩ : X), some ⟨2⟩, some ⟨3⟩, none]] : Heap X) (some 0) (3 - 1) =
      some (⟨3⟩, [some [some ⟨1⟩, some ⟨2⟩, some ⟨0⟩, none]]) ∧
    slot ([some [some (⟨1⟩ : X), some ⟨2⟩, some ⟨0⟩, none]] : Heap X) 0 3 = some none ∧
    move_backward (some 0) 0 3 (3 + 1)
        ([some [some (⟨1⟩ : X), some ⟨2⟩, some ⟨3⟩, none]] : Heap X) =
      (assign ([some [some (⟨1⟩ : X), some ⟨2⟩, some ⟨0⟩, none]] : Heap X) (some 0) 3 ⟨3⟩).bind
        (fun h2 => move_backward_aux (some 0) 2 2 3 h2) ∧
    assign ([some [some (⟨1⟩ : X), some ⟨2⟩, some ⟨0⟩, none]] : Heap X) (some 0) 3 ⟨3⟩ =
      none ∧
    move_backward (some 0) 0 3 (3 + 1)
        ([some [some (⟨1⟩ : X), some ⟨2⟩, some ⟨3⟩, none]] : Heap X) = none ∧
    Insert ([some [some (⟨1⟩ : X), some ⟨2⟩, some ⟨3⟩, none]] : Heap X) ⟨3, 4, some 0⟩
        (begin_ ⟨3, 4, some 0⟩) (Arg.value ⟨9⟩) = none ∧
    Insert ([some [some (⟨1⟩ : X), some ⟨2⟩, some ⟨3⟩, none]] : Heap X) ⟨3, 4, some 0⟩
        (end_ ⟨3, 4, some 0⟩) (Arg.value ⟨9⟩) =
      (construct ([some [some (⟨1⟩ : X), some ⟨2⟩, some ⟨3⟩, none]] : Heap X) (some 0) 3
        ⟨9⟩).map (fun g => (⟨some 0, 3⟩, g, ⟨4, 4, some 0⟩)) ∧
    Rep ([some [some (1 : Int), some 2, some 3, none]] : Heap Int) ⟨3, 4, some 0⟩ [1, 2, 3] ∧
    moveOut ([some [some (1 : Int), some 2, some 3, none]] : Heap Int) (some 0) (3 - 1) =
      some (3, [some [some 1, some 2, some 3, none]]) ∧
    slot ([some [some (1 : Int), some 2, some 3, none]] : Heap Int) 0 3 = some none ∧
    move_backward (some 0) 0 3 (3 + 1)
        ([some [some (1 : Int), some 2, some 3, none]] : Heap Int) =
      some [some [some 1, some 1, some 2, some 3]] ∧
    slot ([some [some (1 : Int), some 1, some 2, some 3]] : Heap Int) 0 0 = some (some 1) ∧
    Insert ([some [some (1 : Int), some 2, some 3, none]] : Heap Int) ⟨3, 4, some 0⟩
        (begin_ ⟨3, 4, some 0⟩) (Arg.value 9) =
      (construct ([some [some (1 : Int), some 1, some 2, some 3]] : Heap Int) (some 0) 0
        9).map (fun g => (⟨some 0, 0⟩, g, ⟨4, 4, some 0⟩)) ∧
    Insert ([some [some (1 : Int), some 2, some 3, none]] : Heap Int) ⟨3, 4, some 0⟩
        (begin_ ⟨3, 4, some 0⟩) (Arg.value 9) =
      some (⟨some 0, 0⟩, [some [some 9, some 1, some 2, some 3]], ⟨4, 4, some 0⟩) ∧
    Rep ([some [some (9 : Int), some 1, some 2, some 3]] : Heap Int) ⟨4, 4, some 0⟩
      [9, 1, 2, 3] := by
  refine ⟨by decide, rfl, rfl, rfl, rfl, rfl, rfl, rfl, by decide, rfl, rfl, rfl, rfl, rfl,
    rfl, by decide⟩

end SimpleVector
